import Mathlib

/-!
# Include-Me: CV analysis and scoring engine (`script.js`)

A shallow embedding of the analysis pipeline of `script.js`:
`extractTextFromPDF`, `performAnalysis`, `detectExperienceYears`,
`detectEducation`, `calculateFormatScore` and `generateRecommendations`,
together with the string and regular-expression primitives of JavaScript they
rely on.

Modelling conventions.

* A JavaScript string is the list of its UTF-16 code units (`JSString`).
* What the host environment supplies is collected in `Host`: the calendar year
  returned by `new Date().getFullYear()` and the Unicode lowercase mapping of
  code units outside ASCII. Every statement below holds for every host.
* Regular expressions are written as abstract syntax, one node per construct of
  the source pattern, and run by a backtracking matcher that follows the
  continuation-passing semantics of ECMA-262 (22.2.2). The matcher is shown to
  find a match exactly when the pattern, read as a relation between positions
  (`Regex.Matches`), has one.
* Code that may throw returns an `Except`: the `try` block of
  `extractTextFromPDF` ends with the transcript or with the error thrown, and
  the function itself with the value of `cvText` it leaves.
* `NaN` is `none` of an `Option`. The number `parseInt` returns for a run of
  digits is the nearest double (`Years.ofNat`): the integer itself below `2 ^ 53`
  and `Infinity` beyond the largest double; so the years of experience are an
  integer or `Infinity` (`Years`), and a difference of years may be `-Infinity`
  (`SignedYears`).
* The scores of `performAnalysis` are computed exactly (`Int`, `ℚ`). The match
  percentage of a job is computed in double precision: its quotient and its
  product are rounded by `roundDouble` (round to nearest, ties to even), because
  there the rounding decides the result.

The job matching of `app.js` (`jobsDatabase`, `calculateJobMatch`, the thresholds
used in `displayJobs`) and of `Job.js` (`Job`, with `calculatePercentage` of `utils.js`
and `MATCH_LEVELS` of `constants.js`) follows the analysis.
-/

namespace IncludeMe

/-! ## Strings -/

/-- A JavaScript string, as its sequence of UTF-16 code units. -/
abbrev JSString := List Nat

/-- UTF-16 encoding of one Unicode scalar value. -/
def utf16 (c : Char) : List Nat :=
  if c.toNat < 65536 then [c.toNat]
  else [55296 + (c.toNat - 65536) / 1024, 56320 + (c.toNat - 65536) % 1024]

/-- The JavaScript string denoted by a string literal. -/
def js (s : String) : JSString := s.toList.flatMap utf16

/-- What the analysis takes from its environment. -/
structure Host where
  /-- The value of `new Date().getFullYear()`. -/
  currentYear : Int
  /-- The lowercase mapping that `String.prototype.toLowerCase` applies to a code unit
  outside ASCII; it may depend on the units before it (nearest first) and after it. -/
  lowerNonAscii : List Nat → Nat → List Nat → List Nat

/-- Lowercase mapping of an ASCII code unit. -/
def asciiLower (c : Nat) : Nat := if 65 ≤ c ∧ c ≤ 90 then c + 32 else c

/-- Uppercase mapping of an ASCII code unit. -/
def asciiUpper (c : Nat) : Nat := if 97 ≤ c ∧ c ≤ 122 then c - 32 else c

/-- The loop of `toLowerCase`, with the code units already passed (nearest first). -/
def toLowerCaseFrom (h : Host) : List Nat → JSString → JSString
  | _, [] => []
  | before, c :: rest =>
    (if c < 128 then [asciiLower c] else h.lowerNonAscii before c rest)
      ++ toLowerCaseFrom h (c :: before) rest

/-- The method `String.prototype.toLowerCase`. -/
def toLowerCase (h : Host) (s : JSString) : JSString := toLowerCaseFrom h [] s

/-- The method `String.prototype.startsWith`. -/
def startsWith : JSString → JSString → Bool
  | _, [] => true
  | [], _ :: _ => false
  | a :: s, b :: p => a == b && startsWith s p

/-- The method `String.prototype.includes`: the search string occurs at some position. -/
def includes : JSString → JSString → Bool
  | [], p => startsWith [] p
  | a :: s, p => startsWith (a :: s) p || includes s p

/-! ## Numbers

The experience detector computes with integers that a double may not hold: the number
`parseInt` returns is the double nearest to the digits, and `Infinity` beyond the largest
double. `NaN` is `none` of an `Option`. -/

/-- The loop of `floorLog2`: at most `fuel` halvings. -/
def floorLog2Loop : Nat → Nat → Nat
  | 0, _ => 0
  | fuel + 1, n => if n < 2 then 0 else floorLog2Loop fuel (n / 2) + 1

/-- The position of the leading binary digit of a positive integer. -/
def floorLog2 (n : Nat) : Nat := floorLog2Loop n n

/-- The integer nearest to `n / d`, a tie going to the even one. -/
def roundHalfEven (n d : Nat) : Nat :=
  if 2 * (n % d) < d then n / d
  else if d < 2 * (n % d) then n / d + 1
  else if (n / d) % 2 = 0 then n / d else n / d + 1

/-- A number that is an integer or `Infinity`: what `parseInt` returns for digits, and what
`detectExperienceYears` keeps as its maximum and returns. -/
inductive Years where
  | finite (n : Int)
  | Infinity
deriving DecidableEq, Repr

/-- A number that is an integer, `Infinity` or `-Infinity`: the value of a difference. -/
inductive SignedYears where
  | negInfinity
  | finite (n : Int)
  | Infinity
deriving DecidableEq, Repr

/-- A number of years among the signed numbers. -/
def Years.toSigned : Years → SignedYears
  | .finite n => .finite n
  | .Infinity => .Infinity

/-- The comparison `a <= b`. -/
def Years.le : Years → Years → Prop
  | .finite a, .finite b => a ≤ b
  | .finite _, .Infinity => True
  | .Infinity, .finite _ => False
  | .Infinity, .Infinity => True

/-- The comparison `a < b`. -/
def Years.lt : Years → Years → Prop
  | .finite a, .finite b => a < b
  | .finite _, .Infinity => True
  | .Infinity, .finite _ => False
  | .Infinity, .Infinity => False

/-- The comparison `a <= b` of signed numbers. -/
def SignedYears.le : SignedYears → SignedYears → Prop
  | .negInfinity, _ => True
  | .finite _, .negInfinity => False
  | .finite a, .finite b => a ≤ b
  | .finite _, .Infinity => True
  | .Infinity, .negInfinity => False
  | .Infinity, .finite _ => False
  | .Infinity, .Infinity => True

/-- The comparison `a < b` of signed numbers. -/
def SignedYears.lt : SignedYears → SignedYears → Prop
  | .negInfinity, .negInfinity => False
  | .negInfinity, .finite _ => True
  | .negInfinity, .Infinity => True
  | .finite _, .negInfinity => False
  | .finite a, .finite b => a < b
  | .finite _, .Infinity => True
  | .Infinity, _ => False

instance {n : Nat} : OfNat Years n := ⟨.finite n⟩

instance : LE Years := ⟨Years.le⟩

instance : LT Years := ⟨Years.lt⟩

instance (a b : Years) : Decidable (a ≤ b) :=
  match a, b with
  | .finite a, .finite b => inferInstanceAs (Decidable (a ≤ b))
  | .finite _, .Infinity => isTrue trivial
  | .Infinity, .finite _ => isFalse id
  | .Infinity, .Infinity => isTrue trivial

instance (a b : Years) : Decidable (a < b) :=
  match a, b with
  | .finite a, .finite b => inferInstanceAs (Decidable (a < b))
  | .finite _, .Infinity => isTrue trivial
  | .Infinity, .finite _ => isFalse id
  | .Infinity, .Infinity => isFalse id

instance {n : Nat} : OfNat SignedYears n := ⟨.finite n⟩

instance : Neg SignedYears :=
  ⟨fun
    | .negInfinity => .Infinity
    | .finite n => .finite (-n)
    | .Infinity => .negInfinity⟩

instance : LE SignedYears := ⟨SignedYears.le⟩

instance : LT SignedYears := ⟨SignedYears.lt⟩

instance (a b : SignedYears) : Decidable (a ≤ b) :=
  match a, b with
  | .negInfinity, _ => isTrue trivial
  | .finite _, .negInfinity => isFalse id
  | .finite a, .finite b => inferInstanceAs (Decidable (a ≤ b))
  | .finite _, .Infinity => isTrue trivial
  | .Infinity, .negInfinity => isFalse id
  | .Infinity, .finite _ => isFalse id
  | .Infinity, .Infinity => isTrue trivial

instance (a b : SignedYears) : Decidable (a < b) :=
  match a, b with
  | .negInfinity, .negInfinity => isFalse id
  | .negInfinity, .finite _ => isTrue trivial
  | .negInfinity, .Infinity => isTrue trivial
  | .finite _, .negInfinity => isFalse id
  | .finite a, .finite b => inferInstanceAs (Decidable (a < b))
  | .finite _, .Infinity => isTrue trivial
  | .Infinity, _ => isFalse id

/-- The number value of the mathematical value `n` of a run of digits: `n` itself below
`2 ^ 53`, otherwise the double nearest to it, a tie going to the even significand, and
`Infinity` when that is beyond the largest double, which is when the rounding reaches
`2 ^ 1024`. -/
def Years.ofNat (n : Nat) : Years :=
  if n < 2 ^ 53 then .finite n
  else
    let ulp := 2 ^ (floorLog2 n - 52)
    let rounded := roundHalfEven n ulp * ulp
    if floorLog2 rounded < 1024 then .finite rounded else .Infinity

/-- The difference `a - b`; `none` stands for `NaN`, which `Infinity - Infinity` is. Two
integers are subtracted exactly, as doubles are while the integers and their difference
are below `2 ^ 53`: the integers subtracted here are years of four digits and the
current year. -/
def Years.sub : Years → Years → Option SignedYears
  | .finite a, .finite b => some (.finite (a - b))
  | .finite _, .Infinity => some .negInfinity
  | .Infinity, .finite _ => some .Infinity
  | .Infinity, .Infinity => none

/-- The value of a decimal digit code unit. -/
def digitValue (c : Nat) : Option Nat := if 48 ≤ c ∧ c ≤ 57 then some (c - 48) else none

/-- The digits at the front of a string, accumulated in base ten. -/
def parseDigits : Option Nat → JSString → Option Nat
  | acc, [] => acc
  | acc, c :: rest =>
    match digitValue c with
    | some d => parseDigits (some (acc.getD 0 * 10 + d)) rest
    | none => acc

/-- The function `parseInt` on a string that starts with a decimal digit or with no number at all
(the strings it is given here are the digit captures of the patterns): the number nearest
to the value of the leading digits, `none` standing for `NaN`. -/
def parseInt (s : JSString) : Option Years := (parseDigits none s).map Years.ofNat

/-! ## Regular expressions -/

/-- One item of a character class. -/
inductive ClassAtom where
  /-- A literal character. -/
  | unit (c : Char)
  /-- A range `a-b`. -/
  | range (lo hi : Char)
  /-- The class `\d`. -/
  | digit
  /-- The class `\s` (WhiteSpace and LineTerminator). -/
  | space

/-- A character class `[...]`, or a single atom. -/
abbrev CharSet := List ClassAtom

/-- Code units matched by `\s`. -/
def isSpace (c : Nat) : Bool :=
  (9 ≤ c && c ≤ 13) || c == 32 || c == 160 || c == 5760 || (8192 ≤ c && c ≤ 8202)
    || c == 8232 || c == 8233 || c == 8239 || c == 8287 || c == 12288 || c == 65279

/-- Code units matched by `\d`. -/
def isDigit (c : Nat) : Bool := 48 ≤ c && c ≤ 57

/-- Code units matched by `\w`; `\b` is defined from it. -/
def isWordChar (c : Nat) : Bool :=
  (97 ≤ c && c ≤ 122) || (65 ≤ c && c ≤ 90) || (48 ≤ c && c ≤ 57) || c == 95

/-- Membership of a code unit in the set an atom denotes. -/
def ClassAtom.contains : ClassAtom → Nat → Bool
  | .unit a, c => c == a.toNat
  | .range lo hi, c => lo.toNat ≤ c && c ≤ hi.toNat
  | .digit, c => isDigit c
  | .space, c => isSpace c

/-- CharacterSetMatcher: a code unit matches when the set has a member with the same
canonical form. Without the `i` flag that is membership. With it (and no `u` flag) the
canonical form is the uppercase mapping, which never sends a code unit outside ASCII to
an ASCII one; the classes used under `i` here hold ASCII units, white space and the en
dash only, so the ASCII case pair of the unit decides. -/
def CharSet.mem (ignoreCase : Bool) (cs : CharSet) (c : Nat) : Bool :=
  cs.any fun a =>
    a.contains c || (ignoreCase && (a.contains (asciiUpper c) || a.contains (asciiLower c)))

/-- Abstract syntax of the patterns. -/
inductive Regex where
  /-- The empty alternative. -/
  | empty
  /-- One code unit of a class (a literal is a one-atom class). -/
  | set (cs : CharSet)
  /-- A greedy quantifier on a one-unit atom: `*`, `+`, `?`, `...{m,n}`. -/
  | rep (cs : CharSet) (min : Nat) (max : Option Nat)
  /-- Concatenation. -/
  | seq (a b : Regex)
  /-- Disjunction `a|b`. -/
  | alt (a b : Regex)
  /-- The quantifier `?` on a group. -/
  | opt (a : Regex)
  /-- A capturing group (each pattern has at most one; it is group 1). -/
  | group (a : Regex)
  /-- The assertion `\b`. -/
  | wordBoundary
  /-- The assertion `$` (no `m` flag). -/
  | endOfInput

/-- Concatenation of a list of terms. -/
def Regex.cat : List Regex → Regex
  | [] => .empty
  | [r] => r
  | r :: rs => .seq r (Regex.cat rs)

/-- A literal character. -/
def Regex.chr (c : Char) : Regex := .set [.unit c]

/-- A literal word. -/
def Regex.str (s : String) : Regex := Regex.cat (s.toList.map Regex.chr)

/-- Whether a pattern contains a capturing group. -/
def Regex.hasGroup : Regex → Bool
  | .seq a b => a.hasGroup || b.hasGroup
  | .alt a b => a.hasGroup || b.hasGroup
  | .opt a => a.hasGroup
  | .group _ => true
  | _ => false

/-- The state of a match: the input before the end index (nearest first), the input
from the end index on, and the capture of group 1. -/
structure MatchState where
  before : List Nat
  after : List Nat
  capture : Option JSString

/-- A matcher continuation. -/
abbrev Continuation := MatchState → Option MatchState

/-- The input consumed between two positions, given what lies before each. -/
def consumed (beforeStart beforeEnd : List Nat) : JSString :=
  (beforeEnd.take (beforeEnd.length - beforeStart.length)).reverse

/-- RepeatMatcher for a greedy quantifier on a one-unit atom: take one more unit while the
maximum allows, and fall back to the continuation when the minimum is reached. -/
def repeatSet (ignoreCase : Bool) (cs : CharSet) (k : Continuation) (cap : Option JSString) :
    Nat → Option Nat → List Nat → List Nat → Option MatchState
  | min, max, before, [] =>
    if max = some 0 then k ⟨before, [], cap⟩
    else if min = 0 then k ⟨before, [], cap⟩ else none
  | min, max, before, c :: rest =>
    if max = some 0 then k ⟨before, c :: rest, cap⟩
    else if cs.mem ignoreCase c then
      match repeatSet ignoreCase cs k cap (min - 1) (max.map (· - 1)) (c :: before) rest with
      | some z => some z
      | none => if min = 0 then k ⟨before, c :: rest, cap⟩ else none
    else if min = 0 then k ⟨before, c :: rest, cap⟩ else none

/-- The matcher of a pattern (ECMA-262, 22.2.2): run from a state with a continuation. -/
def Regex.run (ignoreCase : Bool) : Regex → MatchState → Continuation → Option MatchState
  | .empty, x, k => k x
  | .set cs, x, k =>
    match x.after with
    | [] => none
    | c :: rest => if cs.mem ignoreCase c then k ⟨c :: x.before, rest, x.capture⟩ else none
  | .rep cs min max, x, k => repeatSet ignoreCase cs k x.capture min max x.before x.after
  | .seq a b, x, k => a.run ignoreCase x fun y => b.run ignoreCase y k
  | .alt a b, x, k =>
    match a.run ignoreCase x k with
    | some z => some z
    | none => b.run ignoreCase x k
  | .opt a, x, k =>
    match a.run ignoreCase ⟨x.before, x.after, if a.hasGroup then none else x.capture⟩
        (fun y => if y.after.length = x.after.length then none else k y) with
    | some z => some z
    | none => k x
  | .group a, x, k =>
    a.run ignoreCase x fun y => k ⟨y.before, y.after, some (consumed x.before y.before)⟩
  | .wordBoundary, x, k =>
    let a := (x.before.head?.map isWordChar).getD false
    let b := (x.after.head?.map isWordChar).getD false
    if a != b then k x else none
  | .endOfInput, x, k => if x.after.isEmpty then k x else none

/-- A successful match: `index`, `match[0]` and `match[1]`. -/
structure MatchResult where
  index : Nat
  matched : JSString
  group1 : Option JSString

/-- One attempt at a given index. -/
def Regex.matchAt (ignoreCase : Bool) (r : Regex) (before after : List Nat) :
    Option MatchResult :=
  (r.run ignoreCase ⟨before, after, none⟩ some).map fun y =>
    ⟨before.length, consumed before y.before, y.capture⟩

/-- RegExpBuiltinExec without the `g` flag: the first index, from the current one on, at
which the pattern matches. -/
def Regex.execFrom (ignoreCase : Bool) (r : Regex) : List Nat → List Nat → Option MatchResult
  | before, [] => r.matchAt ignoreCase before []
  | before, c :: rest =>
    match r.matchAt ignoreCase before (c :: rest) with
    | some m => some m
    | none => r.execFrom ignoreCase (c :: before) rest

/-- All matches of a global pattern, each search starting where the previous match ended
(one unit further after an empty match); `skip` counts the indices still inside the
previous match. -/
def Regex.matchAllFrom (ignoreCase : Bool) (r : Regex) :
    Nat → List Nat → List Nat → List MatchResult
  | skip, before, [] => if skip = 0 then (r.matchAt ignoreCase before []).toList else []
  | skip + 1, before, c :: rest => r.matchAllFrom ignoreCase skip (c :: before) rest
  | 0, before, c :: rest =>
    match r.matchAt ignoreCase before (c :: rest) with
    | some m => m :: r.matchAllFrom ignoreCase (m.matched.length - 1) (c :: before) rest
    | none => r.matchAllFrom ignoreCase 0 (c :: before) rest

/-- A regular-expression object: the text of the literal, its syntax and its flags. -/
structure RegExp where
  source : String
  pattern : Regex
  ignoreCase : Bool
  global : Bool

/-- The method `RegExp.prototype.exec` from index 0. -/
def RegExp.exec (re : RegExp) (s : JSString) : Option MatchResult :=
  re.pattern.execFrom re.ignoreCase [] s

/-- The method `RegExp.prototype.test` from index 0. -/
def RegExp.test (re : RegExp) (s : JSString) : Bool := (re.exec s).isSome

/-- The method `String.prototype.matchAll` with a global pattern. -/
def matchAll (s : JSString) (re : RegExp) : List MatchResult :=
  re.pattern.matchAllFrom re.ignoreCase 0 [] s

/-- The method `String.prototype.match`: the array it returns, `none` for `null`. Without the `g`
flag the array is `[match[0], match[1]]`; with it, the array of all matched strings. -/
def strMatch (s : JSString) (re : RegExp) : Option (List (Option JSString)) :=
  if re.global then
    match matchAll s re with
    | [] => none
    | ms => some (ms.map fun m => some m.matched)
  else
    (re.exec s).map fun m => [some m.matched, m.group1]

/-! ## `script.js`: the analysis -/

/-- The function `Math.round` on an exact value: the nearest integer, halves upwards. -/
def Math.round (x : ℚ) : Int := ⌊x + 1 / 2⌋

/-- The function `Math.max` on the running maximum, which is a number of years or `NaN`,
and a signed number; `none` stands for `NaN`. -/
def Math.max : Option Years → Option SignedYears → Option Years
  | some a, some .negInfinity => some a
  | some (.finite a), some (.finite b) => some (.finite (Max.max a b))
  | some .Infinity, some (.finite _) => some .Infinity
  | some _, some .Infinity => some .Infinity
  | _, _ => none

/-- The local `skillsDatabase` of `performAnalysis`. -/
def skillsDatabase : List JSString := [
  js "javascript", js "python", js "java", js "c++", js "react", js "angular", js "vue",
  js "node.js", js "express", js "django", js "flask", js "spring", js "sql", js "mongodb",
  js "postgresql", js "mysql", js "aws", js "azure", js "gcp", js "docker", js "kubernetes",
  js "git", js "agile", js "scrum", js "leadership", js "communication", js "teamwork",
  js "problem solving", js "html", js "css", js "typescript", js "machine learning",
  js "data analysis", js "project management", js "rest api", js "graphql"]

/-- The first pattern: `/(\d+)\+?\s*years?\s+(?:of\s+)?experience/i`. -/
def yearsOfExperiencePattern : RegExp where
  source := "(\\d+)\\+?\\s*years?\\s+(?:of\\s+)?experience"
  pattern := Regex.cat [
    .group (.rep [.digit] 1 none), .rep [.unit '+'] 0 (some 1), .rep [.space] 0 none,
    Regex.str "year", .rep [.unit 's'] 0 (some 1), .rep [.space] 1 none,
    .opt (Regex.cat [Regex.str "of", .rep [.space] 1 none]), Regex.str "experience"]
  ignoreCase := true
  global := false

/-- The second pattern: `/experience[:\s]+(\d+)\+?\s*years?/i`. -/
def experienceYearsPattern : RegExp where
  source := "experience[:\\s]+(\\d+)\\+?\\s*years?"
  pattern := Regex.cat [
    Regex.str "experience", .rep [.unit ':', .space] 1 none, .group (.rep [.digit] 1 none),
    .rep [.unit '+'] 0 (some 1), .rep [.space] 0 none, Regex.str "year",
    .rep [.unit 's'] 0 (some 1)]
  ignoreCase := true
  global := false

/-- The third pattern: `/(\d{4})\s*[-–]\s*(?:present|current|\d{4})/gi`, the dash class
holding the hyphen and the en dash (U+2013). -/
def dateRangePattern : RegExp where
  source := "(\\d\x7b4\x7d)\\s*[-–]\\s*(?:present|current|\\d\x7b4\x7d)"
  pattern := Regex.cat [
    .group (.rep [.digit] 4 (some 4)), .rep [.space] 0 none, .set [.unit '-', .unit '\u2013'],
    .rep [.space] 0 none,
    .alt (Regex.str "present") (.alt (Regex.str "current") (.rep [.digit] 4 (some 4)))]
  ignoreCase := true
  global := true

/-- The pattern `/\d{4}$/` applied to a matched date range. -/
def endYearPattern : RegExp where
  source := "\\d\x7b4\x7d$"
  pattern := Regex.cat [.rep [.digit] 4 (some 4), .endOfInput]
  ignoreCase := false
  global := false

/-- The e-mail pattern: `/\b[A-Za-z0-9._%+-]+@[A-Za-z0-9.-]+\.[A-Z|a-z]{2,}\b/`. -/
def emailPattern : RegExp where
  source := "\\b[A-Za-z0-9._%+-]+@[A-Za-z0-9.-]+\\.[A-Z|a-z]\x7b2,\x7d\\b"
  pattern := Regex.cat [
    .wordBoundary,
    .rep [.range 'A' 'Z', .range 'a' 'z', .range '0' '9', .unit '.', .unit '_', .unit '%',
      .unit '+', .unit '-'] 1 none,
    Regex.chr '@',
    .rep [.range 'A' 'Z', .range 'a' 'z', .range '0' '9', .unit '.', .unit '-'] 1 none,
    Regex.chr '.',
    .rep [.range 'A' 'Z', .unit '|', .range 'a' 'z'] 2 none,
    .wordBoundary]
  ignoreCase := false
  global := false

/-- The phone pattern:
`/(\+\d{1,3}[-.\s]?)?\(?\d{3}\)?[-.\s]?\d{3}[-.\s]?\d{4}/`. -/
def phonePattern : RegExp where
  source := "(\\+\\d\x7b1,3\x7d[-.\\s]?)?\\(?\\d\x7b3\x7d\\)?[-.\\s]?\\d\x7b3\x7d[-.\\s]?\\d\x7b4\x7d"
  pattern := Regex.cat [
    .opt (.group (Regex.cat [
      Regex.chr '+', .rep [.digit] 1 (some 3), .rep [.unit '-', .unit '.', .space] 0 (some 1)])),
    .rep [.unit '('] 0 (some 1), .rep [.digit] 3 (some 3), .rep [.unit ')'] 0 (some 1),
    .rep [.unit '-', .unit '.', .space] 0 (some 1), .rep [.digit] 3 (some 3),
    .rep [.unit '-', .unit '.', .space] 0 (some 1), .rep [.digit] 4 (some 4)]
  ignoreCase := false
  global := false

/-- The local `patterns` of `detectExperienceYears`. -/
def detectExperienceYears.patterns : List RegExp :=
  [yearsOfExperiencePattern, experienceYearsPattern, dateRangePattern]

/-- The body of the loop over the date ranges: the years one matched range spans.
`startYear` is `parseInt(match[1])`; the end year is the current year when the lowercased
match includes `present`, otherwise `parseInt` of the four digits that end the match, and
of `startYear` itself when the match does not end in four digits. -/
def detectExperienceYears.rangeYears (h : Host) (m : MatchResult) : Option SignedYears :=
  let startYear : Option Years := m.group1.bind parseInt
  let endYear : Option Years :=
    if includes (toLowerCase h m.matched) (js "present") then some (.finite h.currentYear)
    else
      match endYearPattern.exec m.matched with
      | some e => parseInt e.matched
      | none => startYear
  match endYear, startYear with
  | some e, some s => e.sub s
  | _, _ => none

/-- The callback of `patterns.forEach`: the new value of `maxYears` after one pattern. -/
def detectExperienceYears.step (h : Host) (text : JSString) (maxYears : Option Years)
    (pattern : RegExp) : Option Years :=
  match strMatch text pattern with
  | none => maxYears
  | some found =>
    if includes (js pattern.source) (js "\\d\x7b4\x7d") then
      (matchAll text pattern).foldl
        (fun maxYears m => Math.max maxYears (detectExperienceYears.rangeYears h m)) maxYears
    else
      Math.max maxYears (((found.getD 1 none).bind parseInt).map Years.toSigned)

/-- The function `detectExperienceYears(text)`. The last line is `maxYears || 2`: zero and `NaN` are
falsy. -/
def detectExperienceYears (h : Host) (text : JSString) : Years :=
  match detectExperienceYears.patterns.foldl (detectExperienceYears.step h text) (some 0) with
  | some (.finite 0) => 2
  | some maxYears => maxYears
  | none => 2

/-- An education entry. -/
structure Education where
  level : Nat
  name : String
deriving DecidableEq, Repr

/-- The local `degrees` of `detectEducation`, in the order of `Object.entries`. -/
def detectEducation.degrees : List (String × Education) := [
  ("phd", ⟨4, "Ph.D."⟩),
  ("doctorate", ⟨4, "Doctorate"⟩),
  ("master", ⟨3, "Master\x27s Degree"⟩),
  ("mba", ⟨3, "MBA"⟩),
  ("bachelor", ⟨2, "Bachelor\x27s Degree"⟩),
  ("associate", ⟨1, "Associate Degree"⟩),
  ("diploma", ⟨1, "Diploma"⟩)]

/-- The `for ... of` loop of `detectEducation`, from a given entry on, with the default
after the last entry. -/
def detectEducation.loop (textLower : JSString) : List (String × Education) → Education
  | [] => ⟨2, "Bachelor\x27s Degree"⟩
  | (key, value) :: rest =>
    if includes textLower (js key) then value else detectEducation.loop textLower rest

/-- The function `detectEducation(text)`. -/
def detectEducation (h : Host) (text : JSString) : Education :=
  detectEducation.loop (toLowerCase h text) detectEducation.degrees

/-- The function `calculateFormatScore(text, hasEmail, hasPhone)`. -/
def calculateFormatScore (text : JSString) (hasEmail hasPhone : Bool) : Nat :=
  let score := 50
  let score := if hasEmail then score + 20 else score
  let score := if hasPhone then score + 15 else score
  let score := if text.length > 500 then score + 10 else score
  let score := if text.length > 1000 then score + 5 else score
  min 100 score

/-- The function `generateRecommendations(skills, experience, education, hasEmail, hasPhone)`. -/
def generateRecommendations (skills : List JSString) (experience : Years)
    (education : Education)
    (hasEmail hasPhone : Bool) : List String :=
  let recommendations : List String := []
  let recommendations :=
    if skills.length < 5 then
      recommendations ++ ["Add more relevant technical skills to strengthen your profile"]
    else recommendations
  let recommendations :=
    if experience < 3 then
      recommendations ++
        ["Highlight any internships, projects, or volunteer work to showcase experience"]
    else recommendations
  let recommendations :=
    if !hasEmail || !hasPhone then
      recommendations ++
        ["Ensure your contact information (email and phone) is clearly visible"]
    else recommendations
  let recommendations :=
    if education.level < 2 then
      recommendations ++
        ["Consider pursuing additional certifications or degrees to enhance qualifications"]
    else recommendations
  let recommendations :=
    if !skills.any (fun s => [js "leadership", js "communication", js "teamwork"].contains s) then
      recommendations ++ ["Include soft skills like leadership, communication, and teamwork"]
    else recommendations
  let recommendations :=
    if skills.length > 0 && !skills.any (fun s =>
        [js "aws", js "azure", js "gcp", js "docker", js "kubernetes"].contains s) then
      recommendations ++
        ["Consider adding cloud technologies or DevOps skills for modern roles"]
    else recommendations
  if recommendations.length = 0 then
    recommendations ++ [
      "Excellent CV! Keep it updated with your latest achievements",
      "Consider tailoring your CV for specific job applications",
      "Add quantifiable achievements and metrics to your experience"]
  else recommendations

/-- The object `performAnalysis` returns. -/
structure AnalysisResult where
  overallScore : Int
  skills : List JSString
  skillsScore : Int
  experienceYears : Years
  experienceScore : Int
  education : Education
  educationScore : Int
  formatScore : Int
  hasEmail : Bool
  hasPhone : Bool
  recommendations : List String

/-- The local `skillsScore` of `performAnalysis`, from `detectedSkills.length`. -/
def skillsScore (detectedSkillsLength : Nat) : ℚ :=
  min 100 ((detectedSkillsLength : ℚ) / 10 * 100)

/-- The local `experienceScore` of `performAnalysis`:
`Math.min(100, (experienceYears / 10) * 100)`, which is 100 for `Infinity`. -/
def experienceScore (experienceYears : Years) : ℚ :=
  match experienceYears with
  | .finite n => min 100 ((n : ℚ) / 10 * 100)
  | .Infinity => 100

/-- The local `educationScore` of `performAnalysis`. -/
def educationScore (education : Education) : ℚ := (education.level : ℚ) * 25

/-- The local `overallScore` of `performAnalysis`. -/
def overallScore (skillsScore experienceScore educationScore formatScore : ℚ) : Int :=
  Math.round (skillsScore * 0.35 + experienceScore * 0.25 + educationScore * 0.25
    + formatScore * 0.15)

/-- The function `performAnalysis(text)`. -/
def performAnalysis (h : Host) (text : JSString) : AnalysisResult :=
  let textLower := toLowerCase h text
  let detectedSkills := skillsDatabase.filter fun skill =>
    includes textLower (toLowerCase h skill)
  let experienceYears := detectExperienceYears h text
  let education := detectEducation h text
  let hasEmail := emailPattern.test text
  let hasPhone := phonePattern.test text
  let formatScore := calculateFormatScore text hasEmail hasPhone
  { overallScore := overallScore (skillsScore detectedSkills.length)
      (experienceScore experienceYears) (educationScore education) formatScore
    skills := detectedSkills
    skillsScore := Math.round (skillsScore detectedSkills.length)
    experienceYears := experienceYears
    experienceScore := Math.round (experienceScore experienceYears)
    education := education
    educationScore := Math.round (educationScore education)
    formatScore := Math.round formatScore
    hasEmail := hasEmail
    hasPhone := hasPhone
    recommendations :=
      generateRecommendations detectedSkills experienceYears education hasEmail hasPhone }

/-! ## `script.js`: text extraction -/

/-- The method `Array.prototype.join` on an array of strings. -/
def join (separator : JSString) : List JSString → JSString
  | [] => []
  | [item] => item
  | item :: next :: rest => item ++ separator ++ join separator (next :: rest)

/-- What `extractTextFromPDF` reads of a parsed document: `numPages`, and for a page
number the `str` of the items of the text content of that page, or the error thrown by
`getPage` or `getTextContent`. -/
structure PDFDocument where
  numPages : Nat
  getPage : Nat → Except String (List JSString)

/-- What `extractTextFromPDF` reads of a file: the document that `file.arrayBuffer()` and
`pdfjsLib.getDocument` give, or the error one of them throws. -/
structure PDFFile where
  getDocument : Except String PDFDocument

/-- The loop `for (let i = 1; i <= pdf.numPages; i++)` of `extractTextFromPDF`, at page
`i` with the given number of pages still to read: the final `fullText`, or the error
thrown. -/
def extractTextFromPDF.loop (pdf : PDFDocument) : Nat → Nat → JSString → Except String JSString
  | 0, _, fullText => .ok fullText
  | remaining + 1, i, fullText =>
    match pdf.getPage i with
    | .error e => .error e
    | .ok items =>
      let pageText := join (js " ") items
      extractTextFromPDF.loop pdf remaining (i + 1) (fullText ++ (pageText ++ js "\n"))

/-- The `try` block of `extractTextFromPDF`: the value assigned to `cvText`, or the
error thrown. -/
def extractTextFromPDF.tryBlock (file : PDFFile) : Except String JSString :=
  match file.getDocument with
  | .error e => .error e
  | .ok pdf => extractTextFromPDF.loop pdf pdf.numPages 1 []

/-- The function `extractTextFromPDF(file)`: the value of `cvText` when it returns; an
error would be an exception thrown to the caller. -/
def extractTextFromPDF (file : PDFFile) : Except String JSString :=
  match extractTextFromPDF.tryBlock file with
  | .ok fullText => .ok fullText
  | .error _ => .ok (js "Error extracting text from PDF. Please try a different file.")

/-! ## Double precision

The quotient and the product in the match percentage are rounded to doubles: there a
rounding decides the result. -/

/-- The power of two with an integer exponent. -/
def twoPow (k : Int) : ℚ :=
  if 0 ≤ k then ((2 ^ k.toNat : Nat) : ℚ) else 1 / ((2 ^ (-k).toNat : Nat) : ℚ)

/-- The fraction `p / d` times a power of two, as a numerator and a denominator. -/
def scaleFraction (p d : Nat) (k : Int) : Nat × Nat :=
  if 0 ≤ k then (p * 2 ^ k.toNat, d) else (p, d * 2 ^ (-k).toNat)

/-- The binary exponent of a positive fraction: the `e` with
`2 ^ e ≤ p / d < 2 ^ (e + 1)`. -/
def binaryExponent (p d : Nat) : Int :=
  let e : Int := (floorLog2 p : Int) - (floorLog2 d : Int)
  if (scaleFraction p d (-e)).2 ≤ (scaleFraction p d (-e)).1 then e else e - 1

/-- Rounding of a positive fraction to 53 significant binary digits. -/
def roundPositive (p d : Nat) : ℚ :=
  let s := scaleFraction p d (52 - binaryExponent p d)
  (roundHalfEven s.1 s.2 : ℚ) * twoPow (binaryExponent p d - 52)

/-- The double nearest to an exact value: round to nearest, a tie going to the even
significand. The exponent range is not limited; the values rounded here lie far inside
it. -/
def roundDouble (q : ℚ) : ℚ :=
  match q.num, q.den with
  | Int.ofNat (p + 1), d + 1 => roundPositive (p + 1) (d + 1)
  | Int.negSucc p, d + 1 => -roundPositive (p + 1) (d + 1)
  | _, _ => 0

/-! ## `app.js`, `Job.js`, `utils.js`, `constants.js`: job matching -/

/-- A number that may be `NaN` (`none`). -/
abbrev JSNumber := Option ℚ

/-- The comparison `a >= b` of a number with a constant; it is false for `NaN`. -/
def JSNumber.ge (a : JSNumber) (b : ℚ) : Bool :=
  match a with
  | some x => decide (b ≤ x)
  | none => false

/-- The comparison `a < b` of a number with a constant; it is false for `NaN`. -/
def JSNumber.lt (a : JSNumber) (b : ℚ) : Bool :=
  match a with
  | some x => decide (x < b)
  | none => false

/-- A job: of its fields, the ones matching reads. -/
structure Job where
  id : String
  title : String
  skills : List JSString

/-- The constant `jobsDatabase` of `app.js`: of each job, the fields matching reads. -/
def jobsDatabase : List Job := [
  ⟨"job-1", "Frontend Developer",
    [js "react", js "javascript", js "html", js "css", js "git", js "communication"]⟩,
  ⟨"job-2", "Python Data Analyst",
    [js "python", js "pandas", js "sql", js "data analysis", js "machine learning"]⟩,
  ⟨"job-3", "Full Stack Developer",
    [js "node.js", js "react", js "mongodb", js "aws", js "docker", js "rest api"]⟩,
  ⟨"job-4", "UX/UI Designer",
    [js "figma", js "adobe xd", js "user research", js "accessibility", js "responsive design"]⟩,
  ⟨"job-5", "DevOps Engineer",
    [js "aws", js "kubernetes", js "docker", js "terraform", js "jenkins", js "ci/cd"]⟩]

/-- The function `calculateJobMatch(job, cvSkills)` of `app.js`; `cvSkills` is `none` when
it is `null` or `undefined`, the result is `none` when it is `NaN`. With no job skill the
quotient is `0 / 0`, which is `NaN`, and so are its product with 100 and the rounding of
that. -/
def calculateJobMatch (h : Host) (job : Job) (cvSkills : Option (List JSString)) :
    Option Int :=
  match cvSkills with
  | none => some 0
  | some cvSkills =>
    if cvSkills.length = 0 then some 0
    else
      let matchedSkills := job.skills.filter fun skill =>
        cvSkills.any fun cvSkill => toLowerCase h cvSkill == toLowerCase h skill
      if job.skills.length = 0 then none
      else
        some (Math.round (roundDouble (roundDouble
          ((matchedSkills.length : ℚ) / (job.skills.length : ℚ)) * 100)))

/-- The function `calculatePercentage(value, total)` of `utils.js`. -/
def calculatePercentage (value total : Nat) : Int :=
  if total = 0 then 0
  else Math.round (roundDouble (roundDouble ((value : ℚ) / (total : ℚ)) * 100))

/-- The method `getMatchedSkills(candidateSkills)` of `Job`. -/
def Job.getMatchedSkills (h : Host) (job : Job) (candidateSkills : List JSString) :
    List JSString :=
  job.skills.filter fun jobSkill =>
    candidateSkills.any fun candidateSkill =>
      toLowerCase h candidateSkill == toLowerCase h jobSkill

/-- The method `getMissingSkills(candidateSkills)` of `Job`. -/
def Job.getMissingSkills (h : Host) (job : Job) (candidateSkills : List JSString) :
    List JSString :=
  job.skills.filter fun jobSkill =>
    !candidateSkills.any fun candidateSkill =>
      toLowerCase h candidateSkill == toLowerCase h jobSkill

/-- The method `calculateMatchPercentage(candidateSkills)` of `Job`; `candidateSkills` is
`none` when it is `null` or `undefined`. -/
def Job.calculateMatchPercentage (h : Host) (job : Job)
    (candidateSkills : Option (List JSString)) : Int :=
  match candidateSkills with
  | none => 0
  | some candidateSkills =>
    if candidateSkills.length = 0 then 0
    else
      let matchedSkills := job.getMatchedSkills h candidateSkills
      calculatePercentage matchedSkills.length job.skills.length

/-- An entry of `MATCH_LEVELS`; `className` is its field `class`. -/
structure MatchLevel where
  min : Nat
  label : String
  className : String
deriving DecidableEq, Repr

/-- The constant `MATCH_LEVELS.HIGH`. -/
def MATCH_LEVELS.HIGH : MatchLevel := ⟨70, "High Match", "high"⟩

/-- The constant `MATCH_LEVELS.MEDIUM`. -/
def MATCH_LEVELS.MEDIUM : MatchLevel := ⟨50, "Medium Match", "medium"⟩

/-- The constant `MATCH_LEVELS.LOW`. -/
def MATCH_LEVELS.LOW : MatchLevel := ⟨0, "Low Match", "low"⟩

/-- The static method `getMatchLevel(matchPercentage)` of `Job`. -/
def Job.getMatchLevel (matchPercentage : JSNumber) : MatchLevel :=
  if matchPercentage.ge MATCH_LEVELS.HIGH.min then MATCH_LEVELS.HIGH
  else if matchPercentage.ge MATCH_LEVELS.MEDIUM.min then MATCH_LEVELS.MEDIUM
  else MATCH_LEVELS.LOW

/-- The callback of the match filter in `displayJobs`, with the value of
`calculateJobMatch(job, cvSkills)` for `match`. -/
def displayJobs.keeps (filter : String) (jobMatch : JSNumber) : Bool :=
  if filter = "high" then jobMatch.ge 70
  else if filter = "medium" then jobMatch.ge 50 && jobMatch.lt 70
  else if filter = "low" then jobMatch.lt 50
  else true

/-- The class of the match badge in `displayJobs`:
`matchScore >= 70 ? 'high' : matchScore >= 50 ? 'medium' : 'low'`. -/
def displayJobs.badgeClass (matchScore : JSNumber) : String :=
  if matchScore.ge 70 then "high" else if matchScore.ge 50 then "medium" else "low"

/-- The test of the high-match notification in `displayJobs`:
`calculateJobMatch(job, cvSkills) >= 70`. -/
def displayJobs.isHighMatch (jobMatch : JSNumber) : Bool := jobMatch.ge 70

/-! ## Definitions used to state the properties -/

/-- A host in the year 2026 that leaves code units outside ASCII unchanged. -/
def asciiHost : Host := ⟨2026, fun _ c _ => [c]⟩

/-- A number that is `NaN` or not negative. -/
def NotNegative (o : Option Years) : Prop := ∀ v, o = some v → 0 ≤ v

/-- The number a match captured: `parseInt(match[1])`. -/
def capturedNumber (m : MatchResult) : Option SignedYears :=
  (m.group1.bind parseInt).map Years.toSigned

/-- The values the three patterns observe in a transcript, as the specification lists
them: the number captured by the first match of `<N>+ years [of] experience`, the number
captured by the first match of `experience: <N> years`, and the span of every date
range. -/
def observedYears (h : Host) (text : JSString) : List (Option SignedYears) :=
  (yearsOfExperiencePattern.exec text).toList.map capturedNumber
    ++ (experienceYearsPattern.exec text).toList.map capturedNumber
    ++ (matchAll text dateRangePattern).map (detectExperienceYears.rangeYears h)

/-- A transcript with a number of 309 digits before `years of experience`. -/
def hugeYears : JSString := List.replicate 309 57 ++ js " years of experience"

/-- The transcript of scenario B. -/
def scenarioB : JSString :=
  js "john@x.com 555-123-4567 5 years experience javascript python react docker kubernetes aws leadership"

/-- A transcript with two occurrences of the first pattern. -/
def twoOccurrences : JSString := js "3 years of experience and later 8 years of experience"

/-- A transcript with two occurrences of the first pattern and a date range. -/
def occurrencesAndRange : JSString :=
  js "3 years of experience, 8 years of experience, 2010-2022"

/-- A transcript that names two degrees. -/
def twoDegrees : JSString := js "Bachelor of Science; PhD in Physics"

/-! ### Matches of a pattern -/

/-- A pattern is well formed when no quantifier has a minimum above its maximum (the
parser rejects the others). -/
def Regex.wellFormed : Regex → Bool
  | .rep _ min max => max.all fun n => min ≤ n
  | .seq a b => a.wellFormed && b.wellFormed
  | .alt a b => a.wellFormed && b.wellFormed
  | .opt a => a.wellFormed
  | .group a => a.wellFormed
  | _ => true

/-- A pattern whose matches all end with group 1 holding a non-empty run of digits: the
group is a quantified `\d` with a positive minimum and no later term resets it. -/
def Regex.capturesDigits : Regex → Bool
  | .group (.rep [.digit] (_ + 1) _) => true
  | .seq a b => b.capturesDigits || (a.capturesDigits && !b.hasGroup)
  | _ => false

/-- A capture that holds a non-empty run of digits. -/
def DigitCapture (o : Option JSString) : Prop :=
  ∃ ds, o = some ds ∧ ds ≠ [] ∧ ∀ c ∈ ds, isDigit c = true

/-- The states a pattern can lead to from a state: the matches of the pattern, without
the order in which the matcher tries them. -/
def Regex.Matches (ic : Bool) : Regex → MatchState → MatchState → Prop
  | .empty, x, y => y = x
  | .set cs, x, y =>
    ∃ c rest, x.after = c :: rest ∧ cs.mem ic c = true ∧ y = ⟨c :: x.before, rest, x.capture⟩
  | .rep cs min max, x, y =>
    ∃ taken rest, x.after = taken ++ rest ∧ (∀ c ∈ taken, cs.mem ic c = true) ∧
      min ≤ taken.length ∧ (∀ n, max = some n → taken.length ≤ n) ∧
      y = ⟨taken.reverse ++ x.before, rest, x.capture⟩
  | .seq a b, x, y => ∃ m, a.Matches ic x m ∧ b.Matches ic m y
  | .alt a b, x, y => a.Matches ic x y ∨ b.Matches ic x y
  | .opt a, x, y =>
    (a.Matches ic ⟨x.before, x.after, if a.hasGroup then none else x.capture⟩ y ∧
      y.after.length ≠ x.after.length) ∨ y = x
  | .group a, x, y =>
    ∃ m, a.Matches ic x m ∧ y = ⟨m.before, m.after, some (consumed x.before m.before)⟩
  | .wordBoundary, x, y =>
    ((x.before.head?.map isWordChar).getD false != (x.after.head?.map isWordChar).getD false)
      = true ∧ y = x
  | .endOfInput, x, y => x.after = [] ∧ y = x

/-- The pattern matches somewhere in the string: from some index on, its syntax leads to
some end state. -/
def RegExp.MatchesIn (re : RegExp) (s : JSString) : Prop :=
  ∃ before after y, s = before ++ after ∧
    re.pattern.Matches re.ignoreCase ⟨before.reverse, after, none⟩ y

/-! ### Recommendations and job matching -/

/-- The six rules of the recommendation generator as the specification lists them, in
order: whether the rule triggers, and its message. -/
def recommendationRules (skills : List JSString) (experience : Years) (education : Education)
    (hasEmail hasPhone : Bool) : List (Bool × String) := [
  (decide (skills.length < 5),
    "Add more relevant technical skills to strengthen your profile"),
  (decide (experience < 3),
    "Highlight any internships, projects, or volunteer work to showcase experience"),
  (!(hasEmail && hasPhone),
    "Ensure your contact information (email and phone) is clearly visible"),
  (decide (education.level < 2),
    "Consider pursuing additional certifications or degrees to enhance qualifications"),
  (decide (js "leadership" ∉ skills ∧ js "communication" ∉ skills ∧ js "teamwork" ∉ skills),
    "Include soft skills like leadership, communication, and teamwork"),
  (decide (skills ≠ [] ∧ js "aws" ∉ skills ∧ js "azure" ∉ skills ∧ js "gcp" ∉ skills ∧
      js "docker" ∉ skills ∧ js "kubernetes" ∉ skills),
    "Consider adding cloud technologies or DevOps skills for modern roles")]

/-- The three generic messages of the fallback. -/
def genericRecommendations : List String := [
  "Excellent CV! Keep it updated with your latest achievements",
  "Consider tailoring your CV for specific job applications",
  "Add quantifiable achievements and metrics to your experience"]

/-- The number of job skills that equal some candidate skill ignoring letter case. -/
def matchCount (h : Host) (job : Job) (candidateSkills : List JSString) : Nat :=
  job.skills.countP fun s => decide (∃ c ∈ candidateSkills, toLowerCase h c = toLowerCase h s)

/-- A job with forty required skills: the two-letter words `aa`, `ab`, ... -/
def fortySkillsJob : Job :=
  ⟨"job-40", "Generalist", (List.range 40).map fun i => [97 + i / 26, 97 + i % 26]⟩

/-- The first twenty-three skills of `fortySkillsJob`. -/
def twentyThreeSkills : List JSString :=
  (List.range 23).map fun i => [97 + i / 26, 97 + i % 26]

/-- A job without required skills. -/
def noSkillsJob : Job := ⟨"job-0", "Any role", []⟩

/-- The job of scenario C. -/
def scenarioCJob : Job := ⟨"job-c", "Data Engineer", [js "python", js "sql", js "docker"]⟩

/-! ### Text extraction, phone numbers and rounding -/

/-- The transcript that stands for a failed extraction. -/
def pdfSentinel : JSString := js "Error extracting text from PDF. Please try a different file."

/-- A file whose second page cannot be read. -/
def brokenPagePDF : PDFFile :=
  ⟨.ok ⟨2, fun i => if i = 1 then .ok [js "Curriculum", js "Vitae"] else .error "page"⟩⟩

/-- The transcript the specification describes: the texts of the pages with a newline
character between consecutive pages. -/
def pagesSeparatedByNewlines (pages : List (List JSString)) : JSString :=
  join (js "\n") (pages.map (join (js " ")))

/-- A document whose pages hold the given text items. -/
def PDFDocument.ofPages (pages : List (List JSString)) : PDFDocument :=
  ⟨pages.length, fun i =>
    if h : 1 ≤ i ∧ i - 1 < pages.length then .ok (pages.get ⟨i - 1, h.2⟩)
    else .error "Invalid page request"⟩

/-- A file of one page with two text items. -/
def onePagePDF : PDFFile := ⟨.ok (PDFDocument.ofPages [[js "Hello", js "World"]])⟩

/-- A file of two pages with two text items each. -/
def twoPagePDF : PDFFile :=
  ⟨.ok (PDFDocument.ofPages [[js "Jane", js "Doe"], [js "Python", js "SQL"]])⟩

/-- The number of decimal digits in a string. -/
def digitCount (s : JSString) : Nat := s.countP isDigit

/-- Rounding of a rational to the nearest integer, a tie going to the even one. -/
def nearestEven (x : ℚ) : ℤ :=
  if Int.fract x < 1 / 2 then ⌊x⌋
  else if 1 / 2 < Int.fract x then ⌊x⌋ + 1
  else if ⌊x⌋ % 2 = 0 then ⌊x⌋ else ⌊x⌋ + 1

/-! ## Properties of the strings -/

theorem startsWith_iff (s p : JSString) : startsWith s p = true ↔ p <+: s := by
  induction p generalizing s with
  | nil => simp [startsWith]
  | cons b p ih =>
    cases s with
    | nil => simp [startsWith]
    | cons a s =>
      simp only [startsWith, Bool.and_eq_true, beq_iff_eq, ih, List.cons_prefix_cons]
      constructor
      · rintro ⟨rfl, hp⟩; exact ⟨rfl, hp⟩
      · rintro ⟨rfl, hp⟩; exact ⟨rfl, hp⟩

/-- The search of `includes` decides whether the search string is a contiguous part of the
string. -/
theorem includes_iff (s p : JSString) : includes s p = true ↔ p <:+: s := by
  induction s with
  | nil =>
    simp only [includes, startsWith_iff, List.prefix_nil, List.infix_nil]
  | cons a s ih =>
    simp only [includes, Bool.or_eq_true, startsWith_iff, ih, List.infix_cons_iff]

/-- Lowercasing leaves every catalog skill unchanged. -/
theorem toLowerCase_skill (h : Host) :
    ∀ skill ∈ skillsDatabase, toLowerCase h skill = skill := by
  intro skill hs
  simp only [skillsDatabase, List.mem_cons, List.mem_singleton, List.not_mem_nil, or_false] at hs
  rcases hs with hs | hs | hs | hs | hs | hs | hs | hs | hs | hs | hs | hs | hs | hs | hs | hs
    | hs | hs | hs | hs | hs | hs | hs | hs | hs | hs | hs | hs | hs | hs | hs | hs | hs | hs
    | hs | hs <;> subst hs <;> rfl

theorem skillsDatabase_nodup : skillsDatabase.Nodup := by decide

/-! ## Scores -/

theorem Math.round_intCast (n : Int) : Math.round (n : ℚ) = n := by
  unfold Math.round
  rw [Int.floor_eq_iff]
  constructor <;> linarith

theorem skillsScore_eq (n : Nat) : skillsScore n = ((min 100 (10 * (n : Int)) : Int) : ℚ) := by
  unfold skillsScore
  push_cast
  congr 1
  ring

theorem experienceScore_eq (y : Int) :
    experienceScore (.finite y) = ((min 100 (10 * y) : Int) : ℚ) := by
  unfold experienceScore
  push_cast
  congr 1
  ring

theorem calculateFormatScore_bounds (text : JSString) (e p : Bool) :
    50 ≤ calculateFormatScore text e p ∧ calculateFormatScore text e p ≤ 100 := by
  unfold calculateFormatScore
  simp only
  split_ifs <;> omega

/-- The category scores and the overall score, from what the detectors found. -/
theorem performAnalysis_scores (h : Host) (text : JSString) (n : Nat) (y : Years)
    (ed : Education) (f : Nat)
    (hn : (performAnalysis h text).skills.length = n)
    (hy : (performAnalysis h text).experienceYears = y)
    (hed : (performAnalysis h text).education = ed)
    (hf : calculateFormatScore text (performAnalysis h text).hasEmail
      (performAnalysis h text).hasPhone = f) :
    (performAnalysis h text).skillsScore = Math.round (skillsScore n) ∧
    (performAnalysis h text).experienceScore = Math.round (experienceScore y) ∧
    (performAnalysis h text).educationScore = Math.round (educationScore ed) ∧
    (performAnalysis h text).formatScore = f ∧
    (performAnalysis h text).overallScore =
      overallScore (skillsScore n) (experienceScore y) (educationScore ed) f := by
  subst hn hy hed hf
  exact ⟨rfl, rfl, rfl, Math.round_intCast _, rfl⟩

/-! ## The matcher -/

theorem repeatSet_sound (ic : Bool) (cs : CharSet) (k : Continuation) (cap : Option JSString)
    (after : List Nat) : ∀ (min : Nat) (max : Option Nat) (before : List Nat) (z : MatchState),
    (∀ n, max = some n → min ≤ n) →
    repeatSet ic cs k cap min max before after = some z →
    ∃ taken rest, after = taken ++ rest ∧ (∀ c ∈ taken, cs.mem ic c = true) ∧
      min ≤ taken.length ∧ (∀ n, max = some n → taken.length ≤ n) ∧
      k ⟨taken.reverse ++ before, rest, cap⟩ = some z := by
  have stop : ∀ (min : Nat) (max : Option Nat) (before after : List Nat) (z : MatchState),
      (∀ n, max = some n → min ≤ n) → (max = some 0 ∨ min = 0) →
      k ⟨before, after, cap⟩ = some z →
      ∃ taken rest, after = taken ++ rest ∧ (∀ c ∈ taken, cs.mem ic c = true) ∧
        min ≤ taken.length ∧ (∀ n, max = some n → taken.length ≤ n) ∧
        k ⟨taken.reverse ++ before, rest, cap⟩ = some z := by
    intro min max before after z hwf h0 hk
    refine ⟨[], after, rfl, by simp, ?_, by simp, by simpa using hk⟩
    rcases h0 with h0 | h0
    · have := hwf 0 h0
      simpa using this
    · simp [h0]
  induction after with
  | nil =>
    intro min max before z hwf hrun
    unfold repeatSet at hrun
    split_ifs at hrun with h1 h2
    · exact stop min max before [] z hwf (Or.inl h1) hrun
    · exact stop min max before [] z hwf (Or.inr h2) hrun
  | cons c rest ih =>
    intro min max before z hwf hrun
    unfold repeatSet at hrun
    by_cases h1 : max = some 0
    · rw [if_pos h1] at hrun
      exact stop min max before _ z hwf (Or.inl h1) hrun
    rw [if_neg h1] at hrun
    by_cases h2 : cs.mem ic c = true
    · rw [if_pos h2] at hrun
      cases hrec : repeatSet ic cs k cap (min - 1) (max.map (· - 1)) (c :: before) rest with
      | some z1 =>
        rw [hrec] at hrun
        simp only [Option.some.injEq] at hrun
        subst hrun
        have hwf1 : ∀ n, max.map (· - 1) = some n → min - 1 ≤ n := by
          intro n hn
          cases max with
          | none => simp at hn
          | some n1 =>
            simp only [Option.map_some', Option.some.injEq] at hn
            have := hwf n1 rfl
            omega
        obtain ⟨taken, rest1, hsplit, hmem, hmin, hmax, hk⟩ := ih _ _ _ _ hwf1 hrec
        refine ⟨c :: taken, rest1, by rw [hsplit]; rfl, ?_, ?_, ?_, ?_⟩
        · intro d hd
          rcases List.mem_cons.mp hd with rfl | hd
          · exact h2
          · exact hmem d hd
        · simp only [List.length_cons]; omega
        · intro n hn
          subst hn
          have := hmax (n - 1) rfl
          have hn0 : n ≠ 0 := fun h0 => h1 (by rw [h0])
          simp only [List.length_cons]; omega
        · simpa using hk
      | none =>
        rw [hrec] at hrun
        simp only at hrun
        by_cases h5 : min = 0
        · rw [if_pos h5] at hrun
          exact stop min max before _ z hwf (Or.inr h5) hrun
        · rw [if_neg h5] at hrun
          cases hrun
    · rw [if_neg h2] at hrun
      by_cases h5 : min = 0
      · rw [if_pos h5] at hrun
        exact stop min max before _ z hwf (Or.inr h5) hrun
      · rw [if_neg h5] at hrun
        cases hrun

theorem repeatSet_complete (ic : Bool) (cs : CharSet) (k : Continuation) (cap : Option JSString)
    (taken : List Nat) : ∀ (min : Nat) (max : Option Nat) (before rest : List Nat),
    (∀ c ∈ taken, cs.mem ic c = true) → min ≤ taken.length →
    (∀ n, max = some n → taken.length ≤ n) →
    (k ⟨taken.reverse ++ before, rest, cap⟩).isSome = true →
    (repeatSet ic cs k cap min max before (taken ++ rest)).isSome = true := by
  induction taken with
  | nil =>
    intro min max before rest _ hmin _ hk
    have h0 : min = 0 := by simpa using hmin
    simp only [List.reverse_nil, List.nil_append] at hk ⊢
    cases rest with
    | nil =>
      unfold repeatSet
      split_ifs <;> exact hk
    | cons c r =>
      unfold repeatSet
      by_cases h1 : max = some 0
      · rw [if_pos h1]; exact hk
      rw [if_neg h1]
      by_cases h2 : cs.mem ic c = true
      · rw [if_pos h2]
        cases hrec : repeatSet ic cs k cap (min - 1) (max.map (· - 1)) (c :: before) r with
        | some z1 => rfl
        | none => simp only [if_pos h0]; exact hk
      · rw [if_neg h2, if_pos h0]; exact hk
  | cons c t ih =>
    intro min max before rest hmem hmin hmax hk
    have h1 : max ≠ some 0 := by
      intro h0
      have := hmax 0 h0
      simp at this
    have h2 : cs.mem ic c = true := hmem c (List.mem_cons_self _ _)
    have hrec : (repeatSet ic cs k cap (min - 1) (max.map (· - 1)) (c :: before)
        (t ++ rest)).isSome = true := by
      apply ih
      · exact fun d hd => hmem d (List.mem_cons_of_mem _ hd)
      · simp only [List.length_cons] at hmin; omega
      · intro n hn
        cases max with
        | none => simp at hn
        | some n1 =>
          simp only [Option.map_some', Option.some.injEq] at hn
          have := hmax n1 rfl
          simp only [List.length_cons] at this
          omega
      · simpa using hk
    show (repeatSet ic cs k cap min max before (c :: (t ++ rest))).isSome = true
    unfold repeatSet
    rw [if_neg h1, if_pos h2]
    cases hr : repeatSet ic cs k cap (min - 1) (max.map (· - 1)) (c :: before) (t ++ rest) with
    | some z1 => rfl
    | none => rw [hr] at hrec; cases hrec


theorem run_sound (ic : Bool) (r : Regex) : ∀ (x : MatchState) (k : Continuation)
    (z : MatchState), r.wellFormed = true → r.run ic x k = some z →
    ∃ y, r.Matches ic x y ∧ k y = some z := by
  induction r with
  | empty =>
    intro x k z _ hrun
    exact ⟨x, rfl, hrun⟩
  | set cs =>
    intro x k z _ hrun
    unfold Regex.run at hrun
    cases hafter : x.after with
    | nil => rw [hafter] at hrun; cases hrun
    | cons c rest =>
      rw [hafter] at hrun
      simp only at hrun
      by_cases hc : cs.mem ic c = true
      · rw [if_pos hc] at hrun
        exact ⟨_, ⟨c, rest, hafter, hc, rfl⟩, hrun⟩
      · rw [if_neg hc] at hrun
        cases hrun
  | rep cs min max =>
    intro x k z hwf hrun
    have hwf1 : ∀ n, max = some n → min ≤ n := by
      intro n hn
      subst hn
      simpa [Regex.wellFormed] using hwf
    obtain ⟨taken, rest, hsplit, hmem, hmin, hmax, hk⟩ :=
      repeatSet_sound ic cs k x.capture x.after min max x.before z hwf1 hrun
    exact ⟨_, ⟨taken, rest, hsplit, hmem, hmin, hmax, rfl⟩, hk⟩
  | seq a b iha ihb =>
    intro x k z hwf hrun
    simp only [Regex.wellFormed, Bool.and_eq_true] at hwf
    obtain ⟨m, hm, hrun2⟩ := iha x _ z hwf.1 hrun
    obtain ⟨y, hy, hk⟩ := ihb m k z hwf.2 hrun2
    exact ⟨y, ⟨m, hm, hy⟩, hk⟩
  | alt a b iha ihb =>
    intro x k z hwf hrun
    simp only [Regex.wellFormed, Bool.and_eq_true] at hwf
    unfold Regex.run at hrun
    cases ha : a.run ic x k with
    | some z1 =>
      rw [ha] at hrun
      simp only [Option.some.injEq] at hrun
      subst hrun
      obtain ⟨y, hy, hk⟩ := iha x k z1 hwf.1 ha
      exact ⟨y, Or.inl hy, hk⟩
    | none =>
      rw [ha] at hrun
      obtain ⟨y, hy, hk⟩ := ihb x k z hwf.2 hrun
      exact ⟨y, Or.inr hy, hk⟩
  | opt a iha =>
    intro x k z hwf hrun
    unfold Regex.run at hrun
    cases ha : a.run ic ⟨x.before, x.after, if a.hasGroup then none else x.capture⟩
        (fun y => if y.after.length = x.after.length then none else k y) with
    | some z1 =>
      rw [ha] at hrun
      simp only [Option.some.injEq] at hrun
      subst hrun
      obtain ⟨y, hy, hk⟩ := iha _ _ z1 hwf ha
      by_cases hlen : y.after.length = x.after.length
      · simp only [if_pos hlen] at hk
        cases hk
      · simp only [if_neg hlen] at hk
        exact ⟨y, Or.inl ⟨hy, hlen⟩, hk⟩
    | none =>
      rw [ha] at hrun
      exact ⟨x, Or.inr rfl, hrun⟩
  | group a iha =>
    intro x k z hwf hrun
    obtain ⟨m, hm, hk⟩ := iha x _ z hwf hrun
    exact ⟨_, ⟨m, hm, rfl⟩, hk⟩
  | wordBoundary =>
    intro x k z _ hrun
    unfold Regex.run at hrun
    simp only at hrun
    split_ifs at hrun with hb
    exact ⟨x, ⟨hb, rfl⟩, hrun⟩
  | endOfInput =>
    intro x k z _ hrun
    unfold Regex.run at hrun
    split_ifs at hrun with he
    exact ⟨x, ⟨by simpa using he, rfl⟩, hrun⟩

theorem run_complete (ic : Bool) (r : Regex) : ∀ (x y : MatchState) (k : Continuation),
    r.Matches ic x y → (k y).isSome = true → (r.run ic x k).isSome = true := by
  induction r with
  | empty =>
    intro x y k hm hk
    cases hm
    exact hk
  | set cs =>
    intro x y k hm hk
    obtain ⟨c, rest, hafter, hc, rfl⟩ := hm
    unfold Regex.run
    rw [hafter]
    simp only [if_pos hc]
    exact hk
  | rep cs min max =>
    intro x y k hm hk
    obtain ⟨taken, rest, hsplit, hmem, hmin, hmax, rfl⟩ := hm
    unfold Regex.run
    rw [hsplit]
    exact repeatSet_complete ic cs k x.capture taken min max x.before rest hmem hmin hmax hk
  | seq a b iha ihb =>
    intro x y k hm hk
    obtain ⟨m, hxm, hmy⟩ := hm
    exact iha x m _ hxm (ihb m y k hmy hk)
  | alt a b iha ihb =>
    intro x y k hm hk
    unfold Regex.run
    cases ha : a.run ic x k with
    | some z1 => rfl
    | none =>
      rcases hm with hm | hm
      · have := iha x y k hm hk
        rw [ha] at this
        cases this
      · exact ihb x y k hm hk
  | opt a iha =>
    intro x y k hm hk
    unfold Regex.run
    cases ha : a.run ic ⟨x.before, x.after, if a.hasGroup then none else x.capture⟩
        (fun y => if y.after.length = x.after.length then none else k y) with
    | some z1 => rfl
    | none =>
      rcases hm with ⟨hm, hlen⟩ | hm
      · have := iha _ y (fun y => if y.after.length = x.after.length then none else k y) hm
          (by simp only [if_neg hlen]; exact hk)
        rw [ha] at this
        cases this
      · cases hm
        exact hk
  | group a iha =>
    intro x y k hm hk
    obtain ⟨m, hxm, rfl⟩ := hm
    exact iha x m _ hxm hk
  | wordBoundary =>
    intro x y k hm hk
    obtain ⟨hb, rfl⟩ := hm
    unfold Regex.run
    simp only [if_pos hb]
    exact hk
  | endOfInput =>
    intro x y k hm hk
    obtain ⟨he, rfl⟩ := hm
    unfold Regex.run
    simp only [he, List.isEmpty_nil, if_true]
    exact hk


theorem Matches_capture (ic : Bool) (r : Regex) : ∀ (x y : MatchState),
    r.hasGroup = false → r.Matches ic x y → y.capture = x.capture := by
  induction r with
  | empty => intro x y _ hm; cases hm; rfl
  | set cs => intro x y _ hm; obtain ⟨c, rest, _, _, rfl⟩ := hm; rfl
  | rep cs min max => intro x y _ hm; obtain ⟨t, rest, _, _, _, _, rfl⟩ := hm; rfl
  | seq a b iha ihb =>
    intro x y hg hm
    simp only [Regex.hasGroup, Bool.or_eq_false_iff] at hg
    obtain ⟨m, hxm, hmy⟩ := hm
    rw [ihb m y hg.2 hmy, iha x m hg.1 hxm]
  | alt a b iha ihb =>
    intro x y hg hm
    simp only [Regex.hasGroup, Bool.or_eq_false_iff] at hg
    rcases hm with hm | hm
    · exact iha x y hg.1 hm
    · exact ihb x y hg.2 hm
  | opt a iha =>
    intro x y hg hm
    simp only [Regex.hasGroup] at hg
    rcases hm with ⟨hm, _⟩ | hm
    · rw [iha _ y hg hm]
      simp [hg]
    · cases hm; rfl
  | group a _ => intro x y hg; simp [Regex.hasGroup] at hg
  | wordBoundary => intro x y _ hm; obtain ⟨_, rfl⟩ := hm; rfl
  | endOfInput => intro x y _ hm; obtain ⟨_, rfl⟩ := hm; rfl

theorem consumed_append (taken before : List Nat) :
    consumed before (taken.reverse ++ before) = taken := by
  unfold consumed
  simp

theorem isDigit_of_mem (ic : Bool) (c : Nat) (hc : CharSet.mem ic [ClassAtom.digit] c = true) :
    isDigit c = true := by
  simp only [CharSet.mem, List.any_cons, List.any_nil, Bool.or_false, ClassAtom.contains,
    Bool.or_eq_true, Bool.and_eq_true] at hc
  rcases hc with hc | ⟨_, hc | hc⟩
  · exact hc
  · unfold asciiUpper at hc
    split_ifs at hc with h
    · simp only [isDigit, Bool.and_eq_true, decide_eq_true_eq] at hc
      omega
    · exact hc
  · unfold asciiLower at hc
    split_ifs at hc with h
    · simp only [isDigit, Bool.and_eq_true, decide_eq_true_eq] at hc
      omega
    · exact hc

theorem Matches_capturesDigits (ic : Bool) (r : Regex) : ∀ (x y : MatchState),
    r.capturesDigits = true → r.Matches ic x y → DigitCapture y.capture := by
  induction r with
  | seq a b iha ihb =>
    intro x y hc hm
    obtain ⟨m, hxm, hmy⟩ := hm
    simp only [Regex.capturesDigits, Bool.or_eq_true, Bool.and_eq_true, Bool.not_eq_true'] at hc
    rcases hc with hc | ⟨hc, hg⟩
    · exact ihb m y hc hmy
    · rw [Matches_capture ic b m y hg hmy]
      exact iha x m hc hxm
  | group a _ =>
    intro x y hc hm
    obtain ⟨m, hxm, rfl⟩ := hm
    match a, hc, hxm with
    | .rep [.digit] (n + 1) max, _, hxm =>
      obtain ⟨taken, rest, _, hmem, hmin, _, rfl⟩ := hxm
      refine ⟨taken, ?_, ?_, fun c hc => isDigit_of_mem ic c (hmem c hc)⟩
      · show some (consumed x.before (taken.reverse ++ x.before)) = some taken
        rw [consumed_append]
      · intro h0
        rw [h0] at hmin
        simp at hmin
  | empty => intro x y hc; simp [Regex.capturesDigits] at hc
  | set cs => intro x y hc; simp [Regex.capturesDigits] at hc
  | rep cs min max => intro x y hc; simp [Regex.capturesDigits] at hc
  | alt a b _ _ => intro x y hc; simp [Regex.capturesDigits] at hc
  | opt a _ => intro x y hc; simp [Regex.capturesDigits] at hc
  | wordBoundary => intro x y hc; simp [Regex.capturesDigits] at hc
  | endOfInput => intro x y hc; simp [Regex.capturesDigits] at hc


theorem parseDigits_some (l : JSString) : ∀ a : Nat, ∃ n, parseDigits (some a) l = some n := by
  induction l with
  | nil => intro a; exact ⟨a, rfl⟩
  | cons c rest ih =>
    intro a
    unfold parseDigits
    cases digitValue c with
    | none => exact ⟨a, rfl⟩
    | some d => exact ih _

/-- The value `parseInt` gives for a digit capture is a number. -/
theorem parseInt_digitCapture {o : Option JSString} (ho : DigitCapture o) :
    ∃ y : Years, o.bind parseInt = some y := by
  obtain ⟨ds, rfl, hne, hd⟩ := ho
  cases ds with
  | nil => exact absurd rfl hne
  | cons c rest =>
    have hc : isDigit c = true := hd c (List.mem_cons_self _ _)
    simp only [isDigit, Bool.and_eq_true, decide_eq_true_eq] at hc
    simp only [Option.some_bind, parseInt, parseDigits, digitValue, if_pos hc]
    obtain ⟨n, hn⟩ := parseDigits_some rest (0 * 10 + (c - 48))
    exact ⟨Years.ofNat n, by simp only [Option.getD_none, hn, Option.map_some']⟩

/-- The digits at the front of a run of digits have a value below the power of ten of
its length. -/
theorem parseDigits_lt (l : JSString) (hl : ∀ c ∈ l, isDigit c = true) :
    ∀ a : Nat, ∃ n, parseDigits (some a) l = some n ∧ n < (a + 1) * 10 ^ l.length := by
  induction l with
  | nil => intro a; exact ⟨a, rfl, by simp⟩
  | cons c rest ih =>
    intro a
    have hc : isDigit c = true := hl c (List.mem_cons_self _ _)
    simp only [isDigit, Bool.and_eq_true, decide_eq_true_eq] at hc
    obtain ⟨n, hn, hlt⟩ := ih (fun c hc => hl c (List.mem_cons_of_mem _ hc)) (a * 10 + (c - 48))
    refine ⟨n, ?_, ?_⟩
    · simp only [parseDigits, digitValue, if_pos hc, Option.getD_some]
      exact hn
    · have h1 : a * 10 + (c - 48) + 1 ≤ (a + 1) * 10 := by omega
      calc n < (a * 10 + (c - 48) + 1) * 10 ^ rest.length := hlt
        _ ≤ (a + 1) * 10 * 10 ^ rest.length := Nat.mul_le_mul_right _ h1
        _ = (a + 1) * 10 ^ (rest.length + 1) := by rw [pow_succ]; ring

/-- The number `parseInt` gives for four digits is their value, below ten thousand. -/
theorem parseInt_fourDigits (l : JSString) (hl : ∀ c ∈ l, isDigit c = true)
    (hlen : l.length = 4) : ∃ n : Nat, n < 10000 ∧ parseInt l = some (.finite n) := by
  cases l with
  | nil => simp at hlen
  | cons c rest =>
    have hc : isDigit c = true := hl c (List.mem_cons_self _ _)
    simp only [isDigit, Bool.and_eq_true, decide_eq_true_eq] at hc
    obtain ⟨n, hn, hlt⟩ := parseDigits_lt rest
      (fun c hc => hl c (List.mem_cons_of_mem _ hc)) (0 * 10 + (c - 48))
    have hrest : rest.length = 3 := by simpa using hlen
    rw [hrest] at hlt
    have hn4 : n < 10000 := by omega
    refine ⟨n, hn4, ?_⟩
    simp only [parseInt, parseDigits, digitValue, if_pos hc, Option.getD_none, hn,
      Option.map_some', Years.ofNat]
    rw [if_pos (by omega)]

theorem matchAt_sound {ic : Bool} {r : Regex} {before after : List Nat} {m : MatchResult}
    (hwf : r.wellFormed = true) (hm : r.matchAt ic before after = some m) :
    ∃ y, r.Matches ic ⟨before, after, none⟩ y ∧ m.matched = consumed before y.before ∧
      m.group1 = y.capture := by
  unfold Regex.matchAt at hm
  cases hrun : r.run ic ⟨before, after, none⟩ some with
  | none => rw [hrun] at hm; cases hm
  | some z =>
    rw [hrun] at hm
    simp only [Option.map_some', Option.some.injEq] at hm
    subst hm
    obtain ⟨y, hy, hk⟩ := run_sound ic r _ _ z hwf hrun
    obtain rfl : y = z := by simpa using hk
    exact ⟨_, hy, rfl, rfl⟩

theorem execFrom_matchAt {ic : Bool} {r : Regex} {m : MatchResult} (after : List Nat) :
    ∀ before, r.execFrom ic before after = some m →
      ∃ pre post, after = pre ++ post ∧ r.matchAt ic (pre.reverse ++ before) post = some m := by
  induction after with
  | nil => intro before h; exact ⟨[], [], rfl, h⟩
  | cons c rest ih =>
    intro before h
    unfold Regex.execFrom at h
    cases hm : r.matchAt ic before (c :: rest) with
    | some m1 =>
      rw [hm] at h
      cases h
      exact ⟨[], c :: rest, rfl, hm⟩
    | none =>
      rw [hm] at h
      obtain ⟨pre, post, hsplit, hat⟩ := ih _ h
      exact ⟨c :: pre, post, by rw [hsplit]; rfl, by simpa using hat⟩

theorem matchAllFrom_matchAt {ic : Bool} {r : Regex} {m : MatchResult} (after : List Nat) :
    ∀ skip before, m ∈ r.matchAllFrom ic skip before after →
      ∃ pre post, after = pre ++ post ∧ r.matchAt ic (pre.reverse ++ before) post = some m := by
  induction after with
  | nil =>
    intro skip before h
    simp only [Regex.matchAllFrom] at h
    split_ifs at h
    · refine ⟨[], [], rfl, ?_⟩
      cases hm : r.matchAt ic before [] with
      | none => rw [hm] at h; simp at h
      | some m1 =>
        rw [hm] at h
        simp only [Option.toList_some, List.mem_singleton] at h
        rw [h]
        exact hm
    · simp at h
  | cons c rest ih =>
    intro skip before h
    have step : m ∈ r.matchAllFrom ic (skip - 1) (c :: before) rest ∨
        (∃ n, m ∈ r.matchAllFrom ic n (c :: before) rest) ∨
        r.matchAt ic before (c :: rest) = some m := by
      cases skip with
      | succ n =>
        simp only [Regex.matchAllFrom] at h
        exact Or.inl h
      | zero =>
        simp only [Regex.matchAllFrom] at h
        cases hm : r.matchAt ic before (c :: rest) with
        | some m1 =>
          rw [hm] at h
          rcases List.mem_cons.mp h with h | h
          · exact Or.inr (Or.inr (by rw [h]))
          · exact Or.inr (Or.inl ⟨_, h⟩)
        | none =>
          rw [hm] at h
          exact Or.inr (Or.inl ⟨_, h⟩)
    rcases step with h1 | ⟨n, h1⟩ | h1
    · obtain ⟨pre, post, hsplit, hat⟩ := ih _ _ h1
      exact ⟨c :: pre, post, by rw [hsplit]; rfl, by simpa using hat⟩
    · obtain ⟨pre, post, hsplit, hat⟩ := ih _ _ h1
      exact ⟨c :: pre, post, by rw [hsplit]; rfl, by simpa using hat⟩
    · exact ⟨[], c :: rest, rfl, h1⟩

theorem capturedNumber_isSome {ic : Bool} {r : Regex} {before after : List Nat}
    {m : MatchResult} (hwf : r.wellFormed = true) (hc : r.capturesDigits = true)
    (hm : r.matchAt ic before after = some m) :
    ∃ n : Years, capturedNumber m = some n.toSigned := by
  obtain ⟨y, hy, -, hg⟩ := matchAt_sound hwf hm
  obtain ⟨n, hn⟩ := parseInt_digitCapture (Matches_capturesDigits ic r _ y hc hy)
  exact ⟨n, by simp [capturedNumber, hg, hn]⟩

/-- The year that starts a date range is a number of four digits. -/
theorem startYear_finite {before after : List Nat} {m : MatchResult}
    (hm : dateRangePattern.pattern.matchAt true before after = some m) :
    ∃ n : Nat, n < 10000 ∧ m.group1.bind parseInt = some (.finite n) := by
  obtain ⟨y, hy, -, hg⟩ := matchAt_sound (by rfl) hm
  obtain ⟨mid, ⟨m1, ⟨taken, rest, _, hmem, hmin, hmax, rfl⟩, rfl⟩, hrest⟩ :
      ∃ mid, (Regex.group (.rep [.digit] 4 (some 4))).Matches true ⟨before, after, none⟩ mid ∧
        (Regex.cat [.rep [.space] 0 none, .set [.unit '-', .unit '\u2013'],
          .rep [.space] 0 none, .alt (Regex.str "present")
            (.alt (Regex.str "current") (.rep [.digit] 4 (some 4)))]).Matches true mid y := hy
  have hcap := Matches_capture true _ _ y (by rfl) hrest
  have hlen : taken.length = 4 := le_antisymm (hmax 4 rfl) hmin
  obtain ⟨n, hn, hp⟩ := parseInt_fourDigits taken
    (fun c hc => isDigit_of_mem _ c (hmem c hc)) hlen
  refine ⟨n, hn, ?_⟩
  rw [hg, hcap]
  show (some (consumed before (taken.reverse ++ before))).bind parseInt = _
  rw [consumed_append]
  exact hp

theorem endYear_isSome {s : JSString} {e : MatchResult} (he : endYearPattern.exec s = some e) :
    ∃ n : Years, parseInt e.matched = some n := by
  obtain ⟨pre, post, -, hm⟩ := execFrom_matchAt s [] he
  obtain ⟨y, hy, hmatched, -⟩ := matchAt_sound (by rfl) hm
  obtain ⟨m, ⟨taken, rest, _, hmem, hmin, _, rfl⟩, _, rfl⟩ := hy
  have hcap : DigitCapture (some e.matched) := by
    refine ⟨taken, ?_, ?_, fun c hc => isDigit_of_mem _ c (hmem c hc)⟩
    · rw [hmatched]
      show some (consumed _ (taken.reverse ++ _)) = some taken
      rw [consumed_append]
    · intro h0
      rw [h0] at hmin
      simp at hmin
  simpa using parseInt_digitCapture hcap

theorem rangeYears_isSome (h : Host) {before after : List Nat} {m : MatchResult}
    (hm : dateRangePattern.pattern.matchAt true before after = some m) :
    ∃ n : SignedYears, detectExperienceYears.rangeYears h m = some n := by
  obtain ⟨s, -, hs⟩ := startYear_finite hm
  unfold detectExperienceYears.rangeYears
  simp only [hs]
  split_ifs
  · exact ⟨_, rfl⟩
  · cases he : endYearPattern.exec m.matched with
    | some e =>
      obtain ⟨n, hn⟩ := endYear_isSome he
      simp only [hn]
      cases n with
      | finite n => exact ⟨_, rfl⟩
      | Infinity => exact ⟨_, rfl⟩
    | none => exact ⟨_, rfl⟩

/-- Every value the patterns observe is a number. -/
theorem observedYears_isSome (h : Host) (text : JSString) :
    ∀ v ∈ observedYears h text, ∃ n : SignedYears, v = some n := by
  intro v hv
  simp only [observedYears, List.mem_append, List.mem_map] at hv
  rcases hv with (⟨m, hm, rfl⟩ | ⟨m, hm, rfl⟩) | ⟨m, hm, rfl⟩
  · cases he : yearsOfExperiencePattern.exec text with
    | none => rw [he] at hm; simp at hm
    | some m1 =>
      rw [he] at hm
      simp only [Option.toList_some, List.mem_singleton] at hm
      subst hm
      obtain ⟨pre, post, -, hat⟩ := execFrom_matchAt text [] he
      obtain ⟨n, hn⟩ := capturedNumber_isSome (by rfl) (by rfl) hat
      exact ⟨_, hn⟩
  · cases he : experienceYearsPattern.exec text with
    | none => rw [he] at hm; simp at hm
    | some m1 =>
      rw [he] at hm
      simp only [Option.toList_some, List.mem_singleton] at hm
      subst hm
      obtain ⟨pre, post, -, hat⟩ := execFrom_matchAt text [] he
      obtain ⟨n, hn⟩ := capturedNumber_isSome (by rfl) (by rfl) hat
      exact ⟨_, hn⟩
  · obtain ⟨pre, post, -, hat⟩ := matchAllFrom_matchAt text 0 [] hm
    exact rangeYears_isSome h hat


theorem matchAt_isSome_iff {ic : Bool} {r : Regex} (hwf : r.wellFormed = true)
    (before after : List Nat) :
    (r.matchAt ic before after).isSome = true ↔ ∃ y, r.Matches ic ⟨before, after, none⟩ y := by
  constructor
  · intro h
    cases hm : r.matchAt ic before after with
    | none => rw [hm] at h; cases h
    | some m =>
      obtain ⟨y, hy, -, -⟩ := matchAt_sound hwf hm
      exact ⟨y, hy⟩
  · rintro ⟨y, hy⟩
    have := run_complete ic r _ y some hy rfl
    unfold Regex.matchAt
    simpa using this

theorem execFrom_complete {ic : Bool} {r : Regex} (pre : List Nat) :
    ∀ before post, (r.matchAt ic (pre.reverse ++ before) post).isSome = true →
      (r.execFrom ic before (pre ++ post)).isSome = true := by
  induction pre with
  | nil =>
    intro before post h
    simp only [List.reverse_nil, List.nil_append] at h ⊢
    cases post with
    | nil => exact h
    | cons c rest =>
      unfold Regex.execFrom
      cases hm : r.matchAt ic before (c :: rest) with
      | some m => rfl
      | none => rw [hm] at h; cases h
  | cons c p ih =>
    intro before post h
    show (r.execFrom ic before (c :: (p ++ post))).isSome = true
    unfold Regex.execFrom
    cases hm : r.matchAt ic before (c :: (p ++ post)) with
    | some m => rfl
    | none => exact ih (c :: before) post (by simpa using h)

/-- The matcher finds a match exactly when the pattern matches somewhere in the string. -/
theorem RegExp.exec_isSome_iff (re : RegExp) (hwf : re.pattern.wellFormed = true)
    (s : JSString) : (re.exec s).isSome = true ↔ re.MatchesIn s := by
  constructor
  · intro h
    cases he : re.exec s with
    | none => rw [he] at h; cases h
    | some m =>
      obtain ⟨pre, post, hsplit, hat⟩ := execFrom_matchAt s [] he
      obtain ⟨y, hy, -, -⟩ := matchAt_sound hwf hat
      exact ⟨pre, post, y, hsplit, by simpa using hy⟩
  · rintro ⟨pre, post, y, rfl, hy⟩
    apply execFrom_complete
    rw [matchAt_isSome_iff hwf]
    exact ⟨y, by simpa using hy⟩

/-- A global pattern that matches nowhere has no matches. -/
theorem matchAll_eq_nil (re : RegExp) (hwf : re.pattern.wellFormed = true) (s : JSString)
    (hno : ¬ re.MatchesIn s) : matchAll s re = [] := by
  cases hall : matchAll s re with
  | nil => rfl
  | cons m ms =>
    exfalso
    have hmem : m ∈ re.pattern.matchAllFrom re.ignoreCase 0 [] s := by
      have : m ∈ matchAll s re := by rw [hall]; exact List.mem_cons_self _ _
      exact this
    obtain ⟨pre, post, hsplit, hat⟩ := matchAllFrom_matchAt s 0 [] hmem
    obtain ⟨y, hy, -, -⟩ := matchAt_sound hwf hat
    exact hno ⟨pre, post, y, hsplit, by simpa using hy⟩

/-- Without a match, `String.prototype.match` returns `null`. -/
theorem strMatch_eq_none (re : RegExp) (hwf : re.pattern.wellFormed = true) (s : JSString)
    (hno : ¬ re.MatchesIn s) : strMatch s re = none := by
  unfold strMatch
  split_ifs
  · rw [matchAll_eq_nil re hwf s hno]
  · cases he : re.exec s with
    | none => rfl
    | some m =>
      exfalso
      exact hno ((re.exec_isSome_iff hwf s).mp (by rw [he]; rfl))

/-! ## Years of experience -/

theorem Years.le_refl (a : Years) : a ≤ a := by
  cases a
  · exact Int.le_refl _
  · trivial

theorem Years.le_trans {a b c : Years} (hab : a ≤ b) (hbc : b ≤ c) : a ≤ c := by
  cases a <;> cases b <;> cases c <;>
    first
    | trivial
    | exact absurd hab id
    | exact absurd hbc id
    | exact Int.le_trans hab hbc

theorem SignedYears.signed_le_trans {a b c : SignedYears} (hab : a ≤ b) (hbc : b ≤ c) :
    a ≤ c := by
  cases a <;> cases b <;> cases c <;>
    first
    | trivial
    | exact absurd hab id
    | exact absurd hbc id
    | exact Int.le_trans hab hbc

theorem Years.toSigned_le {a b : Years} : a.toSigned ≤ b.toSigned ↔ a ≤ b := by
  cases a <;> cases b <;> exact Iff.rfl

theorem Years.toSigned_injective {a b : Years} (h : a.toSigned = b.toSigned) : a = b := by
  cases a <;> cases b <;> simp_all [Years.toSigned]

/-- The maximum of a number of years and a signed number: it is a number of years, the
least one that bounds both, and it is one of the two. -/
theorem Math.max_some (a : Years) (b : SignedYears) :
    ∃ c : Years, Math.max (some a) (some b) = some c ∧ a ≤ c ∧ b ≤ c.toSigned ∧
      (c = a ∨ c.toSigned = b) ∧ (∀ m : Years, a ≤ m → b ≤ m.toSigned → c ≤ m) := by
  cases a with
  | finite a =>
    cases b with
    | negInfinity =>
      exact ⟨_, rfl, Years.le_refl _, trivial, Or.inl rfl, fun m h _ => h⟩
    | finite b =>
      refine ⟨.finite (Max.max a b), rfl, ?_, ?_, ?_, ?_⟩
      · exact (le_max_left a b : a ≤ Max.max a b)
      · exact (le_max_right a b : b ≤ Max.max a b)
      · rcases le_total a b with hab | hab
        · right; show SignedYears.finite (Max.max a b) = _; rw [max_eq_right hab]
        · left; rw [max_eq_left hab]
      · intro m h1 h2
        cases m with
        | finite m => exact (max_le h1 h2 : Max.max a b ≤ m)
        | Infinity => trivial
    | Infinity =>
      refine ⟨.Infinity, rfl, trivial, trivial, Or.inr rfl, ?_⟩
      intro m _ h2
      cases m with
      | finite m => exact absurd h2 id
      | Infinity => trivial
  | Infinity =>
    cases b with
    | negInfinity => exact ⟨_, rfl, trivial, trivial, Or.inl rfl, fun m h _ => h⟩
    | finite b => exact ⟨.Infinity, rfl, trivial, trivial, Or.inl rfl, fun m h _ => h⟩
    | Infinity => exact ⟨.Infinity, rfl, trivial, trivial, Or.inl rfl, fun m h _ => h⟩

theorem Math.max_notNegative {a : Option Years} (b : Option SignedYears) (ha : NotNegative a) :
    NotNegative (Math.max a b) := by
  intro v hv
  cases a with
  | none => simp [Math.max] at hv
  | some x =>
    cases b with
    | none => simp [Math.max] at hv
    | some y =>
      obtain ⟨c, hc, hxc, -, -, -⟩ := Math.max_some x y
      rw [hc] at hv
      cases hv
      exact Years.le_trans (ha x rfl) hxc

theorem foldl_max_notNegative {α : Type} (f : α → Option SignedYears) (l : List α)
    {a : Option Years} (ha : NotNegative a) :
    NotNegative (l.foldl (fun acc m => Math.max acc (f m)) a) := by
  induction l generalizing a with
  | nil => exact ha
  | cons m l ih => exact ih (Math.max_notNegative (f m) ha)

theorem step_notNegative (h : Host) (text : JSString) {a : Option Years} (pattern : RegExp)
    (ha : NotNegative a) : NotNegative (detectExperienceYears.step h text a pattern) := by
  unfold detectExperienceYears.step
  split
  · exact ha
  · split
    · exact foldl_max_notNegative _ _ ha
    · exact Math.max_notNegative _ ha

theorem patterns_foldl_notNegative (h : Host) (text : JSString) (ps : List RegExp)
    {a : Option Years} (ha : NotNegative a) :
    NotNegative (ps.foldl (detectExperienceYears.step h text) a) := by
  induction ps generalizing a with
  | nil => exact ha
  | cons p ps ih => exact ih (step_notNegative h text p ha)

/-- The result of `detectExperienceYears` from the maximum the loop ends with. -/
theorem detectExperienceYears_of_foldl (h : Host) (text : JSString) (m : Years)
    (hm : detectExperienceYears.patterns.foldl (detectExperienceYears.step h text) (some 0) =
      some m) :
    detectExperienceYears h text = (if m = 0 then 2 else m) := by
  unfold detectExperienceYears
  rw [hm]
  cases m with
  | finite n =>
    by_cases hn : n = 0
    · subst hn; rfl
    · have hne : Years.finite n ≠ 0 := by
        intro hc
        injection hc with hc
        exact hn (by simpa using hc)
      rw [if_neg hne]
      split
      · next heq =>
        injection heq with heq
        injection heq with heq
        exact absurd heq hn
      · next heq => injection heq with heq; exact heq.symm
      · next heq => cases heq
  | Infinity => rfl

/-- The years reported are at least one. -/
theorem detectExperienceYears_pos (h : Host) (text : JSString) :
    1 ≤ detectExperienceYears h text := by
  have key := patterns_foldl_notNegative h text detectExperienceYears.patterns
    (a := some 0) (by intro v hv; cases hv; exact Years.le_refl _)
  cases hf : detectExperienceYears.patterns.foldl (detectExperienceYears.step h text)
      (some 0) with
  | none =>
    unfold detectExperienceYears
    rw [hf]
    decide
  | some m =>
    rw [detectExperienceYears_of_foldl h text m hf]
    have h0 := key m hf
    cases m with
    | finite n =>
      have h0n : (0 : Int) ≤ n := h0
      by_cases hn : n = 0
      · subst hn
        decide
      · have hne : Years.finite n ≠ 0 := by
          intro hc
          injection hc with hc
          exact hn (by simpa using hc)
        rw [if_neg hne]
        show (1 : Int) ≤ n
        omega
    | Infinity => decide

theorem step_yearsOfExperience (h : Host) (text : JSString) (a : Option Years) :
    detectExperienceYears.step h text a yearsOfExperiencePattern =
      ((yearsOfExperiencePattern.exec text).toList.map capturedNumber).foldl Math.max a := by
  have hsrc : includes (js yearsOfExperiencePattern.source) (js "\\d\x7b4\x7d") = false := by
    decide
  have hg : yearsOfExperiencePattern.global = false := rfl
  unfold detectExperienceYears.step strMatch
  rw [hg]
  cases yearsOfExperiencePattern.exec text with
  | none => rfl
  | some m => simp [hsrc, capturedNumber]

theorem step_experienceYears (h : Host) (text : JSString) (a : Option Years) :
    detectExperienceYears.step h text a experienceYearsPattern =
      ((experienceYearsPattern.exec text).toList.map capturedNumber).foldl Math.max a := by
  have hsrc : includes (js experienceYearsPattern.source) (js "\\d\x7b4\x7d") = false := by
    decide
  have hg : experienceYearsPattern.global = false := rfl
  unfold detectExperienceYears.step strMatch
  rw [hg]
  cases experienceYearsPattern.exec text with
  | none => rfl
  | some m => simp [hsrc, capturedNumber]

theorem step_dateRange (h : Host) (text : JSString) (a : Option Years) :
    detectExperienceYears.step h text a dateRangePattern =
      ((matchAll text dateRangePattern).map (detectExperienceYears.rangeYears h)).foldl
        Math.max a := by
  have hsrc : includes (js dateRangePattern.source) (js "\\d\x7b4\x7d") = true := by decide
  have hg : dateRangePattern.global = true := rfl
  unfold detectExperienceYears.step strMatch
  rw [hg]
  cases matchAll text dateRangePattern with
  | nil => rfl
  | cons m ms => simp [hsrc, List.foldl_map]

/-- The loop over the patterns folds `Math.max` over the observed values. -/
theorem patterns_foldl_eq (h : Host) (text : JSString) :
    detectExperienceYears.patterns.foldl (detectExperienceYears.step h text) (some 0) =
      (observedYears h text).foldl Math.max (some 0) := by
  simp only [detectExperienceYears.patterns, List.foldl, observedYears, List.foldl_append,
    step_yearsOfExperience, step_experienceYears, step_dateRange]

theorem Years.le_antisymm {a b : Years} (hab : a ≤ b) (hba : b ≤ a) : a = b := by
  cases a <;> cases b
  · exact congrArg Years.finite (Int.le_antisymm hab hba)
  · exact absurd hba id
  · exact absurd hab id
  · rfl

theorem foldl_max_eq (l : List (Option SignedYears)) (a m : Years) (ha : a ≤ m)
    (hl : ∀ v ∈ l, ∃ n, v = some n ∧ n ≤ m.toSigned) (hm : a = m ∨ some m.toSigned ∈ l) :
    l.foldl Math.max (some a) = some m := by
  induction l generalizing a with
  | nil =>
    rcases hm with rfl | hm
    · rfl
    · simp at hm
  | cons v l ih =>
    obtain ⟨n, rfl, hn⟩ := hl _ (List.mem_cons_self _ _)
    obtain ⟨c, hc, hac, hnc, -, hleast⟩ := Math.max_some a n
    simp only [List.foldl, hc]
    have hcm : c ≤ m := hleast m ha hn
    apply ih c hcm (fun v hv => hl v (List.mem_cons_of_mem _ hv))
    rcases hm with rfl | hm
    · left
      exact Years.le_antisymm hcm hac
    · rcases List.mem_cons.mp hm with hv | hv
      · left
        injection hv with hv
        rw [← hv] at hnc
        exact Years.le_antisymm hcm (Years.toSigned_le.mp hnc)
      · right; exact hv

/-- A fold of `Math.max` from a number that is not negative, over numbers, is a number
that is not negative, bounds every one of them and is the start or one of them. -/
theorem foldl_max_isSome (l : List (Option SignedYears)) (a : Years) (ha : 0 ≤ a)
    (hl : ∀ v ∈ l, ∃ n : SignedYears, v = some n) :
    ∃ m : Years, l.foldl Math.max (some a) = some m ∧ 0 ≤ m ∧ a ≤ m ∧
      (∀ n : SignedYears, some n ∈ l → n ≤ m.toSigned) ∧ (m = a ∨ some m.toSigned ∈ l) := by
  induction l generalizing a with
  | nil => exact ⟨a, rfl, ha, Years.le_refl _, by simp, Or.inl rfl⟩
  | cons v l ih =>
    obtain ⟨n, rfl⟩ := hl _ (List.mem_cons_self _ _)
    obtain ⟨c, hc, hac, hnc, hor, -⟩ := Math.max_some a n
    obtain ⟨m, hm, h0, hle, hall, hmem⟩ :=
      ih c (Years.le_trans ha hac) (fun v hv => hl v (List.mem_cons_of_mem _ hv))
    refine ⟨m, by simp only [List.foldl, hc, hm], h0, Years.le_trans hac hle, ?_, ?_⟩
    · intro k hk
      rcases List.mem_cons.mp hk with hk | hk
      · injection hk with hk
        rw [hk]
        exact SignedYears.signed_le_trans hnc (Years.toSigned_le.mpr hle)
      · exact hall k hk
    · rcases hmem with hmem | hmem
      · rcases hor with hor | hor
        · left; rw [hmem, hor]
        · right
          rw [hmem, hor]
          exact List.mem_cons_self _ _
      · right
        exact List.mem_cons_of_mem _ hmem

theorem Years.le_of_lt {a b : Years} (h : a < b) : a ≤ b := by
  cases a <;> cases b
  · exact Int.le_of_lt h
  · trivial
  · exact absurd h id
  · exact absurd h id

theorem Years.ne_of_lt {a b : Years} (h : a < b) : b ≠ a := by
  rintro rfl
  cases b
  · exact absurd h (Int.lt_irrefl _)
  · exact absurd h id

theorem Years.zero_le_of_one_le {a : Years} (h : 1 ≤ a) : 0 ≤ a :=
  Years.le_trans (by decide : (0 : Years) ≤ 1) h

theorem Years.ne_zero_of_one_le {a : Years} (h : 1 ≤ a) : a ≠ 0 := by
  rintro rfl
  exact absurd h (by decide)

theorem Years.not_lt_zero_of_one_le {a : Years} (h : 1 ≤ a) : ¬ a < 0 := by
  cases a with
  | finite n =>
    have h1 : (1 : Int) ≤ n := h
    intro hlt
    have h2 : n < (0 : Int) := hlt
    omega
  | Infinity => exact id

/-- A result of at least one is an integer that is at least one, or `Infinity`. -/
theorem Years.finite_or_Infinity {a : Years} (h : 1 ≤ a) :
    (∃ n : Int, a = .finite n ∧ 1 ≤ n) ∨ a = .Infinity := by
  cases a with
  | finite n => exact Or.inl ⟨n, rfl, h⟩
  | Infinity => exact Or.inr rfl

/-- Below `2 ^ 53` the number value of an integer is the integer. -/
theorem Years.ofNat_of_lt (n : Nat) (h : n < 2 ^ 53) : Years.ofNat n = .finite n := by
  unfold Years.ofNat
  rw [if_pos h]

theorem performAnalysis_experienceYears (h : Host) (text : JSString) :
    (performAnalysis h text).experienceYears = detectExperienceYears h text := rfl

/-! ## Education -/

theorem loop_level (textLower : JSString) (l : List (String × Education))
    (hl : ∀ e ∈ l, 1 ≤ e.2.level ∧ e.2.level ≤ 4) :
    1 ≤ (detectEducation.loop textLower l).level ∧
      (detectEducation.loop textLower l).level ≤ 4 := by
  induction l with
  | nil => simp [detectEducation.loop]
  | cons e l ih =>
    obtain ⟨key, value⟩ := e
    unfold detectEducation.loop
    split
    · exact hl (key, value) (List.mem_cons_self _ _)
    · exact ih fun e he => hl e (List.mem_cons_of_mem _ he)

theorem detectEducation_level (h : Host) (text : JSString) :
    1 ≤ (detectEducation h text).level ∧ (detectEducation h text).level ≤ 4 :=
  loop_level _ _ (by decide)

theorem loop_first (textLower : JSString) (pre : List (String × Education)) (key : String)
    (value : Education) (post : List (String × Education))
    (hpre : ∀ e ∈ pre, ¬ js e.1 <:+: textLower) (hkey : js key <:+: textLower) :
    detectEducation.loop textLower (pre ++ (key, value) :: post) = value := by
  induction pre with
  | nil =>
    simp only [List.nil_append, detectEducation.loop]
    rw [if_pos ((includes_iff _ _).mpr hkey)]
  | cons e pre ih =>
    obtain ⟨k, v⟩ := e
    simp only [List.cons_append, detectEducation.loop]
    have hk : ¬ js k <:+: textLower := hpre (k, v) (List.mem_cons_self _ _)
    rw [if_neg (fun hc => hk ((includes_iff _ _).mp hc))]
    exact ih fun e he => hpre e (List.mem_cons_of_mem _ he)

theorem loop_none (textLower : JSString) (l : List (String × Education))
    (hl : ∀ e ∈ l, ¬ js e.1 <:+: textLower) :
    detectEducation.loop textLower l = ⟨2, "Bachelor\x27s Degree"⟩ := by
  induction l with
  | nil => rfl
  | cons e l ih =>
    obtain ⟨k, v⟩ := e
    simp only [detectEducation.loop]
    have hk : ¬ js k <:+: textLower := hl (k, v) (List.mem_cons_self _ _)
    rw [if_neg (fun hc => hk ((includes_iff _ _).mp hc))]
    exact ih fun e he => hl e (List.mem_cons_of_mem _ he)

/-- Over entries listed by non-increasing level, the loop returns a level at least that
of every entry whose keyword occurs. -/
theorem loop_highest (textLower : JSString) (l : List (String × Education))
    (hsorted : l.Pairwise fun a b => b.2.level ≤ a.2.level)
    (e : String × Education) (he : e ∈ l) (hin : js e.1 <:+: textLower) :
    e.2.level ≤ (detectEducation.loop textLower l).level := by
  induction l with
  | nil => simp at he
  | cons a l ih =>
    obtain ⟨k, v⟩ := a
    simp only [detectEducation.loop]
    rw [List.pairwise_cons] at hsorted
    split
    · rcases List.mem_cons.mp he with rfl | he
      · exact le_refl _
      · exact hsorted.1 e he
    · next hk =>
      rcases List.mem_cons.mp he with rfl | he
      · exact absurd ((includes_iff _ _).mpr hin) hk
      · exact ih hsorted.2 he

/-! ## Scenario B -/

theorem scenarioB_skills (h : Host) :
    (performAnalysis h scenarioB).skills = [js "javascript", js "python", js "java",
      js "react", js "aws", js "docker", js "kubernetes", js "leadership"] := rfl

/-! ## Recommendations -/

theorem any_contains_iff (skills : List JSString) (l : List JSString) :
    (skills.any fun s => l.contains s) = true ↔ ∃ a ∈ l, a ∈ skills := by
  simp only [List.any_eq_true, List.contains_iff_exists_mem_beq, beq_iff_eq]
  constructor
  · rintro ⟨s, hs, a, ha, rfl⟩
    exact ⟨s, ha, hs⟩
  · rintro ⟨a, ha, hs⟩
    exact ⟨a, hs, a, ha, rfl⟩

/-- The generator appends, per rule that triggers, the message of the rule. -/
theorem generateRecommendations_eq (skills : List JSString) (experience : Years)
    (education : Education) (hasEmail hasPhone : Bool) :
    generateRecommendations skills experience education hasEmail hasPhone =
      if ((recommendationRules skills experience education hasEmail hasPhone).filter
          (·.1)).length = 0 then genericRecommendations
      else ((recommendationRules skills experience education hasEmail hasPhone).filter
          (·.1)).map (·.2) := by
  have hsoft : (skills.any fun s =>
      [js "leadership", js "communication", js "teamwork"].contains s) =
      !decide (js "leadership" ∉ skills ∧ js "communication" ∉ skills ∧
        js "teamwork" ∉ skills) := by
    rw [Bool.eq_iff_iff, any_contains_iff]
    simp only [List.mem_cons, List.mem_singleton, List.not_mem_nil, or_false,
      Bool.not_eq_true', decide_eq_false_iff_not, not_and, not_not]
    constructor
    · rintro ⟨a, ha | ha | ha, hs⟩ h1 h2 <;> subst ha
      · exact absurd hs h1
      · exact absurd hs h2
      · exact hs
    · intro hh
      by_cases h1 : js "leadership" ∈ skills
      · exact ⟨_, Or.inl rfl, h1⟩
      by_cases h2 : js "communication" ∈ skills
      · exact ⟨_, Or.inr (Or.inl rfl), h2⟩
      exact ⟨_, Or.inr (Or.inr rfl), hh h1 h2⟩
  have hcloud : (decide (skills.length > 0) && !skills.any fun s =>
      [js "aws", js "azure", js "gcp", js "docker", js "kubernetes"].contains s) =
      decide (skills ≠ [] ∧ js "aws" ∉ skills ∧ js "azure" ∉ skills ∧ js "gcp" ∉ skills ∧
        js "docker" ∉ skills ∧ js "kubernetes" ∉ skills) := by
    rw [Bool.eq_iff_iff]
    simp only [Bool.and_eq_true, decide_eq_true_eq, Bool.not_eq_true', gt_iff_lt,
      List.length_pos, ← Bool.not_eq_true, any_contains_iff, List.mem_cons,
      List.mem_singleton, List.not_mem_nil, or_false, not_exists, not_and]
    constructor
    · rintro ⟨hne, hall⟩
      exact ⟨hne, hall _ (Or.inl rfl), hall _ (Or.inr (Or.inl rfl)),
        hall _ (Or.inr (Or.inr (Or.inl rfl))), hall _ (Or.inr (Or.inr (Or.inr (Or.inl rfl)))),
        hall _ (Or.inr (Or.inr (Or.inr (Or.inr rfl))))⟩
    · rintro ⟨hne, h1, h2, h3, h4, h5⟩
      refine ⟨hne, ?_⟩
      rintro a (ha | ha | ha | ha | ha) <;> subst ha <;> assumption
  unfold generateRecommendations recommendationRules genericRecommendations
  simp only [hsoft, hcloud]
  generalize decide (js "leadership" ∉ skills ∧ js "communication" ∉ skills ∧
    js "teamwork" ∉ skills) = b5
  generalize decide (skills ≠ [] ∧ js "aws" ∉ skills ∧ js "azure" ∉ skills ∧
    js "gcp" ∉ skills ∧ js "docker" ∉ skills ∧ js "kubernetes" ∉ skills) = b6
  by_cases h1 : skills.length < 5 <;> by_cases h2 : experience < 3 <;>
    by_cases h4 : education.level < 2 <;> cases hasEmail <;> cases hasPhone <;>
    cases b5 <;> cases b6 <;> simp [h1, h2, h4]


theorem recommendationRules_messages (skills : List JSString) (experience : Years)
    (education : Education) (hasEmail hasPhone : Bool) :
    (recommendationRules skills experience education hasEmail hasPhone).map (·.2) = [
      "Add more relevant technical skills to strengthen your profile",
      "Highlight any internships, projects, or volunteer work to showcase experience",
      "Ensure your contact information (email and phone) is clearly visible",
      "Consider pursuing additional certifications or degrees to enhance qualifications",
      "Include soft skills like leadership, communication, and teamwork",
      "Consider adding cloud technologies or DevOps skills for modern roles"] := rfl

theorem recommendationRules_nodup (skills : List JSString) (experience : Years)
    (education : Education) (hasEmail hasPhone : Bool) :
    ((recommendationRules skills experience education hasEmail hasPhone).map (·.2)).Nodup := by
  rw [recommendationRules_messages]
  decide

theorem recommendationRules_not_generic (skills : List JSString) (experience : Years)
    (education : Education) (hasEmail hasPhone : Bool) :
    ∀ r ∈ recommendationRules skills experience education hasEmail hasPhone,
      r.2 ∉ genericRecommendations := by
  intro r hr
  have hm : r.2 ∈ (recommendationRules skills experience education hasEmail hasPhone).map
      (·.2) := List.mem_map_of_mem _ hr
  rw [recommendationRules_messages] at hm
  simp only [List.mem_cons, List.mem_singleton, List.not_mem_nil, or_false] at hm
  rcases hm with hm | hm | hm | hm | hm | hm <;> rw [hm] <;> decide

/-! ## Job matching -/

theorem any_lower_eq (h : Host) (candidateSkills : List JSString) (s : JSString) :
    (candidateSkills.any fun c => toLowerCase h c == toLowerCase h s) =
      decide (∃ c ∈ candidateSkills, toLowerCase h c = toLowerCase h s) := by
  rw [Bool.eq_iff_iff]
  simp [List.any_eq_true]

theorem matchCount_eq (h : Host) (job : Job) (candidateSkills : List JSString) :
    matchCount h job candidateSkills = (job.getMatchedSkills h candidateSkills).length := by
  unfold matchCount Job.getMatchedSkills
  rw [List.countP_eq_length_filter]
  congr 2
  funext s
  exact (any_lower_eq h candidateSkills s).symm

theorem matchCount_le (h : Host) (job : Job) (candidateSkills : List JSString) :
    matchCount h job candidateSkills ≤ job.skills.length :=
  List.countP_le_length _

theorem calculateJobMatch_of_ne (h : Host) (job : Job) (cvSkills : List JSString)
    (hcv : cvSkills ≠ []) (hjob : job.skills ≠ []) :
    calculateJobMatch h job (some cvSkills) =
      some (Math.round (roundDouble (roundDouble
        ((matchCount h job cvSkills : ℚ) / (job.skills.length : ℚ)) * 100))) := by
  have h1 : ¬ cvSkills.length = 0 := fun h0 => hcv (List.length_eq_zero.mp h0)
  have h2 : ¬ job.skills.length = 0 := fun h0 => hjob (List.length_eq_zero.mp h0)
  rw [matchCount_eq]
  simp only [calculateJobMatch, if_neg h1, if_neg h2, Job.getMatchedSkills]

theorem calculateMatchPercentage_of_ne (h : Host) (job : Job) (candidateSkills : List JSString)
    (hcv : candidateSkills ≠ []) (hjob : job.skills ≠ []) :
    job.calculateMatchPercentage h (some candidateSkills) =
      Math.round (roundDouble (roundDouble
        ((matchCount h job candidateSkills : ℚ) / (job.skills.length : ℚ)) * 100)) := by
  have h1 : ¬ candidateSkills.length = 0 := fun h0 => hcv (List.length_eq_zero.mp h0)
  have h2 : ¬ job.skills.length = 0 := fun h0 => hjob (List.length_eq_zero.mp h0)
  rw [matchCount_eq]
  simp only [Job.calculateMatchPercentage, if_neg h1, calculatePercentage, if_neg h2]

set_option maxRecDepth 100000 in
/-- Below forty job skills the rounding in double precision gives the exact percentage. -/
theorem percentage_exact_below_forty :
    ∀ n ∈ List.range 40, ∀ m ∈ List.range (n + 1), n = 0 ∨
      Math.round (roundDouble (roundDouble ((m : ℚ) / (n : ℚ)) * 100)) =
        Math.round (100 * (m : ℚ) / (n : ℚ)) := by
  decide!

theorem matchCount_forty (h : Host) : matchCount h fortySkillsJob twentyThreeSkills = 23 := by
  rw [matchCount_eq]
  rfl

/-! ## Text extraction -/

/-- A page that cannot be read ends the loop with an error. -/
theorem pagesLoop_error (pdf : PDFDocument) (e : String) :
    ∀ (remaining i j : Nat) (fullText : JSString),
    i ≤ j → j < i + remaining → pdf.getPage j = .error e →
    ∃ e2, extractTextFromPDF.loop pdf remaining i fullText = .error e2 := by
  intro remaining
  induction remaining with
  | zero => intro i j _ h1 h2; omega
  | succ n ih =>
    intro i j fullText h1 h2 he
    unfold extractTextFromPDF.loop
    cases hp : pdf.getPage i with
    | error e1 => exact ⟨e1, rfl⟩
    | ok items =>
      have hij : i ≠ j := by
        rintro rfl
        rw [hp] at he
        cases he
      exact ih (i + 1) j _ (by omega) (by omega) he

/-- When every page can be read, the loop appends the text of each page and a newline. -/
theorem pagesLoop_ok (pdf : PDFDocument) : ∀ (pages : List (List JSString)) (i : Nat)
    (fullText : JSString),
    (∀ (k : Nat) (hk : k < pages.length), pdf.getPage (i + k) = .ok (pages.get ⟨k, hk⟩)) →
    extractTextFromPDF.loop pdf pages.length i fullText =
      .ok (fullText ++ (pages.map fun items => join (js " ") items ++ js "\n").flatten) := by
  intro pages
  induction pages with
  | nil => intro i fullText _; simp [extractTextFromPDF.loop]
  | cons p pages ih =>
    intro i fullText hp
    have h0 : pdf.getPage i = .ok p := hp 0 (Nat.succ_pos _)
    simp only [List.length_cons, extractTextFromPDF.loop, h0, List.map_cons, List.flatten_cons]
    rw [ih (i + 1)]
    · simp only [List.append_assoc]
    · intro k hk
      have := hp (k + 1) (Nat.succ_lt_succ hk)
      rw [show i + 1 + k = i + (k + 1) by omega]
      exact this

theorem join_append_separator (sep : JSString) : ∀ (l : List JSString), l ≠ [] →
    (l.map fun t => t ++ sep).flatten = join sep l ++ sep := by
  intro l
  induction l with
  | nil => intro h; exact absurd rfl h
  | cons a l ih =>
    intro _
    cases l with
    | nil => simp [join]
    | cons b l =>
      rw [List.map_cons, List.flatten_cons, ih (List.cons_ne_nil _ _), join]
      simp only [List.append_assoc]

theorem generateRecommendations_ne_nil (skills : List JSString) (experience : Years)
    (education : Education) (hasEmail hasPhone : Bool) :
    generateRecommendations skills experience education hasEmail hasPhone ≠ [] := by
  rw [generateRecommendations_eq]
  split_ifs with h0
  · simp [genericRecommendations]
  · intro hnil
    apply h0
    rw [← List.length_map _ (·.2), hnil]
    rfl

/-! ## Detected skills and the job catalog -/

theorem mem_skills_iff (h : Host) (text : JSString) (skill : JSString) :
    skill ∈ (performAnalysis h text).skills ↔
      (skill ∈ skillsDatabase ∧ skill <:+: toLowerCase h text) := by
  simp only [performAnalysis, List.mem_filter, includes_iff]
  constructor
  · rintro ⟨hm, hi⟩
    rw [toLowerCase_skill h skill hm] at hi
    exact ⟨hm, hi⟩
  · rintro ⟨hm, hi⟩
    rw [toLowerCase_skill h skill hm]
    exact ⟨hm, hi⟩

theorem matchCount_eq_zero (h : Host) (job : Job) (candidateSkills : List JSString)
    (hcand : ∀ c ∈ candidateSkills, c ∈ skillsDatabase)
    (hjob : ∀ s ∈ job.skills, toLowerCase h s ∉ skillsDatabase) :
    matchCount h job candidateSkills = 0 := by
  unfold matchCount
  rw [List.countP_eq_zero]
  intro s hs
  simp only [decide_eq_true_eq, not_exists, not_and]
  intro c hc heq
  rw [toLowerCase_skill h c (hcand c hc)] at heq
  exact hjob s hs (heq ▸ hcand c hc)

theorem percentage_zero (n : Nat) :
    Math.round (roundDouble (roundDouble (((0 : Nat) : ℚ) / (n : ℚ)) * 100)) = 0 := by
  have h0 : ((0 : Nat) : ℚ) / (n : ℚ) = 0 := by simp
  have hr : roundDouble 0 = 0 := by decide!
  rw [h0, hr, zero_mul, hr]
  decide!

theorem two_le_length_of_mem {l : List JSString} {a b : JSString} (hab : a ≠ b)
    (ha : a ∈ l) (hb : b ∈ l) : 2 ≤ l.length := by
  have hnd : [a, b].Nodup := by simp [hab]
  have hsub : [a, b] ⊆ l := by
    intro x hx
    simp only [List.mem_cons, List.mem_singleton, List.not_mem_nil, or_false] at hx
    rcases hx with rfl | rfl
    · exact ha
    · exact hb
  exact (List.Nodup.subperm hnd hsub).length_le

theorem mem_skills_of_infix (h : Host) (text : JSString) {a b : JSString}
    (hb : b ∈ skillsDatabase) (hab : b <:+: a) (ha : a ∈ (performAnalysis h text).skills) :
    b ∈ (performAnalysis h text).skills :=
  (mem_skills_iff h text b).mpr ⟨hb, hab.trans ((mem_skills_iff h text a).mp ha).2⟩

theorem matchCount_mono (h : Host) (job : Job) (a b : List JSString)
    (hsub : ∀ s ∈ a, s ∈ b) : matchCount h job a ≤ matchCount h job b := by
  unfold matchCount
  apply List.countP_mono_left
  intro s _ hs
  simp only [decide_eq_true_eq] at hs ⊢
  obtain ⟨c, hc, heq⟩ := hs
  exact ⟨c, hsub c hc, heq⟩

/-! ## Rounding to a double -/

theorem floorLog2Loop_spec : ∀ (fuel n : Nat), 0 < n → n ≤ fuel →
    2 ^ floorLog2Loop fuel n ≤ n ∧ n < 2 ^ (floorLog2Loop fuel n + 1) := by
  intro fuel
  induction fuel with
  | zero => intro n h0 h1; omega
  | succ fuel ih =>
    intro n h0 h1
    unfold floorLog2Loop
    by_cases h2 : n < 2
    · rw [if_pos h2]
      have : n = 1 := by omega
      subst this
      simp
    · rw [if_neg h2]
      have hdiv : 0 < n / 2 := Nat.div_pos (by omega) (by decide)
      have hle : n / 2 ≤ fuel := by omega
      obtain ⟨ha, hb⟩ := ih (n / 2) hdiv hle
      constructor
      · rw [pow_succ]
        have := (Nat.le_div_iff_mul_le (by decide : 0 < 2)).mp ha
        exact this
      · rw [pow_succ]
        have := (Nat.div_lt_iff_lt_mul (by decide : 0 < 2)).mp hb
        exact this

theorem floorLog2_spec (n : Nat) (h0 : 0 < n) :
    2 ^ floorLog2 n ≤ n ∧ n < 2 ^ (floorLog2 n + 1) :=
  floorLog2Loop_spec n n h0 (le_refl n)

theorem twoPow_eq (k : Int) : twoPow k = (2 : ℚ) ^ k := by
  unfold twoPow
  by_cases hk : 0 ≤ k
  · rw [if_pos hk]
    push_cast
    rw [← zpow_natCast, Int.toNat_of_nonneg hk]
  · rw [if_neg hk]
    push_cast
    have hk2 : 0 ≤ -k := by omega
    rw [← zpow_natCast, Int.toNat_of_nonneg hk2, zpow_neg]
    simp

theorem twoPow_pos (k : Int) : 0 < twoPow k := by
  rw [twoPow_eq]
  positivity

theorem scaleFraction_spec (p d : Nat) (k : Int) (hd : 0 < d) :
    0 < (scaleFraction p d k).2 ∧
    ((scaleFraction p d k).1 : ℚ) / ((scaleFraction p d k).2 : ℚ) = (p : ℚ) / (d : ℚ) * 2 ^ k := by
  have hdq : (d : ℚ) ≠ 0 := by exact_mod_cast hd.ne'
  unfold scaleFraction
  by_cases hk : 0 ≤ k
  · rw [if_pos hk]
    refine ⟨hd, ?_⟩
    push_cast
    rw [← zpow_natCast, Int.toNat_of_nonneg hk]
    field_simp
  · rw [if_neg hk]
    have hk2 : 0 ≤ -k := by omega
    refine ⟨Nat.mul_pos hd (by positivity), ?_⟩
    push_cast
    rw [← zpow_natCast, Int.toNat_of_nonneg hk2, zpow_neg]
    field_simp

theorem binaryExponent_spec (p d : Nat) (hp : 0 < p) (hd : 0 < d) :
    (2 : ℚ) ^ binaryExponent p d ≤ (p : ℚ) / (d : ℚ) ∧
    (p : ℚ) / (d : ℚ) < (2 : ℚ) ^ (binaryExponent p d + 1) := by
  obtain ⟨pa, pb⟩ := floorLog2_spec p hp
  obtain ⟨da, db⟩ := floorLog2_spec d hd
  have hdq : (0 : ℚ) < d := by exact_mod_cast hd
  have hpq : (0 : ℚ) < p := by exact_mod_cast hp
  have pa' : (2 : ℚ) ^ (floorLog2 p : ℤ) ≤ p := by
    rw [zpow_natCast]; exact_mod_cast pa
  have pb' : (p : ℚ) < (2 : ℚ) ^ ((floorLog2 p : ℤ) + 1) := by
    have : (p : ℚ) < (2 : ℚ) ^ (floorLog2 p + 1) := by exact_mod_cast pb
    rwa [← zpow_natCast, Nat.cast_add, Nat.cast_one] at this
  have da' : (2 : ℚ) ^ (floorLog2 d : ℤ) ≤ d := by
    rw [zpow_natCast]; exact_mod_cast da
  have db' : (d : ℚ) < (2 : ℚ) ^ ((floorLog2 d : ℤ) + 1) := by
    have : (d : ℚ) < (2 : ℚ) ^ (floorLog2 d + 1) := by exact_mod_cast db
    rwa [← zpow_natCast, Nat.cast_add, Nat.cast_one] at this
  set a : ℤ := (floorLog2 p : ℤ) with ha
  set b : ℤ := (floorLog2 d : ℤ) with hb
  have h2 : (0 : ℚ) < 2 := by norm_num
  have h20 : (2 : ℚ) ≠ 0 := by norm_num
  -- upper bound: p / d < 2 ^ (a - b + 1)
  have hupper : (p : ℚ) / d < (2 : ℚ) ^ (a - b + 1) := by
    rw [div_lt_iff₀ hdq]
    calc (p : ℚ) < 2 ^ (a + 1) := pb'
      _ = 2 ^ (a - b + 1) * 2 ^ b := by rw [← zpow_add₀ h20]; congr 1; ring
      _ ≤ 2 ^ (a - b + 1) * d := by
        apply mul_le_mul_of_nonneg_left da' (by positivity)
  have hlower : (2 : ℚ) ^ (a - b - 1) ≤ (p : ℚ) / d := by
    rw [le_div_iff₀ hdq]
    calc (2 : ℚ) ^ (a - b - 1) * d ≤ 2 ^ (a - b - 1) * 2 ^ (b + 1) := by
          apply mul_le_mul_of_nonneg_left (le_of_lt db') (by positivity)
      _ = 2 ^ a := by rw [← zpow_add₀ h20]; congr 1; ring
      _ ≤ p := pa'
  obtain ⟨hs2, hs⟩ := scaleFraction_spec p d (-(a - b)) hd
  have hs2q : (0 : ℚ) < ((scaleFraction p d (-(a - b))).2 : ℚ) := by exact_mod_cast hs2
  have htest : (scaleFraction p d (-(a - b))).2 ≤ (scaleFraction p d (-(a - b))).1 ↔
      (2 : ℚ) ^ (a - b) ≤ (p : ℚ) / d := by
    have h1 : (scaleFraction p d (-(a - b))).2 ≤ (scaleFraction p d (-(a - b))).1 ↔
        (1 : ℚ) ≤ ((scaleFraction p d (-(a - b))).1 : ℚ) /
          ((scaleFraction p d (-(a - b))).2 : ℚ) := by
      rw [le_div_iff₀ hs2q, one_mul]
      exact Nat.cast_le.symm
    rw [h1, hs, zpow_neg, ← div_eq_mul_inv, le_div_iff₀ (by positivity), one_mul]
  unfold binaryExponent
  simp only [← ha, ← hb]
  by_cases ht : (scaleFraction p d (-(a - b))).2 ≤ (scaleFraction p d (-(a - b))).1
  · rw [if_pos ht]
    exact ⟨htest.mp ht, hupper⟩
  · rw [if_neg ht]
    have hlt : (p : ℚ) / d < (2 : ℚ) ^ (a - b) := not_le.mp (fun h => ht (htest.mpr h))
    refine ⟨hlower, ?_⟩
    have : a - b - 1 + 1 = a - b := by ring
    rw [this]
    exact hlt

theorem nearestEven_floor_le (x : ℚ) : ⌊x⌋ ≤ nearestEven x := by
  unfold nearestEven
  split_ifs <;> omega

theorem nearestEven_le_floor_succ (x : ℚ) : nearestEven x ≤ ⌊x⌋ + 1 := by
  unfold nearestEven
  split_ifs <;> omega

theorem nearestEven_intCast (k : ℤ) : nearestEven (k : ℚ) = k := by
  unfold nearestEven
  simp

theorem nearestEven_mono {x y : ℚ} (h : x ≤ y) : nearestEven x ≤ nearestEven y := by
  have hf : ⌊x⌋ ≤ ⌊y⌋ := Int.floor_mono h
  rcases lt_or_eq_of_le hf with hlt | heq
  · calc nearestEven x ≤ ⌊x⌋ + 1 := nearestEven_le_floor_succ x
      _ ≤ ⌊y⌋ := hlt
      _ ≤ nearestEven y := nearestEven_floor_le y
  · have hfr : Int.fract x ≤ Int.fract y := by
      unfold Int.fract
      rw [heq]
      linarith
    unfold nearestEven
    rw [heq]
    split_ifs <;> first | omega | linarith

theorem roundHalfEven_eq (n d : Nat) (hd : 0 < d) :
    (roundHalfEven n d : ℤ) = nearestEven ((n : ℚ) / (d : ℚ)) := by
  have hdq : (0 : ℚ) < d := by exact_mod_cast hd
  have hfloor : ⌊(n : ℚ) / (d : ℚ)⌋ = ((n / d : ℕ) : ℤ) := by
    rw [Int.floor_eq_iff]
    constructor
    · rw [le_div_iff₀ hdq]
      have : n / d * d ≤ n := Nat.div_mul_le_self n d
      exact_mod_cast this
    · rw [div_lt_iff₀ hdq]
      have : n < (n / d + 1) * d := by
        have := Nat.lt_div_mul_add hd (a := n)
        nlinarith [Nat.div_add_mod n d, Nat.mod_lt n hd]
      exact_mod_cast this
  have hfract : Int.fract ((n : ℚ) / (d : ℚ)) = ((n % d : ℕ) : ℚ) / (d : ℚ) := by
    unfold Int.fract
    rw [hfloor, eq_div_iff hdq.ne', sub_mul, div_mul_cancel₀ _ hdq.ne']
    have := Nat.div_add_mod n d
    have h2 : (n : ℚ) = (d : ℚ) * ((n / d : ℕ) : ℚ) + ((n % d : ℕ) : ℚ) := by
      exact_mod_cast this.symm
    rw [Int.cast_natCast]
    linarith
  have hlt : Int.fract ((n : ℚ) / (d : ℚ)) < 1 / 2 ↔ 2 * (n % d) < d := by
    rw [hfract, div_lt_iff₀ hdq]
    constructor
    · intro h
      have : (2 : ℚ) * ((n % d : ℕ) : ℚ) < d := by linarith
      exact_mod_cast this
    · intro h
      have : (2 : ℚ) * ((n % d : ℕ) : ℚ) < d := by exact_mod_cast h
      linarith
  have hgt : 1 / 2 < Int.fract ((n : ℚ) / (d : ℚ)) ↔ d < 2 * (n % d) := by
    rw [hfract, lt_div_iff₀ hdq]
    constructor
    · intro h
      have : (d : ℚ) < (2 : ℚ) * ((n % d : ℕ) : ℚ) := by linarith
      exact_mod_cast this
    · intro h
      have : (d : ℚ) < (2 : ℚ) * ((n % d : ℕ) : ℚ) := by exact_mod_cast h
      linarith
  unfold roundHalfEven nearestEven
  rw [hfloor]
  by_cases h1 : 2 * (n % d) < d
  · rw [if_pos h1, if_pos (hlt.mpr h1)]
  · rw [if_neg h1, if_neg (fun h => h1 (hlt.mp h))]
    by_cases h2 : d < 2 * (n % d)
    · rw [if_pos h2, if_pos (hgt.mpr h2)]
      push_cast; rfl
    · rw [if_neg h2, if_neg (fun h => h2 (hgt.mp h))]
      by_cases h3 : (n / d) % 2 = 0
      · rw [if_pos h3, if_pos (by omega)]
      · rw [if_neg h3, if_neg (by omega)]
        push_cast; rfl

theorem roundPositive_eq (p d : Nat) (hd : 0 < d) :
    roundPositive p d =
      (nearestEven ((p : ℚ) / (d : ℚ) * 2 ^ (52 - binaryExponent p d)) : ℚ) *
        2 ^ (binaryExponent p d - 52) := by
  obtain ⟨hs2, hs⟩ := scaleFraction_spec p d (52 - binaryExponent p d) hd
  unfold roundPositive
  simp only
  rw [twoPow_eq, ← hs, ← roundHalfEven_eq _ _ hs2, Int.cast_natCast]

theorem roundPositive_nonneg (p d : Nat) : 0 ≤ roundPositive p d := by
  unfold roundPositive
  exact mul_nonneg (Nat.cast_nonneg _) (le_of_lt (twoPow_pos _))

theorem roundPositive_mono (p1 d1 p2 d2 : Nat) (hp1 : 0 < p1) (hd1 : 0 < d1) (hp2 : 0 < p2)
    (hd2 : 0 < d2) (hle : (p1 : ℚ) / (d1 : ℚ) ≤ (p2 : ℚ) / (d2 : ℚ)) :
    roundPositive p1 d1 ≤ roundPositive p2 d2 := by
  obtain ⟨l1, u1⟩ := binaryExponent_spec p1 d1 hp1 hd1
  obtain ⟨l2, u2⟩ := binaryExponent_spec p2 d2 hp2 hd2
  rw [roundPositive_eq p1 d1 hd1, roundPositive_eq p2 d2 hd2]
  set e1 := binaryExponent p1 d1
  set e2 := binaryExponent p2 d2
  set x1 : ℚ := (p1 : ℚ) / (d1 : ℚ)
  set x2 : ℚ := (p2 : ℚ) / (d2 : ℚ)
  have h2 : (1 : ℚ) < 2 := by norm_num
  have h20 : (2 : ℚ) ≠ 0 := by norm_num
  have he : e1 ≤ e2 := by
    have : (2 : ℚ) ^ e1 < 2 ^ (e2 + 1) := lt_of_le_of_lt (le_trans l1 hle) u2
    have := (zpow_lt_zpow_iff_right₀ h2).mp this
    omega
  rcases eq_or_lt_of_le he with heq | hlt
  · rw [← heq]
    apply mul_le_mul_of_nonneg_right _ (by positivity)
    exact_mod_cast nearestEven_mono
      (mul_le_mul_of_nonneg_right hle (by positivity : (0 : ℚ) ≤ 2 ^ (52 - e1)))
  · -- the first value is at most `2 ^ (e1 + 1)`, the second at least `2 ^ e2`
    have hup : (nearestEven (x1 * 2 ^ (52 - e1)) : ℚ) * 2 ^ (e1 - 52) ≤ 2 ^ (e1 + 1) := by
      have hx : x1 * 2 ^ (52 - e1) ≤ (((2 ^ 53 : Nat) : ℤ) : ℚ) := by
        have : x1 * 2 ^ (52 - e1) ≤ 2 ^ (e1 + 1) * 2 ^ (52 - e1) :=
          mul_le_mul_of_nonneg_right (le_of_lt u1) (by positivity)
        rw [← zpow_add₀ h20] at this
        have h53 : e1 + 1 + (52 - e1) = 53 := by ring
        rw [h53] at this
        refine le_trans this ?_
        norm_num
      have hn := nearestEven_mono hx
      rw [nearestEven_intCast] at hn
      have hq : (nearestEven (x1 * 2 ^ (52 - e1)) : ℚ) ≤ (2 : ℚ) ^ (53 : ℤ) := by
        have : ((nearestEven (x1 * 2 ^ (52 - e1)) : ℤ) : ℚ) ≤ (((2 ^ 53 : Nat) : ℤ) : ℚ) := by
          exact_mod_cast hn
        refine le_trans this ?_
        norm_num
      calc (nearestEven (x1 * 2 ^ (52 - e1)) : ℚ) * 2 ^ (e1 - 52)
          ≤ (2 : ℚ) ^ (53 : ℤ) * 2 ^ (e1 - 52) :=
            mul_le_mul_of_nonneg_right hq (by positivity)
        _ = 2 ^ (e1 + 1) := by rw [← zpow_add₀ h20]; congr 1; ring
    have hlow : (2 : ℚ) ^ e2 ≤ (nearestEven (x2 * 2 ^ (52 - e2)) : ℚ) * 2 ^ (e2 - 52) := by
      have hx : (((2 ^ 52 : Nat) : ℤ) : ℚ) ≤ x2 * 2 ^ (52 - e2) := by
        have : (2 : ℚ) ^ e2 * 2 ^ (52 - e2) ≤ x2 * 2 ^ (52 - e2) :=
          mul_le_mul_of_nonneg_right l2 (by positivity)
        rw [← zpow_add₀ h20] at this
        have h52 : e2 + (52 - e2) = 52 := by ring
        rw [h52] at this
        refine le_trans ?_ this
        norm_num
      have hn := nearestEven_mono hx
      rw [nearestEven_intCast] at hn
      have hq : (2 : ℚ) ^ (52 : ℤ) ≤ (nearestEven (x2 * 2 ^ (52 - e2)) : ℚ) := by
        have : (((2 ^ 52 : Nat) : ℤ) : ℚ) ≤ ((nearestEven (x2 * 2 ^ (52 - e2)) : ℤ) : ℚ) := by
          exact_mod_cast hn
        refine le_trans ?_ this
        norm_num
      calc (2 : ℚ) ^ e2 = (2 : ℚ) ^ (52 : ℤ) * 2 ^ (e2 - 52) := by
            rw [← zpow_add₀ h20]; congr 1; ring
        _ ≤ (nearestEven (x2 * 2 ^ (52 - e2)) : ℚ) * 2 ^ (e2 - 52) :=
            mul_le_mul_of_nonneg_right hq (by positivity)
    have hmid : (2 : ℚ) ^ (e1 + 1) ≤ 2 ^ e2 :=
      zpow_le_zpow_right₀ (le_of_lt h2) (by omega)
    exact le_trans hup (le_trans hmid hlow)

theorem roundDouble_of_pos (q : ℚ) (hq : 0 < q) :
    roundDouble q = roundPositive q.num.toNat q.den := by
  have hnum : 0 < q.num := Rat.num_pos.mpr hq
  have hden : 0 < q.den := q.den_pos
  unfold roundDouble
  obtain ⟨p, hp⟩ : ∃ p : Nat, q.num = Int.ofNat (p + 1) := by
    refine ⟨(q.num.toNat - 1), ?_⟩
    show q.num = ((q.num.toNat - 1 + 1 : Nat) : ℤ)
    omega
  obtain ⟨d, hdd⟩ : ∃ d : Nat, q.den = d + 1 := ⟨q.den - 1, by omega⟩
  rw [hp, hdd]
  rfl

theorem roundDouble_zero : roundDouble 0 = 0 := by decide!

theorem roundDouble_nonneg (q : ℚ) (hq : 0 ≤ q) : 0 ≤ roundDouble q := by
  rcases eq_or_lt_of_le hq with h0 | hpos
  · rw [← h0, roundDouble_zero]
  · rw [roundDouble_of_pos q hpos]
    exact roundPositive_nonneg _ _

theorem roundDouble_mono (q1 q2 : ℚ) (h1 : 0 ≤ q1) (hle : q1 ≤ q2) :
    roundDouble q1 ≤ roundDouble q2 := by
  rcases eq_or_lt_of_le h1 with h0 | hpos
  · rw [← h0, roundDouble_zero]
    exact roundDouble_nonneg q2 (le_trans h1 hle)
  · have hpos2 : 0 < q2 := lt_of_lt_of_le hpos hle
    rw [roundDouble_of_pos q1 hpos, roundDouble_of_pos q2 hpos2]
    have hn1 : 0 < q1.num := Rat.num_pos.mpr hpos
    have hn2 : 0 < q2.num := Rat.num_pos.mpr hpos2
    have c1 : ((q1.num.toNat : ℕ) : ℚ) / (q1.den : ℚ) = q1 := by
      have : ((q1.num.toNat : ℕ) : ℚ) = (q1.num : ℚ) := by
        have := Int.toNat_of_nonneg (le_of_lt hn1)
        exact_mod_cast this
      rw [this, Rat.num_div_den]
    have c2 : ((q2.num.toNat : ℕ) : ℚ) / (q2.den : ℚ) = q2 := by
      have : ((q2.num.toNat : ℕ) : ℚ) = (q2.num : ℚ) := by
        have := Int.toNat_of_nonneg (le_of_lt hn2)
        exact_mod_cast this
      rw [this, Rat.num_div_den]
    apply roundPositive_mono _ _ _ _ (by omega) q1.den_pos (by omega) q2.den_pos
    rw [c1, c2]
    exact hle

theorem Math.round_mono {x y : ℚ} (h : x ≤ y) : Math.round x ≤ Math.round y := by
  unfold Math.round
  exact Int.floor_mono (by linarith)

theorem percentage_mono (m1 m2 n : Nat) (hm : m1 ≤ m2) :
    Math.round (roundDouble (roundDouble ((m1 : ℚ) / (n : ℚ)) * 100)) ≤
      Math.round (roundDouble (roundDouble ((m2 : ℚ) / (n : ℚ)) * 100)) := by
  have hq : (m1 : ℚ) / (n : ℚ) ≤ (m2 : ℚ) / (n : ℚ) :=
    div_le_div_of_nonneg_right (by exact_mod_cast hm) (Nat.cast_nonneg n)
  have h0 : (0 : ℚ) ≤ (m1 : ℚ) / (n : ℚ) := by positivity
  have hr := roundDouble_mono _ _ h0 hq
  have hr0 := roundDouble_nonneg _ h0
  apply Math.round_mono
  apply roundDouble_mono _ _ (by positivity)
  exact mul_le_mul_of_nonneg_right hr (by norm_num)

theorem percentage_nonneg (m n : Nat) :
    0 ≤ Math.round (roundDouble (roundDouble ((m : ℚ) / (n : ℚ)) * 100)) := by
  have h0 : (0 : ℚ) ≤ (m : ℚ) / (n : ℚ) := by positivity
  have hr0 := roundDouble_nonneg _ h0
  have hr1 := roundDouble_nonneg (roundDouble ((m : ℚ) / (n : ℚ)) * 100) (by positivity)
  unfold Math.round
  exact Int.floor_nonneg.mpr (by linarith)

/-! ## The phone pattern -/

theorem Matches_suffix (ic : Bool) (r : Regex) : ∀ (x y : MatchState),
    r.Matches ic x y → y.after <:+ x.after := by
  induction r with
  | empty => intro x y hm; cases hm; exact List.suffix_refl _
  | set cs =>
    intro x y hm
    obtain ⟨c, rest, hx, _, rfl⟩ := hm
    rw [hx]
    exact List.suffix_cons _ _
  | rep cs min max =>
    intro x y hm
    obtain ⟨t, rest, hx, _, _, _, rfl⟩ := hm
    rw [hx]
    exact List.suffix_append _ _
  | seq a b iha ihb =>
    intro x y hm
    obtain ⟨m, hxm, hmy⟩ := hm
    exact (ihb m y hmy).trans (iha x m hxm)
  | alt a b iha ihb =>
    intro x y hm
    rcases hm with hm | hm
    · exact iha x y hm
    · exact ihb x y hm
  | opt a iha =>
    intro x y hm
    rcases hm with ⟨hm, _⟩ | hm
    · exact iha ⟨x.before, x.after, if a.hasGroup then none else x.capture⟩ y hm
    · cases hm; exact List.suffix_refl _
  | group a iha =>
    intro x y hm
    obtain ⟨m, hxm, rfl⟩ := hm
    exact iha x m hxm
  | wordBoundary => intro x y hm; obtain ⟨_, rfl⟩ := hm; exact List.suffix_refl _
  | endOfInput => intro x y hm; obtain ⟨_, rfl⟩ := hm; exact List.suffix_refl _

theorem digitCount_append (a b : JSString) :
    digitCount (a ++ b) = digitCount a + digitCount b :=
  List.countP_append _ _ _

theorem digitCount_of_digits (t : JSString)
    (ht : ∀ c ∈ t, CharSet.mem false [ClassAtom.digit] c = true) :
    digitCount t = t.length := by
  unfold digitCount
  rw [List.countP_eq_length]
  intro c hc
  exact isDigit_of_mem false c (ht c hc)

theorem digitCount_suffix {a b : JSString} (h : a <:+ b) : digitCount a ≤ digitCount b := by
  obtain ⟨p, rfl⟩ := h
  rw [digitCount_append]
  omega

theorem mem_digit_of_isDigit (c : Nat) (hc : isDigit c = true) :
    CharSet.mem false [ClassAtom.digit] c = true := by
  simp [CharSet.mem, ClassAtom.contains, hc]

theorem phonePattern_digits (text : JSString) (hm : phonePattern.MatchesIn text) :
    10 ≤ digitCount text := by
  obtain ⟨before, after, y, rfl, hy⟩ := hm
  obtain ⟨m0, hopt, hrest⟩ : ∃ m0, (Regex.opt (.group (Regex.cat [
        Regex.chr '+', .rep [.digit] 1 (some 3),
        .rep [.unit '-', .unit '.', .space] 0 (some 1)]))).Matches false
        ⟨before.reverse, after, none⟩ m0 ∧
      (Regex.cat [.rep [.unit '('] 0 (some 1), .rep [.digit] 3 (some 3),
        .rep [.unit ')'] 0 (some 1), .rep [.unit '-', .unit '.', .space] 0 (some 1),
        .rep [.digit] 3 (some 3), .rep [.unit '-', .unit '.', .space] 0 (some 1),
        .rep [.digit] 4 (some 4)]).Matches false m0 y := hy
  have hsuf : m0.after <:+ after := Matches_suffix false _ _ _ hopt
  simp only [Regex.cat, Regex.Matches] at hrest
  obtain ⟨m1, ⟨t1, r1, e1, -, -, -, rfl⟩, m2, ⟨t2, r2, e2, d2, l2, -, rfl⟩,
    m3, ⟨t3, r3, e3, -, -, -, rfl⟩, m4, ⟨t4, r4, e4, -, -, -, rfl⟩,
    m5, ⟨t5, r5, e5, d5, l5, -, rfl⟩, m6, ⟨t6, r6, e6, -, -, -, rfl⟩,
    t7, r7, e7, d7, l7, -, rfl⟩ := hrest
  simp only at e2 e3 e4 e5 e6 e7
  have hcount : 10 ≤ digitCount m0.after := by
    rw [e1, e2, e3, e4, e5, e6, e7]
    simp only [digitCount_append]
    rw [digitCount_of_digits t2 d2, digitCount_of_digits t5 d5, digitCount_of_digits t7 d7]
    omega
  have := digitCount_suffix hsuf
  rw [digitCount_append]
  omega

theorem phonePattern_ten_digits (pre ds post : JSString) (hlen : 10 ≤ ds.length)
    (hds : ∀ c ∈ ds, isDigit c = true) : phonePattern.MatchesIn (pre ++ ds ++ post) := by
  obtain ⟨a, b, c, rest, rfl, ha, hb, hc⟩ : ∃ a b c rest : JSString,
      ds = a ++ (b ++ (c ++ rest)) ∧ a.length = 3 ∧ b.length = 3 ∧ c.length = 4 := by
    refine ⟨ds.take 3, (ds.drop 3).take 3, (ds.drop 6).take 4, ds.drop 10, ?_, ?_, ?_, ?_⟩
    · have h1 : (ds.drop 6).take 4 ++ ds.drop 10 = ds.drop 6 := by
        have := List.take_append_drop 4 (ds.drop 6)
        rw [List.drop_drop] at this
        exact this
      have h2 : (ds.drop 3).take 3 ++ ds.drop 6 = ds.drop 3 := by
        have := List.take_append_drop 3 (ds.drop 3)
        rw [List.drop_drop] at this
        exact this
      rw [h1, h2, List.take_append_drop]
    · rw [List.length_take]; omega
    · rw [List.length_take, List.length_drop]; omega
    · rw [List.length_take, List.length_drop]; omega
  have da : ∀ x ∈ a, CharSet.mem false [ClassAtom.digit] x = true := fun x hx =>
    mem_digit_of_isDigit x (hds x (by simp [hx]))
  have db : ∀ x ∈ b, CharSet.mem false [ClassAtom.digit] x = true := fun x hx =>
    mem_digit_of_isDigit x (hds x (by simp [hx]))
  have dc : ∀ x ∈ c, CharSet.mem false [ClassAtom.digit] x = true := fun x hx =>
    mem_digit_of_isDigit x (hds x (by simp [hx]))
  refine ⟨pre, a ++ (b ++ (c ++ rest)) ++ post,
    ⟨c.reverse ++ (b.reverse ++ (a.reverse ++ pre.reverse)), rest ++ post, none⟩,
    by simp only [List.append_assoc], ?_⟩
  simp only [phonePattern, Regex.cat, Regex.Matches]
  refine ⟨_, Or.inr rfl, _, ⟨[], _, rfl, by simp, by simp, by simp, rfl⟩,
    _, ⟨a, b ++ (c ++ rest) ++ post, by simp, da, by omega, ?_, rfl⟩,
    _, ⟨[], _, rfl, by simp, by simp, by simp, rfl⟩,
    _, ⟨[], _, rfl, by simp, by simp, by simp, rfl⟩,
    _, ⟨b, c ++ rest ++ post, by simp, db, by omega, ?_, rfl⟩,
    _, ⟨[], _, rfl, by simp, by simp, by simp, rfl⟩,
    c, rest ++ post, by simp, dc, by omega, ?_, by simp⟩
  · intro n hn; cases hn; omega
  · intro n hn; cases hn; omega
  · intro n hn; cases hn; omega

/-! ## Properties from the specification -/

/-- C1: for every transcript the overall score returned by `performAnalysis` is an
integer between 0 and 100 and equals
`round(0.35 * skillsScore + 0.25 * experienceScore + 0.25 * educationScore + 0.15 * formatScore)`
computed from the four category scores returned in the same result; each of these is an
integer between 0 and 100, and it is the value the score had before it was rounded. -/
theorem performAnalysis_overallScore (h : Host) (text : JSString) :
    0 ≤ (performAnalysis h text).overallScore ∧ (performAnalysis h text).overallScore ≤ 100 ∧
    (performAnalysis h text).overallScore =
      Math.round (0.35 * ((performAnalysis h text).skillsScore : ℚ)
        + 0.25 * ((performAnalysis h text).experienceScore : ℚ)
        + 0.25 * ((performAnalysis h text).educationScore : ℚ)
        + 0.15 * ((performAnalysis h text).formatScore : ℚ)) ∧
    (0 ≤ (performAnalysis h text).skillsScore ∧ (performAnalysis h text).skillsScore ≤ 100) ∧
    (0 ≤ (performAnalysis h text).experienceScore ∧
      (performAnalysis h text).experienceScore ≤ 100) ∧
    (0 ≤ (performAnalysis h text).educationScore ∧
      (performAnalysis h text).educationScore ≤ 100) ∧
    (0 ≤ (performAnalysis h text).formatScore ∧ (performAnalysis h text).formatScore ≤ 100) ∧
    ((performAnalysis h text).skillsScore : ℚ) =
      skillsScore (performAnalysis h text).skills.length ∧
    ((performAnalysis h text).experienceScore : ℚ) =
      experienceScore (performAnalysis h text).experienceYears ∧
    ((performAnalysis h text).educationScore : ℚ) =
      educationScore (performAnalysis h text).education ∧
    ((performAnalysis h text).formatScore : ℚ) =
      calculateFormatScore text (performAnalysis h text).hasEmail
        (performAnalysis h text).hasPhone := by
  have hy := detectExperienceYears_pos h text
  obtain ⟨hl1, hl4⟩ := detectEducation_level h text
  obtain ⟨hf1, hf2⟩ := calculateFormatScore_bounds text (emailPattern.test text)
    (phonePattern.test text)
  simp only [performAnalysis, overallScore]
  generalize detectExperienceYears h text = y at hy
  generalize (detectEducation h text) = ed at hl1 hl4
  generalize calculateFormatScore text (emailPattern.test text) (phonePattern.test text) = f
    at hf1 hf2
  generalize (List.filter (fun skill => includes (toLowerCase h text) (toLowerCase h skill))
    skillsDatabase).length = n
  have hs : skillsScore n = ((min 100 (10 * (n : Int)) : Int) : ℚ) := skillsScore_eq n
  obtain ⟨e, he, b2⟩ : ∃ e : Int, experienceScore y = (e : ℚ) ∧ 0 ≤ e ∧ e ≤ 100 := by
    cases y with
    | finite k =>
      have hk : (1 : Int) ≤ k := hy
      exact ⟨min 100 (10 * k), experienceScore_eq k, by omega⟩
    | Infinity => exact ⟨100, by simp [experienceScore], by omega⟩
  have hed : educationScore ed = (((ed.level : Int) * 25 : Int) : ℚ) := by
    unfold educationScore; push_cast; rfl
  have hfq : ((f : Nat) : ℚ) = (((f : Int) : Int) : ℚ) := by push_cast; rfl
  rw [hs, he, hed, hfq]
  simp only [Math.round_intCast]
  have b1 : 0 ≤ min 100 (10 * (n : Int)) ∧ min 100 (10 * (n : Int)) ≤ 100 := by omega
  have b3 : 0 ≤ (ed.level : Int) * 25 ∧ (ed.level : Int) * 25 ≤ 100 := by omega
  have b4 : 0 ≤ (f : Int) ∧ (f : Int) ≤ 100 := by omega
  generalize min 100 (10 * (n : Int)) = s at b1 ⊢
  generalize (ed.level : Int) * 25 = d at b3 ⊢
  generalize (f : Int) = g at b4 ⊢
  have c1 : (0 : ℚ) ≤ s ∧ (s : ℚ) ≤ 100 := by exact_mod_cast b1
  have c2 : (0 : ℚ) ≤ e ∧ (e : ℚ) ≤ 100 := by exact_mod_cast b2
  have c3 : (0 : ℚ) ≤ d ∧ (d : ℚ) ≤ 100 := by exact_mod_cast b3
  have c4 : (0 : ℚ) ≤ g ∧ (g : ℚ) ≤ 100 := by exact_mod_cast b4
  refine ⟨?_, ?_, ?_, b1, b2, b3, b4, ?_⟩
  · unfold Math.round
    apply Int.floor_nonneg.mpr
    nlinarith [c1.1, c2.1, c3.1, c4.1]
  · unfold Math.round
    have : ⌊(s : ℚ) * 0.35 + e * 0.25 + d * 0.25 + g * 0.15 + 1 / 2⌋ < 101 := by
      rw [Int.floor_lt]
      push_cast
      norm_num
      linarith [c1.2, c2.2, c3.2, c4.2]
    omega
  · congr 1
    ring
  · exact ⟨trivial, trivial, trivial, trivial⟩

/-- C2: for every transcript, a string is in the skills list returned by
`performAnalysis` exactly when it is a catalog skill and a contiguous part of the
lowercased transcript; the list is a sublist of the catalog (so in catalog order), has no
duplicates, and the catalog has 36 entries. -/
theorem performAnalysis_skills (h : Host) (text : JSString) :
    (∀ skill, skill ∈ (performAnalysis h text).skills ↔
      (skill ∈ skillsDatabase ∧ skill <:+: toLowerCase h text)) ∧
    (performAnalysis h text).skills.Sublist skillsDatabase ∧
    (performAnalysis h text).skills.Nodup ∧
    skillsDatabase.length = 36 := by
  refine ⟨?_, List.filter_sublist _, skillsDatabase_nodup.filter _, rfl⟩
  intro skill
  simp only [performAnalysis, List.mem_filter, includes_iff]
  constructor
  · rintro ⟨hm, hi⟩
    rw [toLowerCase_skill h skill hm] at hi
    exact ⟨hm, hi⟩
  · rintro ⟨hm, hi⟩
    rw [toLowerCase_skill h skill hm]
    exact ⟨hm, hi⟩

/-- C3, as stated, fails: on the transcript of scenario B no host gives 7 detected
skills, a skills score of 70 or an overall score of 62. -/
theorem scenarioB_claimed_values_fail :
    ¬ ∃ h : Host,
      (performAnalysis h scenarioB).skills.length = 7 ∨
      (performAnalysis h scenarioB).skillsScore = 70 ∨
      (performAnalysis h scenarioB).overallScore = 62 := by
  rintro ⟨h, hc⟩
  have hy : (performAnalysis h scenarioB).experienceYears = 5 := rfl
  have hed : (performAnalysis h scenarioB).education = ⟨2, "Bachelor\x27s Degree"⟩ := rfl
  have he : (performAnalysis h scenarioB).hasEmail = true := rfl
  have hp : (performAnalysis h scenarioB).hasPhone = true := rfl
  obtain ⟨h1, -, -, -, h5⟩ := performAnalysis_scores h scenarioB 8 5 _ 85
    (by rw [scenarioB_skills]; rfl) hy hed (by rw [he, hp]; rfl)
  have e1 : (performAnalysis h scenarioB).skillsScore = 80 := by
    rw [h1]; simp only [skillsScore, Math.round]; norm_num
  have e5 : (performAnalysis h scenarioB).overallScore = 66 := by
    rw [h5]; simp only [overallScore, skillsScore, experienceScore, educationScore, Math.round]
    norm_num
  rw [scenarioB_skills, e1, e5] at hc
  revert hc
  decide

/-- C3, amended: on the transcript of scenario B `performAnalysis` reports an e-mail
address and a phone number, 5 years of experience, the 8 skills javascript, python, java,
react, aws, docker, kubernetes and leadership (`java` being part of `javascript`), a
skills score of 80, an experience score of 50, an education score of 50, a format score
of 85 and an overall score of 66. -/
theorem scenarioB_values (h : Host) :
    (performAnalysis h scenarioB).hasEmail = true ∧
    (performAnalysis h scenarioB).hasPhone = true ∧
    (performAnalysis h scenarioB).experienceYears = 5 ∧
    (performAnalysis h scenarioB).skills = [js "javascript", js "python", js "java",
      js "react", js "aws", js "docker", js "kubernetes", js "leadership"] ∧
    (performAnalysis h scenarioB).skillsScore = 80 ∧
    (performAnalysis h scenarioB).experienceScore = 50 ∧
    (performAnalysis h scenarioB).educationScore = 50 ∧
    (performAnalysis h scenarioB).formatScore = 85 ∧
    (performAnalysis h scenarioB).overallScore = 66 := by
  have he : (performAnalysis h scenarioB).hasEmail = true := rfl
  have hp : (performAnalysis h scenarioB).hasPhone = true := rfl
  have hy : (performAnalysis h scenarioB).experienceYears = 5 := rfl
  have hed : (performAnalysis h scenarioB).education = ⟨2, "Bachelor\x27s Degree"⟩ := rfl
  obtain ⟨h1, h2, h3, h4, h5⟩ := performAnalysis_scores h scenarioB 8 5 _ 85
    (by rw [scenarioB_skills]; rfl) hy hed (by rw [he, hp]; rfl)
  refine ⟨he, hp, hy, scenarioB_skills h, ?_, ?_, ?_, ?_, ?_⟩
  · rw [h1]; simp only [skillsScore, Math.round]; norm_num
  · rw [h2]; simp only [experienceScore, Math.round]; norm_num
  · rw [h3]; simp only [educationScore, Math.round]; norm_num
  · rw [h4]; rfl
  · rw [h5]; simp only [overallScore, skillsScore, experienceScore, educationScore, Math.round]
    norm_num

/-- C4: scenario A. On the empty transcript `performAnalysis` returns no skills, 2 years
of experience, education level 2, no e-mail address and no phone number, a format score
of 50, a skills score of 0, an experience score of 20, an education score of 50 and an
overall score of 25. -/
theorem scenarioA_values (h : Host) :
    (performAnalysis h []).skills = [] ∧
    (performAnalysis h []).experienceYears = 2 ∧
    (performAnalysis h []).education.level = 2 ∧
    (performAnalysis h []).hasEmail = false ∧
    (performAnalysis h []).hasPhone = false ∧
    (performAnalysis h []).formatScore = 50 ∧
    (performAnalysis h []).skillsScore = 0 ∧
    (performAnalysis h []).experienceScore = 20 ∧
    (performAnalysis h []).educationScore = 50 ∧
    (performAnalysis h []).overallScore = 25 := by
  obtain ⟨h1, h2, h3, h4, h5⟩ := performAnalysis_scores h [] 0 2 ⟨2, "Bachelor\x27s Degree"⟩ 50
    rfl rfl rfl rfl
  refine ⟨rfl, rfl, rfl, rfl, rfl, ?_, ?_, ?_, ?_, ?_⟩
  · rw [h4]; rfl
  · rw [h1]; simp only [skillsScore, Math.round]; norm_num
  · rw [h2]; simp only [experienceScore, Math.round]; norm_num
  · rw [h3]; simp only [educationScore, Math.round]; norm_num
  · rw [h5]; simp only [overallScore, skillsScore, experienceScore, educationScore, Math.round]
    norm_num

/-- C5, as stated, fails: in a transcript that says `3 years of experience` and later
`8 years of experience`, the second occurrence is a match of the first pattern with the
number 8, and yet no host makes `detectExperienceYears` return 8 (it returns 3). -/
theorem detectExperienceYears_not_all_matches :
    (yearsOfExperiencePattern.pattern.matchAt true
      (js "3 years of experience and later ").reverse
      (js "8 years of experience")).map capturedNumber = some (some 8) ∧
    (js "3 years of experience and later ") ++ (js "8 years of experience") =
      twoOccurrences ∧
    ¬ ∃ h : Host, detectExperienceYears h twoOccurrences = 8 := by
  refine ⟨by rfl, by rfl, ?_⟩
  rintro ⟨h, h8⟩
  have h3 : detectExperienceYears h twoOccurrences = 3 := rfl
  rw [h3] at h8
  exact absurd h8 (by decide)

set_option maxRecDepth 100000 in
/-- C5, amended: `detectExperienceYears` returns the maximum of the values observed,
namely the number `parseInt` returns for the digits in the first match of
`<N>+ years [of] experience`, the one for the first match of `experience: <N> years`, and
the span of every year range, whenever that maximum is positive. The number `parseInt`
returns is the number written when that is below `2 ^ 53`; beyond, it is the nearest
double (9007199254740992 for 9007199254740993) and `Infinity` past the largest double. -/
theorem detectExperienceYears_eq_max (h : Host) (text : JSString) (m : Years)
    (hmem : some m.toSigned ∈ observedYears h text)
    (hmax : ∀ v : SignedYears, some v ∈ observedYears h text → v ≤ m.toSigned)
    (hpos : 0 < m) :
    detectExperienceYears h text = m ∧
    (∀ found : MatchResult, capturedNumber found =
      (found.group1.bind parseInt).map Years.toSigned) ∧
    (∀ s : JSString, parseInt s = (parseDigits none s).map Years.ofNat) ∧
    (∀ n : Nat, n < 2 ^ 53 → Years.ofNat n = .finite n) ∧
    Years.ofNat 9007199254740993 = .finite 9007199254740992 ∧
    Years.ofNat (10 ^ 309) = .Infinity ∧
    detectExperienceYears h (js "9007199254740993 years of experience") =
      .finite 9007199254740992 := by
  have hall : ∀ v ∈ observedYears h text, ∃ n, v = some n ∧ n ≤ m.toSigned := by
    intro v hv
    obtain ⟨n, rfl⟩ := observedYears_isSome h text v hv
    exact ⟨n, rfl, hmax n hv⟩
  have hfold := foldl_max_eq _ 0 m (Years.le_of_lt hpos) hall (Or.inr hmem)
  rw [← patterns_foldl_eq] at hfold
  refine ⟨?_, fun _ => rfl, fun _ => rfl, Years.ofNat_of_lt, by decide!, by decide!,
    by rfl⟩
  rw [detectExperienceYears_of_foldl h text m hfold, if_neg (Years.ne_of_lt hpos)]

/-- The amended C5 at a transcript whose first match of the first pattern gives 3 and
whose only year range spans 12 years. -/
theorem detectExperienceYears_eq_max_witness :
    observedYears asciiHost occurrencesAndRange = [some 3, some 12] ∧
    detectExperienceYears asciiHost occurrencesAndRange = 12 :=
  ⟨by rfl, (detectExperienceYears_eq_max asciiHost occurrencesAndRange 12 (by decide)
    (by
      have hobs : observedYears asciiHost occurrencesAndRange = [some 3, some 12] := by rfl
      intro n hn
      rw [hobs] at hn
      simp only [List.mem_cons, List.mem_singleton, List.not_mem_nil, or_false,
        Option.some.injEq] at hn
      rcases hn with rfl | rfl <;> decide)
    (by decide)).1⟩

/-- C6 at its failing input: for every host, the transcript `2015 - current` yields 2
years, whatever the current year, whereas `2015 - present` yields the years from 2015 to
the current year (and 2 when that is not positive). -/
theorem detectExperienceYears_current (h : Host) :
    detectExperienceYears h (js "2015 - current") = 2 ∧
    detectExperienceYears h (js "2015 - present") =
      (if h.currentYear ≤ 2015 then 2 else .finite (h.currentYear - 2015)) := by
  refine ⟨rfl, ?_⟩
  have key : detectExperienceYears.patterns.foldl
      (detectExperienceYears.step h (js "2015 - present")) (some 0) =
      some (.finite (max 0 (h.currentYear - 2015))) := rfl
  rw [detectExperienceYears_of_foldl h _ _ key]
  by_cases hc : h.currentYear ≤ 2015
  · rw [if_pos hc, max_eq_left (by omega)]
    rfl
  · have hne : Years.finite (max 0 (h.currentYear - 2015)) ≠ 0 := by
      intro h0
      injection h0 with h0
      have h1 : max 0 (h.currentYear - 2015) = 0 := by simpa using h0
      omega
    rw [if_neg hc, if_neg hne, max_eq_right (by omega)]

/-- C7: for every transcript in which none of the three experience patterns matches
anywhere, `detectExperienceYears` returns 2. -/
theorem detectExperienceYears_default (h : Host) (text : JSString)
    (h1 : ¬ yearsOfExperiencePattern.MatchesIn text)
    (h2 : ¬ experienceYearsPattern.MatchesIn text)
    (h3 : ¬ dateRangePattern.MatchesIn text) :
    detectExperienceYears h text = 2 := by
  simp only [detectExperienceYears, detectExperienceYears.patterns, List.foldl,
    detectExperienceYears.step, strMatch_eq_none _ (by rfl) text h1,
    strMatch_eq_none _ (by rfl) text h2, strMatch_eq_none _ (by rfl) text h3]
  rfl

/-- C7 at the empty transcript: no pattern matches in it, and the result is 2. -/
theorem detectExperienceYears_default_witness :
    ¬ yearsOfExperiencePattern.MatchesIn [] ∧
    ¬ experienceYearsPattern.MatchesIn [] ∧
    ¬ dateRangePattern.MatchesIn [] ∧
    detectExperienceYears asciiHost [] = 2 :=
  have n1 : ¬ yearsOfExperiencePattern.MatchesIn [] := fun hm =>
    absurd ((yearsOfExperiencePattern.exec_isSome_iff (by rfl) []).mpr hm) (by decide)
  have n2 : ¬ experienceYearsPattern.MatchesIn [] := fun hm =>
    absurd ((experienceYearsPattern.exec_isSome_iff (by rfl) []).mpr hm) (by decide)
  have n3 : ¬ dateRangePattern.MatchesIn [] := fun hm =>
    absurd ((dateRangePattern.exec_isSome_iff (by rfl) []).mpr hm) (by decide)
  ⟨n1, n2, n3, detectExperienceYears_default asciiHost [] n1 n2 n3⟩

/-- C8: `detectEducation` tests the keywords phd, doctorate, master, mba, bachelor,
associate, diploma in this order and returns the entry of the first one that occurs in
the lowercased transcript; it returns level 2, Bachelor's Degree, when none occurs; the
level it reports is at least the level of every keyword present; and a transcript that
contains `phd` gets level 4, Ph.D., whatever else it contains. -/
theorem detectEducation_first_keyword (h : Host) (text : JSString) :
    detectEducation.degrees.map Prod.fst =
      ["phd", "doctorate", "master", "mba", "bachelor", "associate", "diploma"] ∧
    (∀ pre key value post, detectEducation.degrees = pre ++ (key, value) :: post →
      js key <:+: toLowerCase h text → (∀ e ∈ pre, ¬ js e.1 <:+: toLowerCase h text) →
      detectEducation h text = value) ∧
    ((∀ e ∈ detectEducation.degrees, ¬ js e.1 <:+: toLowerCase h text) →
      detectEducation h text = ⟨2, "Bachelor\x27s Degree"⟩) ∧
    (∀ e ∈ detectEducation.degrees, js e.1 <:+: toLowerCase h text →
      e.2.level ≤ (detectEducation h text).level) ∧
    (js "phd" <:+: toLowerCase h text → detectEducation h text = ⟨4, "Ph.D."⟩) := by
  refine ⟨rfl, ?_, ?_, ?_, ?_⟩
  · intro pre key value post hd hkey hpre
    unfold detectEducation
    rw [hd]
    exact loop_first _ pre key value post hpre hkey
  · intro hnone
    exact loop_none _ _ hnone
  · intro e he hin
    exact loop_highest _ _ (by decide) e he hin
  · intro hphd
    exact loop_first _ [] "phd" ⟨4, "Ph.D."⟩ _ (by simp) hphd

/-- C8 at a transcript that contains both `bachelor` and `phd`. -/
theorem detectEducation_first_keyword_witness :
    js "bachelor" <:+: toLowerCase asciiHost twoDegrees ∧
    js "phd" <:+: toLowerCase asciiHost twoDegrees ∧
    detectEducation asciiHost twoDegrees = ⟨4, "Ph.D."⟩ :=
  ⟨(includes_iff _ _).mp rfl, (includes_iff _ _).mp rfl,
    (detectEducation_first_keyword asciiHost twoDegrees).2.2.2.2 ((includes_iff _ _).mp rfl)⟩

/-- C9: `calculateFormatScore` returns the minimum of 100 and 50, plus 20 with an e-mail
address, plus 15 with a phone number, plus 10 when the length exceeds 500, plus 5 when
the length exceeds 1000; the result lies between 50 and 100; a length of exactly 500 or
exactly 1000 earns no bonus of its own, a length of 501 or 1001 does. -/
theorem calculateFormatScore_eq (text : JSString) (hasEmail hasPhone : Bool) :
    calculateFormatScore text hasEmail hasPhone =
      min 100 (50 + (if hasEmail then 20 else 0) + (if hasPhone then 15 else 0)
        + (if text.length > 500 then 10 else 0) + (if text.length > 1000 then 5 else 0)) ∧
    50 ≤ calculateFormatScore text hasEmail hasPhone ∧
    calculateFormatScore text hasEmail hasPhone ≤ 100 ∧
    calculateFormatScore (List.replicate 500 32) hasEmail hasPhone =
      min 100 (50 + (if hasEmail then 20 else 0) + (if hasPhone then 15 else 0)) ∧
    calculateFormatScore (List.replicate 501 32) hasEmail hasPhone =
      min 100 (60 + (if hasEmail then 20 else 0) + (if hasPhone then 15 else 0)) ∧
    calculateFormatScore (List.replicate 1000 32) hasEmail hasPhone =
      min 100 (60 + (if hasEmail then 20 else 0) + (if hasPhone then 15 else 0)) ∧
    calculateFormatScore (List.replicate 1001 32) hasEmail hasPhone =
      min 100 (65 + (if hasEmail then 20 else 0) + (if hasPhone then 15 else 0)) := by
  refine ⟨?_, ?_, ?_, ?_, ?_, ?_, ?_⟩
  · unfold calculateFormatScore
    simp only
    split_ifs <;> omega
  · unfold calculateFormatScore
    simp only
    split_ifs <;> omega
  · unfold calculateFormatScore
    simp only
    split_ifs <;> omega
  all_goals
    unfold calculateFormatScore
    simp only [List.length_replicate]
    cases hasEmail <;> cases hasPhone <;> decide

/-- C10: the skills score equals the minimum of 100 and 10 times the number of detected
skills, both as the local value and as the field of the result; it does not decrease
when the number of detected skills grows, and it is 100 from 10 detected skills on. -/
theorem skillsScore_saturating :
    (∀ n : Nat, skillsScore n = min 100 (10 * (n : ℚ))) ∧
    (∀ (h : Host) (text : JSString), (performAnalysis h text).skillsScore =
      min 100 (10 * ((performAnalysis h text).skills.length : Int))) ∧
    (∀ m n : Nat, m ≤ n → skillsScore m ≤ skillsScore n) ∧
    (∀ n : Nat, 10 ≤ n → skillsScore n = 100) := by
  have key : ∀ n : Nat, skillsScore n = min 100 (10 * (n : ℚ)) := by
    intro n
    unfold skillsScore
    congr 1
    ring
  refine ⟨key, ?_, ?_, ?_⟩
  · intro h text
    show Math.round (skillsScore _) = _
    rw [skillsScore_eq, Math.round_intCast]
    rfl
  · intro m n hmn
    rw [key, key]
    have : (m : ℚ) ≤ n := by exact_mod_cast hmn
    exact min_le_min le_rfl (by linarith)
  · intro n hn
    rw [key]
    have : (10 : ℚ) ≤ n := by exact_mod_cast hn
    exact min_eq_left (by linarith)

/-- C10 at 7 and 12 detected skills. -/
theorem skillsScore_saturating_witness :
    skillsScore 7 ≤ skillsScore 12 ∧ skillsScore 12 = 100 :=
  ⟨skillsScore_saturating.2.2.1 7 12 (by decide), skillsScore_saturating.2.2.2 12 (by decide)⟩

/-- C11: whenever at least one of the six rules triggers, `generateRecommendations`
returns exactly the messages of the rules that trigger, in the order of the rules, each
once; and a rule's message is in the result exactly when that rule triggers, whatever the
other rules do. -/
theorem generateRecommendations_triggered (skills : List JSString) (experience : Years)
    (education : Education) (hasEmail hasPhone : Bool)
    (htrig : ∃ r ∈ recommendationRules skills experience education hasEmail hasPhone,
      r.1 = true) :
    generateRecommendations skills experience education hasEmail hasPhone =
      ((recommendationRules skills experience education hasEmail hasPhone).filter
        (·.1)).map (·.2) ∧
    (generateRecommendations skills experience education hasEmail hasPhone).Nodup ∧
    ∀ r ∈ recommendationRules skills experience education hasEmail hasPhone,
      (r.2 ∈ generateRecommendations skills experience education hasEmail hasPhone ↔
        r.1 = true) := by
  obtain ⟨r0, hr0, ht0⟩ := htrig
  have hne : ((recommendationRules skills experience education hasEmail hasPhone).filter
      (·.1)).length ≠ 0 := by
    intro h0
    have : r0 ∈ (recommendationRules skills experience education hasEmail hasPhone).filter
        (·.1) := List.mem_filter.mpr ⟨hr0, ht0⟩
    rw [List.length_eq_zero.mp h0] at this
    simp at this
  have heq := generateRecommendations_eq skills experience education hasEmail hasPhone
  rw [if_neg hne] at heq
  have hnd := recommendationRules_nodup skills experience education hasEmail hasPhone
  refine ⟨heq, ?_, ?_⟩
  · rw [heq]
    exact hnd.sublist ((List.filter_sublist _).map _)
  · intro r hr
    rw [heq, List.mem_map]
    constructor
    · rintro ⟨r1, hr1, h12⟩
      obtain ⟨hr1m, hr1t⟩ := List.mem_filter.mp hr1
      have : r1 = r := List.inj_on_of_nodup_map hnd hr1m hr h12
      rw [← this]
      exact hr1t
    · intro ht
      exact ⟨r, List.mem_filter.mpr ⟨hr, ht⟩, rfl⟩

/-- C11 on the values of the empty transcript: four rules trigger. -/
theorem generateRecommendations_triggered_witness :
    generateRecommendations [] 2 ⟨2, "Bachelor\x27s Degree"⟩ false false = [
      "Add more relevant technical skills to strengthen your profile",
      "Highlight any internships, projects, or volunteer work to showcase experience",
      "Ensure your contact information (email and phone) is clearly visible",
      "Include soft skills like leadership, communication, and teamwork"] :=
  (generateRecommendations_triggered [] 2 ⟨2, "Bachelor\x27s Degree"⟩ false false
    ⟨_, List.mem_cons_self _ _, rfl⟩).1

/-- C12: the list returned by `generateRecommendations` is never empty; when none of the
six rules triggers it is the list of the three generic messages; and no generic message
occurs in it together with the message of a rule. -/
theorem generateRecommendations_nonempty (skills : List JSString) (experience : Years)
    (education : Education) (hasEmail hasPhone : Bool) :
    generateRecommendations skills experience education hasEmail hasPhone ≠ [] ∧
    ((∀ r ∈ recommendationRules skills experience education hasEmail hasPhone, r.1 = false) →
      generateRecommendations skills experience education hasEmail hasPhone =
        genericRecommendations) ∧
    (∀ g ∈ genericRecommendations,
      ∀ r ∈ recommendationRules skills experience education hasEmail hasPhone,
        ¬ (g ∈ generateRecommendations skills experience education hasEmail hasPhone ∧
          r.2 ∈ generateRecommendations skills experience education hasEmail hasPhone)) := by
  have heq := generateRecommendations_eq skills experience education hasEmail hasPhone
  have hng := recommendationRules_not_generic skills experience education hasEmail hasPhone
  refine ⟨?_, ?_, ?_⟩
  · rw [heq]
    split_ifs with h0
    · simp [genericRecommendations]
    · intro hnil
      apply h0
      rw [← List.length_map _ (·.2), hnil]
      rfl
  · intro hnone
    rw [heq, if_pos]
    rw [List.length_eq_zero, List.filter_eq_nil_iff]
    intro r hr
    rw [hnone r hr]
    simp
  · rintro g hg r hr ⟨hgin, hrin⟩
    rw [heq] at hgin hrin
    split_ifs at hgin hrin with h0
    · exact hng r hr hrin
    · obtain ⟨r1, hr1, rfl⟩ := List.mem_map.mp hgin
      exact hng r1 (List.mem_filter.mp hr1).1 hg

/-- C12 on an input for which no rule triggers. -/
theorem generateRecommendations_nonempty_witness :
    generateRecommendations
      [js "javascript", js "python", js "aws", js "docker", js "leadership"] 5
      ⟨3, "MBA"⟩ true true = genericRecommendations :=
  (generateRecommendations_nonempty
    [js "javascript", js "python", js "aws", js "docker", js "leadership"] 5
    ⟨3, "MBA"⟩ true true).2.1 (by decide)

/-- C13, as stated, fails: for a job with 40 required skills of which the candidate has
23, no host makes `calculateJobMatch` or `Job.calculateMatchPercentage` return
`round(100 * 23 / 40) = 58`; the quotient `23 / 40` is rounded to a double below `0.575`,
its product with 100 is `57.49999999999999`, and both return 57. -/
theorem calculateJobMatch_forty_skills :
    ¬ ∃ h : Host,
      calculateJobMatch h fortySkillsJob (some twentyThreeSkills) =
        some (Math.round (100 * (matchCount h fortySkillsJob twentyThreeSkills : ℚ) /
          (fortySkillsJob.skills.length : ℚ))) ∨
      fortySkillsJob.calculateMatchPercentage h (some twentyThreeSkills) =
        Math.round (100 * (matchCount h fortySkillsJob twentyThreeSkills : ℚ) /
          (fortySkillsJob.skills.length : ℚ)) := by
  rintro ⟨h, hc⟩
  have hlen : fortySkillsJob.skills.length = 40 := rfl
  have hd : Math.round (roundDouble (roundDouble (((23 : ℕ) : ℚ) / ((40 : ℕ) : ℚ)) * 100)) = 57 := by
    decide!
  have he : Math.round (100 * ((23 : ℕ) : ℚ) / ((40 : ℕ) : ℚ)) = 58 := by decide!
  rw [calculateJobMatch_of_ne h _ _ (by decide) (by decide),
    calculateMatchPercentage_of_ne h _ _ (by decide) (by decide),
    matchCount_forty, hlen, hd, he] at hc
  revert hc
  decide


/-- C13, amended: for every job with between 1 and 39 required skills and every non-empty
candidate skill list, `calculateJobMatch` and `Job.calculateMatchPercentage` both return
`round(100 * m / n)`, where `m` counts the job skills that equal some candidate skill
ignoring letter case and `n` is the number of job skills. -/
theorem calculateJobMatch_eq_round (h : Host) (job : Job) (cvSkills : List JSString)
    (hcv : cvSkills ≠ []) (hjob : job.skills ≠ []) (hlt : job.skills.length < 40) :
    calculateJobMatch h job (some cvSkills) =
      some (Math.round (100 * (matchCount h job cvSkills : ℚ) / (job.skills.length : ℚ))) ∧
    job.calculateMatchPercentage h (some cvSkills) =
      Math.round (100 * (matchCount h job cvSkills : ℚ) / (job.skills.length : ℚ)) := by
  have hn0 : job.skills.length ≠ 0 := fun h0 => hjob (List.length_eq_zero.mp h0)
  have key := percentage_exact_below_forty job.skills.length (List.mem_range.mpr hlt)
    (matchCount h job cvSkills)
    (List.mem_range.mpr (Nat.lt_succ_of_le (matchCount_le h job cvSkills)))
  rcases key with key | key
  · exact absurd key hn0
  · rw [calculateJobMatch_of_ne h job cvSkills hcv hjob,
      calculateMatchPercentage_of_ne h job cvSkills hcv hjob, key]
    exact ⟨rfl, rfl⟩

/-- The amended C13 on the job of scenario C: one of three skills matches. -/
theorem calculateJobMatch_eq_round_witness :
    matchCount asciiHost scenarioCJob [js "python", js "java"] = 1 ∧
    calculateJobMatch asciiHost scenarioCJob (some [js "python", js "java"]) =
      some (Math.round (100 * ((1 : ℕ) : ℚ) / ((3 : ℕ) : ℚ))) ∧
    scenarioCJob.calculateMatchPercentage asciiHost (some [js "python", js "java"]) =
      Math.round (100 * ((1 : ℕ) : ℚ) / ((3 : ℕ) : ℚ)) :=
  ⟨by decide, calculateJobMatch_eq_round asciiHost scenarioCJob [js "python", js "java"]
    (by decide) (by decide) (by decide)⟩

/-- C14: for every job, the match percentage is the number 0 when the candidate skill
list is absent or empty, in `calculateJobMatch` and in `Job.calculateMatchPercentage`. -/
theorem matchPercentage_without_skills (h : Host) (job : Job) :
    calculateJobMatch h job none = some 0 ∧
    calculateJobMatch h job (some []) = some 0 ∧
    job.calculateMatchPercentage h none = 0 ∧
    job.calculateMatchPercentage h (some []) = 0 :=
  ⟨rfl, rfl, rfl, rfl⟩

/-- C15 at its failing input: for a job without required skills and a candidate with one
skill, `calculateJobMatch` returns `NaN`, whereas `Job.calculateMatchPercentage`, whose
`calculatePercentage` tests for a zero total, returns 0. -/
theorem calculateJobMatch_noSkillsJob (h : Host) :
    calculateJobMatch h noSkillsJob (some [js "python"]) = none ∧
    noSkillsJob.calculateMatchPercentage h (some [js "python"]) = 0 :=
  ⟨rfl, rfl⟩

/-- C16: `Job.getMissingSkills` returns the job skills that are not in
`Job.getMatchedSkills`; every job skill is in exactly one of the two results; both keep
the order of the job skills; together they are a rearrangement of the job skills, and
their lengths add up to the number of job skills. -/
theorem getMissingSkills_partition (h : Host) (job : Job) (candidateSkills : List JSString) :
    job.getMissingSkills h candidateSkills =
      job.skills.filter (fun s => decide (s ∉ job.getMatchedSkills h candidateSkills)) ∧
    (∀ s ∈ job.skills,
      (s ∈ job.getMatchedSkills h candidateSkills ∧
        s ∉ job.getMissingSkills h candidateSkills) ∨
      (s ∉ job.getMatchedSkills h candidateSkills ∧
        s ∈ job.getMissingSkills h candidateSkills)) ∧
    (job.getMatchedSkills h candidateSkills).Sublist job.skills ∧
    (job.getMissingSkills h candidateSkills).Sublist job.skills ∧
    (job.getMatchedSkills h candidateSkills ++ job.getMissingSkills h candidateSkills).Perm
      job.skills ∧
    (job.getMatchedSkills h candidateSkills).length +
      (job.getMissingSkills h candidateSkills).length = job.skills.length := by
  have hperm : (job.getMatchedSkills h candidateSkills ++
      job.getMissingSkills h candidateSkills).Perm job.skills :=
    List.filter_append_perm _ job.skills
  refine ⟨?_, ?_, List.filter_sublist _, List.filter_sublist _, hperm, ?_⟩
  · unfold Job.getMissingSkills Job.getMatchedSkills
    apply List.filter_congr
    intro s hs
    simp only [List.mem_filter, hs, true_and, Bool.not_eq_true]
    cases candidateSkills.any fun c => toLowerCase h c == toLowerCase h s <;> rfl
  · intro s hs
    unfold Job.getMissingSkills Job.getMatchedSkills
    simp only [List.mem_filter, hs, true_and, Bool.not_eq_true', Bool.not_eq_true]
    cases candidateSkills.any fun c => toLowerCase h c == toLowerCase h s <;> simp
  · rw [← List.length_append]
    exact hperm.length_eq

/-- C17: `Job.getMatchLevel` returns the level `high` for every percentage from 70 to
100, `medium` for every percentage from 50 up to but not including 70, and `low` for every
percentage from 0 up to but not including 50. -/
theorem getMatchLevel_thresholds (p : ℚ) :
    (70 ≤ p → p ≤ 100 → Job.getMatchLevel (some p) = MATCH_LEVELS.HIGH) ∧
    (50 ≤ p → p < 70 → Job.getMatchLevel (some p) = MATCH_LEVELS.MEDIUM) ∧
    (0 ≤ p → p < 50 → Job.getMatchLevel (some p) = MATCH_LEVELS.LOW) ∧
    MATCH_LEVELS.HIGH.className = "high" ∧ MATCH_LEVELS.MEDIUM.className = "medium" ∧
    MATCH_LEVELS.LOW.className = "low" := by
  have h70 : ((MATCH_LEVELS.HIGH.min : ℕ) : ℚ) = 70 := by norm_num [MATCH_LEVELS.HIGH]
  have h50 : ((MATCH_LEVELS.MEDIUM.min : ℕ) : ℚ) = 50 := by norm_num [MATCH_LEVELS.MEDIUM]
  refine ⟨?_, ?_, ?_, rfl, rfl, rfl⟩
  · intro h1 _
    simp [Job.getMatchLevel, JSNumber.ge, h70, h1]
  · intro h1 h2
    simp [Job.getMatchLevel, JSNumber.ge, h70, h50, h1, not_le.mpr h2]
  · intro _ h2
    have h3 : p < 70 := by linarith
    simp [Job.getMatchLevel, JSNumber.ge, h70, h50, not_le.mpr h2, not_le.mpr h3]

/-- C17 at the percentages 85, 50 and 33. -/
theorem getMatchLevel_thresholds_witness :
    Job.getMatchLevel (some 85) = MATCH_LEVELS.HIGH ∧
    Job.getMatchLevel (some 50) = MATCH_LEVELS.MEDIUM ∧
    Job.getMatchLevel (some 33) = MATCH_LEVELS.LOW :=
  ⟨(getMatchLevel_thresholds 85).1 (by norm_num) (by norm_num),
    (getMatchLevel_thresholds 50).2.1 (by norm_num) (by norm_num),
    (getMatchLevel_thresholds 33).2.2.1 (by norm_num) (by norm_num)⟩


/-- C18: for every percentage, the class of the job-card badge is the class of
`Job.getMatchLevel`; each of the filters `high`, `medium`, `low` of `displayJobs` keeps
the percentage exactly when `Job.getMatchLevel` gives that class; the high-match
notification test holds exactly when the class is `high`; and exactly one of the three
filters keeps the percentage. -/
theorem matchLevel_consistent (p : ℚ) :
    displayJobs.badgeClass (some p) = (Job.getMatchLevel (some p)).className ∧
    (displayJobs.keeps "high" (some p) = true ↔
      (Job.getMatchLevel (some p)).className = "high") ∧
    (displayJobs.keeps "medium" (some p) = true ↔
      (Job.getMatchLevel (some p)).className = "medium") ∧
    (displayJobs.keeps "low" (some p) = true ↔
      (Job.getMatchLevel (some p)).className = "low") ∧
    (displayJobs.isHighMatch (some p) = true ↔
      (Job.getMatchLevel (some p)).className = "high") ∧
    (["high", "medium", "low"].filter fun f => displayJobs.keeps f (some p)).length = 1 := by
  have h70 : ((MATCH_LEVELS.HIGH.min : ℕ) : ℚ) = 70 := by norm_num [MATCH_LEVELS.HIGH]
  have h50 : ((MATCH_LEVELS.MEDIUM.min : ℕ) : ℚ) = 50 := by norm_num [MATCH_LEVELS.MEDIUM]
  have hk1 : displayJobs.keeps "high" (some p) = decide (70 ≤ p) := rfl
  have hk2 : displayJobs.keeps "medium" (some p) = (decide (50 ≤ p) && decide (p < 70)) := rfl
  have hk3 : displayJobs.keeps "low" (some p) = decide (p < 50) := rfl
  have hb : displayJobs.badgeClass (some p) =
      if 70 ≤ p then "high" else if 50 ≤ p then "medium" else "low" := by
    simp [displayJobs.badgeClass, JSNumber.ge]
  have hl : (Job.getMatchLevel (some p)).className =
      if 70 ≤ p then "high" else if 50 ≤ p then "medium" else "low" := by
    simp only [Job.getMatchLevel, JSNumber.ge, h70, h50, decide_eq_true_eq]
    split_ifs <;> rfl
  have hh : displayJobs.isHighMatch (some p) = decide (70 ≤ p) := rfl
  simp only [List.filter, hk1, hk2, hk3, hb, hl, hh]
  by_cases c1 : 70 ≤ p
  · have c2 : 50 ≤ p := by linarith
    have c3 : ¬ p < 70 := not_lt.mpr c1
    have c4 : ¬ p < 50 := by linarith
    simp [c1, c2, c3, c4]
  · by_cases c2 : 50 ≤ p
    · have c3 : p < 70 := not_le.mp c1
      have c4 : ¬ p < 50 := not_lt.mpr c2
      simp [c1, c2, c3, c4]
    · have c3 : p < 70 := not_le.mp c1
      have c4 : p < 50 := not_le.mp c2
      simp [c1, c2, c3, c4]

/-- C19: scenario C. For a job with skills python, sql, docker and a candidate with
python and java, the matched skills are python, the missing skills are sql and docker,
the match percentage is 33 in both implementations, and the match level is `low`. -/
theorem scenarioC_values (h : Host) :
    scenarioCJob.getMatchedSkills h [js "python", js "java"] = [js "python"] ∧
    scenarioCJob.getMissingSkills h [js "python", js "java"] = [js "sql", js "docker"] ∧
    scenarioCJob.calculateMatchPercentage h (some [js "python", js "java"]) = 33 ∧
    calculateJobMatch h scenarioCJob (some [js "python", js "java"]) = some 33 ∧
    Job.getMatchLevel (some 33) = MATCH_LEVELS.LOW ∧
    MATCH_LEVELS.LOW.className = "low" := by
  have hm : matchCount h scenarioCJob [js "python", js "java"] = 1 := by
    rw [matchCount_eq]
    rfl
  have hlen : scenarioCJob.skills.length = 3 := rfl
  have hd : Math.round (roundDouble (roundDouble (((1 : ℕ) : ℚ) / ((3 : ℕ) : ℚ)) * 100)) = 33 := by
    decide!
  refine ⟨rfl, rfl, ?_, ?_, by decide!, rfl⟩
  · rw [calculateMatchPercentage_of_ne h _ _ (by decide) (by decide), hm, hlen, hd]
  · rw [calculateJobMatch_of_ne h _ _ (by decide) (by decide), hm, hlen, hd]

set_option maxRecDepth 1000000 in
/-- C20, as stated, fails: for a transcript of 309 digits `9` followed by
` years of experience` the years reported are `Infinity`, which is no integer. -/
theorem experienceYears_not_integer :
    hugeYears = List.replicate 309 57 ++ js " years of experience" ∧
    detectExperienceYears asciiHost hugeYears = .Infinity ∧
    (performAnalysis asciiHost hugeYears).experienceYears = .Infinity ∧
    ¬ ∃ n : Int, (performAnalysis asciiHost hugeYears).experienceYears = .finite n := by
  have hd : detectExperienceYears asciiHost hugeYears = .Infinity := by decide!
  have hp : (performAnalysis asciiHost hugeYears).experienceYears =
      detectExperienceYears asciiHost hugeYears :=
    performAnalysis_experienceYears asciiHost hugeYears
  refine ⟨rfl, hd, hp.trans hd, ?_⟩
  rintro ⟨n, hn⟩
  rw [hp, hd] at hn
  cases hn

/-- C20, amended: for every transcript, the years reported by `detectExperienceYears`,
which are the `experienceYears` of `performAnalysis`, are not negative (nor `NaN`): they
are an integer that is at least 1, or `Infinity`; and they are `Infinity` only when a
value observed by the patterns is. -/
theorem experienceYears_integer_or_Infinity (h : Host) (text : JSString) :
    0 ≤ detectExperienceYears h text ∧
    (performAnalysis h text).experienceYears = detectExperienceYears h text ∧
    0 ≤ (performAnalysis h text).experienceYears ∧
    ((∃ n : Int, detectExperienceYears h text = .finite n ∧ 1 ≤ n) ∨
      detectExperienceYears h text = .Infinity) ∧
    (detectExperienceYears h text = .Infinity →
      some SignedYears.Infinity ∈ observedYears h text) := by
  have hp := detectExperienceYears_pos h text
  refine ⟨Years.zero_le_of_one_le hp, rfl, Years.zero_le_of_one_le hp,
    Years.finite_or_Infinity hp, ?_⟩
  intro hinf
  obtain ⟨m, hm, -, -, -, hmem⟩ :=
    foldl_max_isSome (observedYears h text) 0 (Years.le_refl _) (observedYears_isSome h text)
  rw [← patterns_foldl_eq] at hm
  rw [detectExperienceYears_of_foldl h text m hm] at hinf
  have hmi : m = .Infinity := by
    by_cases h0 : m = 0
    · rw [if_pos h0] at hinf
      cases hinf
    · rw [if_neg h0] at hinf
      exact hinf
  rcases hmem with hmem | hmem
  · rw [hmi] at hmem
    cases hmem
  · rw [hmi] at hmem
    exact hmem

/-- C21, as stated, fails: in the transcript `2020-2015` the only value observed is the
difference `-5` of the descending range, and every host gets 2 years for it; no host and
no transcript make `detectExperienceYears` return a negative number. -/
theorem detectExperienceYears_descending_range :
    (∀ h : Host, observedYears h (js "2020-2015") = [some (-5)] ∧
      detectExperienceYears h (js "2020-2015") = 2) ∧
    ¬ ∃ (h : Host) (text : JSString), detectExperienceYears h text < 0 := by
  refine ⟨fun h => ⟨by rfl, by rfl⟩, ?_⟩
  rintro ⟨h, text, hneg⟩
  exact Years.not_lt_zero_of_one_le (detectExperienceYears_pos h text) hneg

/-- C21, amended: the difference of a date range may be negative, but it is clamped by
the running maximum, which starts at 0: for every transcript the loop ends with a number
`maxYears` that is not negative, that bounds every value observed and that is 0 or one
of them; the function returns 2 when it is 0 and `maxYears` otherwise, so never a
negative number. -/
theorem detectExperienceYears_clamped (h : Host) (text : JSString) :
    ∃ maxYears : Years,
      detectExperienceYears.patterns.foldl (detectExperienceYears.step h text) (some 0) =
        some maxYears ∧
      0 ≤ maxYears ∧
      (∀ v : SignedYears, some v ∈ observedYears h text → v ≤ maxYears.toSigned) ∧
      (maxYears = 0 ∨ some maxYears.toSigned ∈ observedYears h text) ∧
      detectExperienceYears h text = (if maxYears = 0 then 2 else maxYears) ∧
      ¬ detectExperienceYears h text < 0 := by
  obtain ⟨m, hm, h0, -, hall, hmem⟩ :=
    foldl_max_isSome (observedYears h text) 0 (Years.le_refl _) (observedYears_isSome h text)
  rw [← patterns_foldl_eq] at hm
  exact ⟨m, hm, h0, hall, hmem, detectExperienceYears_of_foldl h text m hm,
    Years.not_lt_zero_of_one_le (detectExperienceYears_pos h text)⟩

/-- C22: scenario D. When `getDocument` throws, or reading one of the pages
`1..numPages` throws, `extractTextFromPDF` returns normally and leaves the sentinel
`Error extracting text from PDF. Please try a different file.` as the transcript (for
no file at all does it throw to its caller). On that sentinel `performAnalysis` detects
no skill, gives the scores 0, 20, 50 and 50, a non-empty list of recommendations and the
overall score 25, the overall score of the empty transcript. -/
theorem extractTextFromPDF_error (h : Host) (file : PDFFile)
    (hthrows : (∃ e, file.getDocument = .error e) ∨
      ∃ pdf i e, file.getDocument = .ok pdf ∧ 1 ≤ i ∧ i ≤ pdf.numPages ∧
        pdf.getPage i = .error e) :
    extractTextFromPDF file = .ok pdfSentinel ∧
    (∀ f : PDFFile, ∃ t, extractTextFromPDF f = .ok t) ∧
    pdfSentinel = js "Error extracting text from PDF. Please try a different file." ∧
    (performAnalysis h pdfSentinel).skills = [] ∧
    (performAnalysis h pdfSentinel).skillsScore = 0 ∧
    (performAnalysis h pdfSentinel).experienceScore = 20 ∧
    (performAnalysis h pdfSentinel).educationScore = 50 ∧
    (performAnalysis h pdfSentinel).formatScore = 50 ∧
    (performAnalysis h pdfSentinel).recommendations ≠ [] ∧
    (performAnalysis h pdfSentinel).overallScore = 25 ∧
    (performAnalysis h pdfSentinel).overallScore = (performAnalysis h []).overallScore := by
  have hex : extractTextFromPDF file = .ok pdfSentinel := by
    have herr : ∃ e, extractTextFromPDF.tryBlock file = .error e := by
      rcases hthrows with ⟨e, he⟩ | ⟨pdf, i, e, hdoc, h1, h2, he⟩
      · exact ⟨e, by simp only [extractTextFromPDF.tryBlock, he]⟩
      · simp only [extractTextFromPDF.tryBlock, hdoc]
        exact pagesLoop_error pdf e pdf.numPages 1 i [] h1 (by omega) he
    obtain ⟨e, he⟩ := herr
    simp only [extractTextFromPDF, he]
    rfl
  obtain ⟨h1, h2, h3, h4, h5⟩ := performAnalysis_scores h pdfSentinel 0 2
    ⟨2, "Bachelor\x27s Degree"⟩ 50 rfl rfl rfl rfl
  have s1 : (performAnalysis h pdfSentinel).skillsScore = 0 := by
    rw [h1]; simp only [skillsScore, Math.round]; norm_num
  have s2 : (performAnalysis h pdfSentinel).experienceScore = 20 := by
    rw [h2]; simp only [experienceScore, Math.round]; norm_num
  have s3 : (performAnalysis h pdfSentinel).educationScore = 50 := by
    rw [h3]; simp only [educationScore, Math.round]; norm_num
  have s4 : (performAnalysis h pdfSentinel).formatScore = 50 := by
    rw [h4]; rfl
  have s5 : (performAnalysis h pdfSentinel).overallScore = 25 := by
    rw [h5]; simp only [overallScore, skillsScore, experienceScore, educationScore, Math.round]
    norm_num
  have htotal : ∀ f : PDFFile, ∃ t, extractTextFromPDF f = .ok t := by
    intro f
    cases hf : extractTextFromPDF.tryBlock f with
    | error e => exact ⟨pdfSentinel, by simp only [extractTextFromPDF, hf]; rfl⟩
    | ok t => exact ⟨t, by simp only [extractTextFromPDF, hf]⟩
  refine ⟨hex, htotal, rfl, rfl, s1, s2, s3, s4, ?_, s5, rfl⟩
  simp only [performAnalysis]
  exact generateRecommendations_ne_nil _ _ _ _ _

/-- C22 on a file whose second page cannot be read. -/
theorem extractTextFromPDF_error_witness :
    extractTextFromPDF brokenPagePDF = .ok pdfSentinel ∧
    (performAnalysis asciiHost pdfSentinel).overallScore = 25 :=
  have key := extractTextFromPDF_error asciiHost brokenPagePDF
    (Or.inr ⟨_, 2, "page", rfl, by decide, by decide, rfl⟩)
  ⟨key.1, key.2.2.2.2.2.2.2.2.2.1⟩

/-- C23, as stated, fails: for a file of one page with the items `Hello` and `World`
the transcript is `Hello World` followed by a newline character, not the transcript of
the specification, which has no newline after the last page. -/
theorem extractTextFromPDF_trailing_newline :
    extractTextFromPDF onePagePDF = .ok (js "Hello World\n") ∧
    pagesSeparatedByNewlines [[js "Hello", js "World"]] = js "Hello World" ∧
    extractTextFromPDF onePagePDF ≠ .ok (pagesSeparatedByNewlines [[js "Hello", js "World"]]) := by
  refine ⟨by rfl, by rfl, ?_⟩
  have h1 : extractTextFromPDF onePagePDF = .ok (js "Hello World\n") := by rfl
  have h2 : pagesSeparatedByNewlines [[js "Hello", js "World"]] = js "Hello World" := by rfl
  rw [h1, h2]
  intro hc
  injection hc with hc
  exact absurd hc (by decide)

/-- C23, amended: for a file that parses with the pages `1..N`, the transcript is
built in page order, the text of each page being its items joined by single spaces and
followed by a newline character; with one page or more it is the transcript of the
specification followed by one more newline character, and with no page it is empty. -/
theorem extractTextFromPDF_pages (file : PDFFile) (pdf : PDFDocument)
    (pages : List (List JSString)) (hdoc : file.getDocument = .ok pdf)
    (hnum : pdf.numPages = pages.length)
    (hpages : ∀ (k : Nat) (hk : k < pages.length), pdf.getPage (k + 1) = .ok (pages.get ⟨k, hk⟩)) :
    extractTextFromPDF file =
      .ok (pages.map fun items => join (js " ") items ++ js "\n").flatten ∧
    (pages ≠ [] → extractTextFromPDF file = .ok (pagesSeparatedByNewlines pages ++ js "\n")) ∧
    (pages = [] → extractTextFromPDF file = .ok []) := by
  have key : extractTextFromPDF file =
      .ok (pages.map fun items => join (js " ") items ++ js "\n").flatten := by
    simp only [extractTextFromPDF, extractTextFromPDF.tryBlock, hdoc, hnum]
    rw [pagesLoop_ok pdf pages 1 []]
    · simp
    · intro k hk
      rw [Nat.add_comm]
      exact hpages k hk
  refine ⟨key, ?_, ?_⟩
  · intro hne
    rw [key]
    congr 1
    have := join_append_separator (js "\n") (pages.map (join (js " "))) (by simpa using hne)
    unfold pagesSeparatedByNewlines
    rw [← this, List.map_map]
    rfl
  · intro hnil
    rw [key, hnil]
    rfl

/-- The amended C23 on a file of two pages. -/
theorem extractTextFromPDF_pages_witness :
    extractTextFromPDF twoPagePDF = .ok (js "Jane Doe\nPython SQL\n") :=
  (extractTextFromPDF_pages twoPagePDF
    (PDFDocument.ofPages [[js "Jane", js "Doe"], [js "Python", js "SQL"]])
    [[js "Jane", js "Doe"], [js "Python", js "SQL"]] rfl rfl
    (by
      intro k hk
      have hk2 : k < 2 := hk
      interval_cases k <;> rfl)).1

/-- C24: the catalog has the job `job-4`, the UX/UI Designer, whose required skills are
figma, adobe xd, user research, accessibility and responsive design; none of them is a
skill `performAnalysis` can detect, so for every transcript the skills detected match
none of them and the match percentage is 0 in both implementations. -/
theorem job4_never_matches (h : Host) (text : JSString) :
    (∃ job ∈ jobsDatabase, job.id = "job-4") ∧
    ∀ job ∈ jobsDatabase, job.id = "job-4" →
      job.title = "UX/UI Designer" ∧
      job.skills = [js "figma", js "adobe xd", js "user research", js "accessibility",
        js "responsive design"] ∧
      (∀ s ∈ job.skills, s ∉ skillsDatabase) ∧
      job.getMatchedSkills h (performAnalysis h text).skills = [] ∧
      calculateJobMatch h job (some (performAnalysis h text).skills) = some 0 ∧
      job.calculateMatchPercentage h (some (performAnalysis h text).skills) = 0 := by
  refine ⟨⟨⟨"job-4", "UX/UI Designer",
      [js "figma", js "adobe xd", js "user research", js "accessibility",
        js "responsive design"]⟩, by simp [jobsDatabase], rfl⟩, ?_⟩
  intro job hjob hid
  have hj : job = ⟨"job-4", "UX/UI Designer",
      [js "figma", js "adobe xd", js "user research", js "accessibility",
        js "responsive design"]⟩ := by
    simp only [jobsDatabase, List.mem_cons, List.mem_singleton, List.not_mem_nil, or_false]
      at hjob
    rcases hjob with rfl | rfl | rfl | rfl | rfl
    · exact absurd hid (by decide)
    · exact absurd hid (by decide)
    · exact absurd hid (by decide)
    · rfl
    · exact absurd hid (by decide)
  have hskills : job.skills = [js "figma", js "adobe xd", js "user research",
      js "accessibility", js "responsive design"] := by rw [hj]
  have hne : job.skills ≠ [] := by rw [hskills]; decide
  have hcand : ∀ c ∈ (performAnalysis h text).skills, c ∈ skillsDatabase :=
    fun c hc => ((mem_skills_iff h text c).mp hc).1
  have hlow : ∀ s ∈ job.skills, toLowerCase h s ∉ skillsDatabase := by
    intro s hs
    rw [hskills] at hs
    simp only [List.mem_cons, List.mem_singleton, List.not_mem_nil, or_false] at hs
    rcases hs with rfl | rfl | rfl | rfl | rfl
    · exact (by decide : js "figma" ∉ skillsDatabase)
    · exact (by decide : js "adobe xd" ∉ skillsDatabase)
    · exact (by decide : js "user research" ∉ skillsDatabase)
    · exact (by decide : js "accessibility" ∉ skillsDatabase)
    · exact (by decide : js "responsive design" ∉ skillsDatabase)
  have hzero := matchCount_eq_zero h job _ hcand hlow
  have hmatched : job.getMatchedSkills h (performAnalysis h text).skills = [] :=
    List.length_eq_zero.mp ((matchCount_eq h _ _).symm.trans hzero)
  refine ⟨by rw [hj], hskills, ?_, hmatched, ?_, ?_⟩
  · rw [hskills]; decide
  · by_cases hnil : (performAnalysis h text).skills = []
    · rw [hnil]; rfl
    · rw [calculateJobMatch_of_ne h _ _ hnil hne, hzero, percentage_zero]
  · by_cases hnil : (performAnalysis h text).skills = []
    · rw [hnil]; rfl
    · rw [calculateMatchPercentage_of_ne h _ _ hnil hne, hzero, percentage_zero]

/-- C25: for every transcript, when `javascript` is detected so is `java`, when
`postgresql` or `mysql` is detected so is `sql`, and in each of these cases at least two
skills are detected. -/
theorem skills_codetected (h : Host) (text : JSString) :
    (js "javascript" ∈ (performAnalysis h text).skills →
      js "java" ∈ (performAnalysis h text).skills) ∧
    (js "postgresql" ∈ (performAnalysis h text).skills ∨
        js "mysql" ∈ (performAnalysis h text).skills →
      js "sql" ∈ (performAnalysis h text).skills) ∧
    (js "javascript" ∈ (performAnalysis h text).skills ∨
        js "postgresql" ∈ (performAnalysis h text).skills ∨
        js "mysql" ∈ (performAnalysis h text).skills →
      2 ≤ (performAnalysis h text).skills.length) := by
  have i1 : js "java" <:+: js "javascript" := (includes_iff _ _).mp (by decide)
  have i2 : js "sql" <:+: js "postgresql" := (includes_iff _ _).mp (by decide)
  have i3 : js "sql" <:+: js "mysql" := (includes_iff _ _).mp (by decide)
  have j1 := fun ha => mem_skills_of_infix h text (by decide) i1 ha
  have j2 := fun ha => mem_skills_of_infix h text (by decide) i2 ha
  have j3 := fun ha => mem_skills_of_infix h text (by decide) i3 ha
  refine ⟨j1, ?_, ?_⟩
  · rintro (ha | ha)
    · exact j2 ha
    · exact j3 ha
  · rintro (ha | ha | ha)
    · exact two_le_length_of_mem (by decide) ha (j1 ha)
    · exact two_le_length_of_mem (by decide) ha (j2 ha)
    · exact two_le_length_of_mem (by decide) ha (j3 ha)

/-- C25 on a transcript that names JavaScript and MySQL. -/
theorem skills_codetected_witness :
    js "java" ∈ (performAnalysis asciiHost (js "JavaScript and MySQL")).skills ∧
    js "sql" ∈ (performAnalysis asciiHost (js "JavaScript and MySQL")).skills ∧
    js "javascript" ∈ (performAnalysis asciiHost (js "JavaScript and MySQL")).skills :=
  have hj : js "javascript" ∈ (performAnalysis asciiHost (js "JavaScript and MySQL")).skills := by
    decide
  have hm : js "mysql" ∈ (performAnalysis asciiHost (js "JavaScript and MySQL")).skills := by
    decide
  ⟨(skills_codetected asciiHost (js "JavaScript and MySQL")).1 hj,
    (skills_codetected asciiHost (js "JavaScript and MySQL")).2.1 (Or.inr hm), hj⟩

/-- C26: a transcript whose lowercase form contains `associate` or `diploma` and none
of `phd`, `doctorate`, `master`, `mba`, `bachelor` gets level 1 and the education score
25; a transcript without any degree keyword gets level 2 and the education score 50; the
level is always 1, 2, 3 or 4, never 0. So the score is not monotone: the empty
transcript is a part of the transcript `diploma` and scores strictly higher. -/
theorem detectEducation_not_monotone (h : Host) (text : JSString) :
    ((js "associate" <:+: toLowerCase h text ∨ js "diploma" <:+: toLowerCase h text) ∧
        ¬ js "phd" <:+: toLowerCase h text ∧ ¬ js "doctorate" <:+: toLowerCase h text ∧
        ¬ js "master" <:+: toLowerCase h text ∧ ¬ js "mba" <:+: toLowerCase h text ∧
        ¬ js "bachelor" <:+: toLowerCase h text →
      (detectEducation h text).level = 1 ∧ (performAnalysis h text).educationScore = 25) ∧
    ((∀ e ∈ detectEducation.degrees, ¬ js e.1 <:+: toLowerCase h text) →
      (detectEducation h text).level = 2 ∧ (performAnalysis h text).educationScore = 50) ∧
    ((detectEducation h text).level = 1 ∨ (detectEducation h text).level = 2 ∨
      (detectEducation h text).level = 3 ∨ (detectEducation h text).level = 4) ∧
    (detectEducation h text).level ≠ 0 ∧
    ([] <:+: js "diploma" ∧
      (performAnalysis h (js "diploma")).educationScore = 25 ∧
      (performAnalysis h []).educationScore = 50 ∧
      (performAnalysis h (js "diploma")).educationScore <
        (performAnalysis h []).educationScore) := by
  have hscore : ∀ (t : JSString) (l : Nat), (detectEducation h t).level = l →
      (performAnalysis h t).educationScore = 25 * (l : Int) := by
    intro t l hl
    have : (performAnalysis h t).educationScore =
        Math.round (educationScore (detectEducation h t)) := rfl
    rw [this]
    unfold educationScore
    rw [hl]
    have : ((l : ℚ) * 25) = ((25 * (l : Int) : Int) : ℚ) := by push_cast; ring
    rw [this, Math.round_intCast]
  have hd : (performAnalysis h (js "diploma")).educationScore = 25 := hscore _ 1 rfl
  have he : (performAnalysis h []).educationScore = 50 := hscore _ 2 rfl
  refine ⟨?_, ?_, ?_, ?_, ⟨List.nil_infix, hd, he, by rw [hd, he]; decide⟩⟩
  · rintro ⟨hor, n1, n2, n3, n4, n5⟩
    have hl : (detectEducation h text).level = 1 := by
      unfold detectEducation
      by_cases ha : js "associate" <:+: toLowerCase h text
      · have := loop_first (toLowerCase h text)
          [("phd", ⟨4, "Ph.D."⟩), ("doctorate", ⟨4, "Doctorate"⟩),
            ("master", ⟨3, "Master\x27s Degree"⟩), ("mba", ⟨3, "MBA"⟩),
            ("bachelor", ⟨2, "Bachelor\x27s Degree"⟩)]
          "associate" ⟨1, "Associate Degree"⟩ [("diploma", ⟨1, "Diploma"⟩)]
          (by
            intro e he
            simp only [List.mem_cons, List.mem_singleton, List.not_mem_nil, or_false] at he
            rcases he with rfl | rfl | rfl | rfl | rfl <;> assumption)
          ha
        exact congrArg Education.level this
      · have hdip : js "diploma" <:+: toLowerCase h text := hor.resolve_left ha
        have := loop_first (toLowerCase h text)
          [("phd", ⟨4, "Ph.D."⟩), ("doctorate", ⟨4, "Doctorate"⟩),
            ("master", ⟨3, "Master\x27s Degree"⟩), ("mba", ⟨3, "MBA"⟩),
            ("bachelor", ⟨2, "Bachelor\x27s Degree"⟩), ("associate", ⟨1, "Associate Degree"⟩)]
          "diploma" ⟨1, "Diploma"⟩ []
          (by
            intro e he
            simp only [List.mem_cons, List.mem_singleton, List.not_mem_nil, or_false] at he
            rcases he with rfl | rfl | rfl | rfl | rfl | rfl <;> assumption)
          hdip
        exact congrArg Education.level this
    exact ⟨hl, hscore _ 1 hl⟩
  · intro hnone
    have hl : (detectEducation h text).level = 2 := by
      unfold detectEducation
      rw [loop_none _ _ hnone]
    exact ⟨hl, hscore _ 2 hl⟩
  · obtain ⟨h1, h4⟩ := detectEducation_level h text
    omega
  · obtain ⟨h1, h4⟩ := detectEducation_level h text
    omega

/-- C26 on a transcript that names an associate degree. -/
theorem detectEducation_not_monotone_witness :
    (detectEducation asciiHost (js "Associate of Arts")).level = 1 ∧
    (performAnalysis asciiHost (js "Associate of Arts")).educationScore = 25 :=
  (detectEducation_not_monotone asciiHost (js "Associate of Arts")).1
    ⟨Or.inl ((includes_iff _ _).mp (by decide)),
      fun hc => absurd ((includes_iff _ _).mpr hc) (by decide),
      fun hc => absurd ((includes_iff _ _).mpr hc) (by decide),
      fun hc => absurd ((includes_iff _ _).mpr hc) (by decide),
      fun hc => absurd ((includes_iff _ _).mpr hc) (by decide),
      fun hc => absurd ((includes_iff _ _).mpr hc) (by decide)⟩

/-- C27: whenever no value observed by the patterns is positive, `detectExperienceYears`
returns 2; this covers transcripts in which patterns match, such as
`0 years of experience`, `2019-2019` and `2020-2015`, as well as those in which nothing
matches. The result is never 0 and always at least 1. -/
theorem detectExperienceYears_nonpositive (h : Host) (text : JSString) :
    ((∀ v : SignedYears, some v ∈ observedYears h text → v ≤ 0) →
      detectExperienceYears h text = 2) ∧
    detectExperienceYears h text ≠ 0 ∧
    1 ≤ detectExperienceYears h text ∧
    (observedYears h (js "0 years of experience") = [some 0] ∧
      detectExperienceYears h (js "0 years of experience") = 2) ∧
    (observedYears h (js "2019-2019") = [some 0] ∧
      detectExperienceYears h (js "2019-2019") = 2) ∧
    (observedYears h (js "2020-2015") = [some (-5)] ∧
      detectExperienceYears h (js "2020-2015") = 2) ∧
    (observedYears h [] = [] ∧ detectExperienceYears h [] = 2) := by
  have hp := detectExperienceYears_pos h text
  refine ⟨?_, Years.ne_zero_of_one_le hp, hp, ⟨by rfl, by rfl⟩, ⟨by rfl, by rfl⟩,
    ⟨by rfl, by rfl⟩, ⟨by rfl, by rfl⟩⟩
  intro hall
  obtain ⟨m, hm, h0, -, -, hmem⟩ :=
    foldl_max_isSome (observedYears h text) 0 (Years.le_refl _) (observedYears_isSome h text)
  have hm0 : m = 0 := by
    rcases hmem with hmem | hmem
    · exact hmem
    · exact Years.le_antisymm (Years.toSigned_le.mp (hall _ hmem)) h0
  subst hm0
  rw [← patterns_foldl_eq] at hm
  rw [detectExperienceYears_of_foldl h text 0 hm]
  rfl

/-- C27 on a transcript with a zero count of years and a descending range. -/
theorem detectExperienceYears_nonpositive_witness :
    observedYears asciiHost (js "0 years of experience, 2020-2015") = [some 0, some (-5)] ∧
    detectExperienceYears asciiHost (js "0 years of experience, 2020-2015") = 2 :=
  ⟨by rfl, (detectExperienceYears_nonpositive asciiHost
    (js "0 years of experience, 2020-2015")).1 (by
      have hobs : observedYears asciiHost (js "0 years of experience, 2020-2015") =
          [some 0, some (-5)] := by rfl
      intro n hn
      rw [hobs] at hn
      simp only [List.mem_cons, List.mem_singleton, List.not_mem_nil, or_false,
        Option.some.injEq] at hn
      rcases hn with rfl | rfl <;> decide)⟩

/-- C28: for every job with a required skill and every candidate skill list (also a
missing one), `calculateJobMatch` of `app.js` returns the number that
`Job.calculateMatchPercentage` returns on the same job. -/
theorem calculateJobMatch_eq_calculateMatchPercentage (h : Host) (job : Job)
    (candidateSkills : Option (List JSString)) (hjob : job.skills ≠ []) :
    calculateJobMatch h job candidateSkills =
      some (job.calculateMatchPercentage h candidateSkills) := by
  have h2 : ¬ job.skills.length = 0 := fun h0 => hjob (List.length_eq_zero.mp h0)
  cases candidateSkills with
  | none => rfl
  | some candidateSkills =>
    by_cases h1 : candidateSkills.length = 0
    · simp only [calculateJobMatch, Job.calculateMatchPercentage, if_pos h1]
    · simp only [calculateJobMatch, Job.calculateMatchPercentage, if_neg h1, if_neg h2,
        calculatePercentage, Job.getMatchedSkills]

/-- C28 on the job and the candidate of scenario C. -/
theorem calculateJobMatch_eq_calculateMatchPercentage_witness :
    calculateJobMatch asciiHost scenarioCJob (some [js "python", js "java"]) =
      some (scenarioCJob.calculateMatchPercentage asciiHost (some [js "python", js "java"])) :=
  calculateJobMatch_eq_calculateMatchPercentage asciiHost scenarioCJob
    (some [js "python", js "java"]) (by decide)

/-- C29: for every job with a required skill, if every skill of the candidate list `a`
occurs in the candidate list `b`, then the match percentage for `a` is at most the one
for `b`, in both implementations, the missing skills for `b` are a sublist of the
missing skills for `a`, and the matched skills for `a` a sublist of those for `b`. -/
theorem jobMatch_monotone (h : Host) (job : Job) (a b : List JSString)
    (hjob : job.skills ≠ []) (hsub : ∀ s ∈ a, s ∈ b) :
    job.calculateMatchPercentage h (some a) ≤ job.calculateMatchPercentage h (some b) ∧
    (∃ pa pb : Int, calculateJobMatch h job (some a) = some pa ∧
      calculateJobMatch h job (some b) = some pb ∧ pa ≤ pb) ∧
    (job.getMissingSkills h b).Sublist (job.getMissingSkills h a) ∧
    (job.getMatchedSkills h a).Sublist (job.getMatchedSkills h b) := by
  have hany : ∀ s, (a.any fun c => toLowerCase h c == toLowerCase h s) = true →
      (b.any fun c => toLowerCase h c == toLowerCase h s) = true := by
    intro s hs
    rw [List.any_eq_true] at hs ⊢
    obtain ⟨c, hc, heq⟩ := hs
    exact ⟨c, hsub c hc, heq⟩
  have hpct : job.calculateMatchPercentage h (some a) ≤
      job.calculateMatchPercentage h (some b) ∧
      ∃ pa pb : Int, calculateJobMatch h job (some a) = some pa ∧
        calculateJobMatch h job (some b) = some pb ∧ pa ≤ pb := by
    by_cases ha : a = []
    · subst ha
      by_cases hb : b = []
      · subst hb
        exact ⟨le_refl _, 0, 0, rfl, rfl, le_refl _⟩
      · rw [calculateMatchPercentage_of_ne h job b hb hjob,
          calculateJobMatch_of_ne h job b hb hjob]
        exact ⟨percentage_nonneg _ _, 0, _, rfl, rfl, percentage_nonneg _ _⟩
    · have hb : b ≠ [] := by
        obtain ⟨s, hs⟩ := List.exists_mem_of_ne_nil a ha
        exact List.ne_nil_of_mem (hsub s hs)
      rw [calculateMatchPercentage_of_ne h job a ha hjob,
        calculateMatchPercentage_of_ne h job b hb hjob,
        calculateJobMatch_of_ne h job a ha hjob, calculateJobMatch_of_ne h job b hb hjob]
      have hm := percentage_mono _ _ job.skills.length (matchCount_mono h job a b hsub)
      exact ⟨hm, _, _, rfl, rfl, hm⟩
  refine ⟨hpct.1, hpct.2, ?_, ?_⟩
  · unfold Job.getMissingSkills
    apply List.monotone_filter_right
    intro s hs
    cases hb : a.any fun c => toLowerCase h c == toLowerCase h s with
    | false => rfl
    | true =>
      rw [hany s hb] at hs
      exact absurd hs (by decide)
  · unfold Job.getMatchedSkills
    apply List.monotone_filter_right
    intro s hs
    exact hany s hs

/-- C29 on the job of scenario C, for a candidate who adds `sql` to `python`. -/
theorem jobMatch_monotone_witness :
    scenarioCJob.calculateMatchPercentage asciiHost (some [js "python"]) ≤
      scenarioCJob.calculateMatchPercentage asciiHost (some [js "sql", js "python"]) ∧
    (scenarioCJob.getMissingSkills asciiHost [js "sql", js "python"]).Sublist
      (scenarioCJob.getMissingSkills asciiHost [js "python"]) :=
  have key := jobMatch_monotone asciiHost scenarioCJob [js "python"] [js "sql", js "python"]
    (by decide) (by decide)
  ⟨key.1, key.2.2.1⟩

/-- C30: for every transcript, `hasPhone` is true when the transcript contains ten or
more consecutive decimal digits, whatever stands before and after them, and false when
it contains fewer than ten decimal digits in total. -/
theorem hasPhone_unanchored (h : Host) (text : JSString) :
    ((∃ pre ds post : JSString, text = pre ++ ds ++ post ∧ 10 ≤ ds.length ∧
        ∀ c ∈ ds, isDigit c = true) → (performAnalysis h text).hasPhone = true) ∧
    (digitCount text < 10 → (performAnalysis h text).hasPhone = false) := by
  have hp : (performAnalysis h text).hasPhone = (phonePattern.exec text).isSome := rfl
  constructor
  · rintro ⟨pre, ds, post, rfl, hlen, hds⟩
    rw [hp]
    exact (phonePattern.exec_isSome_iff (by rfl) _).mpr
      (phonePattern_ten_digits pre ds post hlen hds)
  · intro hlt
    rw [hp]
    cases hsome : (phonePattern.exec text).isSome with
    | false => rfl
    | true =>
      have := phonePattern_digits text ((phonePattern.exec_isSome_iff (by rfl) _).mp hsome)
      omega

/-- C30 on a transcript with a number of seventeen digits and on one with seven
digits. -/
theorem hasPhone_unanchored_witness :
    (performAnalysis asciiHost (js "ref 20251231123456789 end")).hasPhone = true ∧
    (performAnalysis asciiHost (js "call 555-1234")).hasPhone = false :=
  ⟨(hasPhone_unanchored asciiHost (js "ref 20251231123456789 end")).1
      ⟨js "ref ", js "20251231123456789", js " end", by rfl, by decide, by decide⟩,
    (hasPhone_unanchored asciiHost (js "call 555-1234")).2 (by decide)⟩

end IncludeMe
